import Mathlib

/-!
# tsuru-admin: a verification development

A shallow embedding of the command implementations of `pool.go`, `platform.go`,
`platform_add.go` and `quota.go`, and of the vendored `provision/pool_config.go`,
followed by theorems about them.

Conventions of the embedding:

* a Go `string` is a list of bytes (`GoString`); `lit` gives the bytes of an ASCII literal;
* the collaborators that are not part of these sources (`cmd.GetURL`, `http.NewRequest`,
  `cmd.Client.Do`, `json.Marshal`, the tokens `fmt.Fscanf` reads from standard input) are
  fields of an environment `Env` or of the `Context`, so every theorem holds for all of them;
* standard output is the list of the writes a command performs, in order;
* a run-time panic (an index out of range on `ctx.Args`) is the result `Result.panic`.
-/

namespace TsuruAdmin

/-! ## Go strings -/

/-- A Go string: a sequence of bytes. -/
abbrev GoString := List (Fin 256)

/-- The bytes of an ASCII string literal of the source. -/
def lit (s : String) : GoString := s.toList.map (fun c => Fin.ofNat c.toNat)

/-- Byte-wise lexicographic `<` on strings, the order `sort.Strings` uses. -/
def strLess : GoString → GoString → Bool
  | [], [] => false
  | [], _ :: _ => true
  | _ :: _, [] => false
  | a :: as, b :: bs => decide (a < b) || (decide (a = b) && strLess as bs)

/-- The function `strings.HasSuffix`. -/
def HasSuffix (s suffix : GoString) : Bool :=
  decide (suffix.length ≤ s.length) && decide (s.drop (s.length - suffix.length) = suffix)

/-! ## Errors -/

/-- The Go errors the commands can meet: `*errors.HTTP` of tsuru (a status code and a
message), `url.EscapeError`, and any other error, identified by its message. -/
inductive GoError where
  | HTTP (Code : Int) (Message : GoString)
  | EscapeError (fragment : GoString)
  | other (msg : GoString)
  deriving DecidableEq, Repr

/-- The constant `http.StatusPreconditionFailed`. -/
def StatusPreconditionFailed : Int := 412

/-! ## strconv -/

/-- The function `strconv.FormatBool`. -/
def FormatBool (b : Bool) : GoString := if b then lit "true" else lit "false"

/-- The function `strconv.ParseBool`: the accepted spellings, anything else is a
syntax error (its message quotes `str` plainly). -/
def ParseBool (str : GoString) : Except GoError Bool :=
  if str = lit "1" ∨ str = lit "t" ∨ str = lit "T" ∨ str = lit "TRUE" ∨ str = lit "true"
      ∨ str = lit "True" then .ok true
  else if str = lit "0" ∨ str = lit "f" ∨ str = lit "F" ∨ str = lit "FALSE"
      ∨ str = lit "false" ∨ str = lit "False" then .ok false
  else .error (.other (lit "strconv.ParseBool: parsing \"" ++ str ++ lit "\": invalid syntax"))

/-! ## net/url: query escaping, `url.Values`, `url.ParseQuery` -/

/-- Letters and digits, the first test of `shouldEscape`. -/
def isAlnum (c : Fin 256) : Bool :=
  (decide (97 ≤ c.val) && decide (c.val ≤ 122)) || (decide (65 ≤ c.val) && decide (c.val ≤ 90))
    || (decide (48 ≤ c.val) && decide (c.val ≤ 57))

/-- The function `shouldEscape` of net/url in mode `encodeQueryComponent`: only letters,
digits and `-`, `_`, `.`, `~` stay as they are. -/
def shouldEscape (c : Fin 256) : Bool :=
  if isAlnum c then false
  else if c ∈ lit "-_.~" then false
  else true

/-- The digit table `"0123456789ABCDEF"[n]`. -/
def upperhex (n : Nat) : Fin 256 := (lit "0123456789ABCDEF").getD n 0

/-- The bytes `escape` emits for one byte. -/
def escapeByte (c : Fin 256) : GoString :=
  if shouldEscape c then
    if c = 32 then lit "+"
    else [37, upperhex (c.val / 16), upperhex (c.val % 16)]
  else [c]

/-- The function `url.QueryEscape`. -/
def QueryEscape (s : GoString) : GoString := s.flatMap escapeByte

/-- The function `ishex`. -/
def ishex (c : Fin 256) : Bool :=
  (decide (48 ≤ c.val) && decide (c.val ≤ 57)) || (decide (97 ≤ c.val) && decide (c.val ≤ 102))
    || (decide (65 ≤ c.val) && decide (c.val ≤ 70))

/-- The function `unhex`. -/
def unhex (c : Fin 256) : Nat :=
  if 48 ≤ c.val ∧ c.val ≤ 57 then c.val - 48
  else if 97 ≤ c.val ∧ c.val ≤ 102 then c.val - 97 + 10
  else if 65 ≤ c.val ∧ c.val ≤ 70 then c.val - 65 + 10
  else 0

/-- The function `url.QueryUnescape`: `%XX` becomes the byte, `+` a space; a `%` that
is not followed by two hex digits is an `EscapeError` carrying at most three bytes. -/
def QueryUnescape : GoString → Except GoError GoString
  | [] => .ok []
  | c :: rest =>
    if c = 37 then
      match rest with
      | h1 :: h2 :: rest2 =>
        if ishex h1 && ishex h2 then
          match QueryUnescape rest2 with
          | .ok t => .ok (Fin.ofNat (unhex h1 * 16 + unhex h2) :: t)
          | .error e => .error e
        else .error (.EscapeError [c, h1, h2])
      | _ => .error (.EscapeError (c :: rest))
    else
      match QueryUnescape rest with
      | .ok t => .ok ((if c = 43 then 32 else c) :: t)
      | .error e => .error e

/-- The type `url.Values`, a `map[string][]string`, as an association list with one
pair per key. -/
abbrev Values := List (GoString × List GoString)

/-- The expression `v[key]`: the values of a key, nil when the key is absent. -/
def Values.index (v : Values) (key : GoString) : List GoString :=
  match v with
  | [] => []
  | (k, vs) :: rest => if k = key then vs else Values.index rest key

/-- The assignment `v[key] = vs`. -/
def Values.assign (v : Values) (key : GoString) (vs : List GoString) : Values :=
  match v with
  | [] => [(key, vs)]
  | (k, old) :: rest => if k = key then (k, vs) :: rest else (k, old) :: Values.assign rest key vs

/-- The method `Values.Get`: the first value of the key, or the empty string. -/
def Values.Get (v : Values) (key : GoString) : GoString := (v.index key).headD []

/-- The method `Values.Set`. -/
def Values.Set (v : Values) (key value : GoString) : Values := v.assign key [value]

/-- The method `Values.Add`. -/
def Values.Add (v : Values) (key value : GoString) : Values :=
  v.assign key (v.index key ++ [value])

/-- The call `sort.Strings`. -/
def sortStrings (keys : List GoString) : List GoString :=
  keys.insertionSort (fun a b => strLess b a = false)

/-- The pairs `Values.Encode` visits: the keys in sorted order, each with its values in
order. -/
def Values.pairs (v : Values) : List (GoString × GoString) :=
  (sortStrings (v.map Prod.fst)).flatMap fun k => (v.index k).map fun x => (k, x)

/-- The method `Values.Encode`: a piece `QueryEscape(k) + "=" + QueryEscape(x)` for every
pair, the pieces joined by `&`. -/
def Values.Encode (v : Values) : GoString :=
  (lit "&").intercalate (v.pairs.map fun kv => QueryEscape kv.1 ++ lit "=" ++ QueryEscape kv.2)

/-- The pieces of a query string between the separators `&` and `;`, in order. -/
def querySegments : GoString → List GoString
  | [] => [[]]
  | c :: rest =>
    if c = 38 ∨ c = 59 then [] :: querySegments rest
    else
      match querySegments rest with
      | [] => [[c]]
      | seg :: segs => (c :: seg) :: segs

/-- The split of a piece at its first `=`: key and value (no `=`: the value is empty). -/
def splitKeyValue : GoString → GoString × GoString
  | [] => ([], [])
  | c :: rest =>
    if c = 61 then ([], rest)
    else let (k, v) := splitKeyValue rest; (c :: k, v)

/-- One turn of the loop of `parseQuery` on the piece `key`: the map and the first
error so far go in, and come out updated. -/
def parseQueryStep (acc : Values × Option GoError) (key : GoString) : Values × Option GoError :=
  if key = [] then acc
  else
    let (k, value) := splitKeyValue key
    match QueryUnescape k with
    | .error e1 => (acc.1, if acc.2 = none then some e1 else acc.2)
    | .ok k1 =>
      match QueryUnescape value with
      | .error e1 => (acc.1, if acc.2 = none then some e1 else acc.2)
      | .ok value1 => (Values.Add acc.1 k1 value1, acc.2)

/-- The function `url.ParseQuery`: the values decoded from a query string and the first
error met. As in the Go releases of the time of the sources, `;` separates pieces like
`&` does. -/
def ParseQuery (query : GoString) : Values × Option GoError :=
  (querySegments query).foldl parseQueryStep ([], none)

/-! ## The command context, the HTTP client and the trace of a run -/

/-- The body of an HTTP response as `io.Copy` sees it: each call of `io.Copy` on the
body delivers the next element, the bytes it copied and the error it returns; when no
element is left the body is at end of file and `io.Copy` returns `(0, nil)`. -/
abbrev Reader := List (GoString × Option GoError)

/-- The part of `http.Response` the commands use. -/
structure Response where
  Body : Reader
  deriving DecidableEq, Repr

/-- The part of `http.Request` the commands set: method, URL, body (`none` for a nil
body) and the `Content-Type` header (`none` when the command sets no header). -/
structure Request where
  Method : GoString
  URL : GoString
  Body : Option GoString
  ContentType : Option GoString
  deriving DecidableEq, Repr

/-- What `client.Do` returned for a request. -/
inductive DoResult where
  | ok (resp : Response)
  | err (e : GoError)
  deriving DecidableEq, Repr

/-- One round trip: the request given to `client.Do` and what came back. -/
structure Exchange where
  req : Request
  res : DoResult
  deriving DecidableEq, Repr

/-- The collaborators of the commands that are not part of these sources.
`GetURL` is `cmd.GetURL`; `NewRequest method url` is the message of the error
`http.NewRequest` returns, if any (it depends on the method and the URL only, and is
never a `*errors.HTTP`, a type of tsuru); `Do sent req` is what `client.Do`
returns for `req` after the requests `sent` of the same run; `Marshal pool teams` is
`json.Marshal` on the map that pool-teams-remove builds. -/
structure Env where
  GetURL : GoString → GoString × Option GoError
  NewRequest : GoString → GoString → Option GoString
  Do : List Request → Request → DoResult
  Marshal : GoString → List GoString → Except GoError GoString

/-- The part of `cmd.Context` the commands use: the positional arguments, and standard
input as the sequence of results of `fmt.Fscanf(ctx.Stdin, "%s", &answer)`: each read
takes the next token, and leaves the empty string when nothing can be read. -/
structure Context where
  Args : List GoString
  Stdin : List GoString

/-- The observable state of a run: the writes to standard output, the round trips, the
tokens left on standard input and the number of reads of standard input, all in order. -/
structure World where
  Stdout : List GoString
  Sent : List Exchange
  Stdin : List GoString
  Reads : Nat
  deriving DecidableEq, Repr

/-- What `Run` returns: nil, an error, or a run-time panic. -/
inductive Result where
  | nil
  | err (e : GoError)
  | panic
  deriving DecidableEq, Repr

/-- A finished run: the final state and the returned value. -/
abbrev Outcome := World × Result

/-- The state in which a command starts. -/
def Context.start (ctx : Context) : World :=
  { Stdout := [], Sent := [], Stdin := ctx.Stdin, Reads := 0 }

/-- A write to `ctx.Stdout`. -/
def World.write (w : World) (s : GoString) : World :=
  { w with Stdout := w.Stdout ++ [s] }

/-- The call `fmt.Fscanf(ctx.Stdin, "%s", &answer)`, `answer` being empty before. -/
def World.scan (w : World) : GoString × World :=
  (w.Stdin.headD [], { w with Stdin := w.Stdin.tail, Reads := w.Reads + 1 })

/-- The call `client.Do(req)`. -/
def clientDo (env : Env) (w : World) (req : Request) : DoResult × World :=
  let r := env.Do (w.Sent.map Exchange.req) req
  (r, { w with Sent := w.Sent ++ [{ req := req, res := r }] })

/-- The loop `for n := int64(1); n > 0 && err == nil; n, err = io.Copy(dst, body) {}`:
the bytes that reach `dst`, one element per call of `io.Copy` that copied something. -/
def copyLoop : Reader → Nat → Option GoError → List GoString
  | r, n, err =>
    if 0 < n ∧ err = none then
      match r with
      | [] => []
      | (d, e) :: rest => (if d = [] then [] else [d]) ++ copyLoop rest d.length e
    else []

/-! ## pool.go -/

/-- The function `doRequest` of pool.go. -/
def doRequest (env : Env) (w : World) (url method body : GoString) : Option GoError × World :=
  match env.NewRequest method url with
  | some msg => (some (.other msg), w)
  | none =>
    let req : Request :=
      { Method := method, URL := url, Body := some body,
        ContentType := some (lit "application/x-www-form-urlencoded") }
    match clientDo env w req with
    | (.err err, w1) => (some err, w1)
    | (.ok _, w1) => (none, w1)

/-- The function `confirmAction` of pool.go; `arg0` is `ctx.Args[0]`, and the
`retryMessage` of both callers is `before ++ "%s" ++ after`. -/
def confirmAction (env : Env) (w : World) (arg0 : GoString) (url method body : GoString)
    (retryBefore retryAfter failMessage successMessage : GoString) : Outcome :=
  let w1 := w.write (retryBefore ++ arg0 ++ retryAfter)
  let (answer, w2) := w1.scan
  if answer = lit "y" ∨ answer = lit "yes" then
    match doRequest env w2 url method body with
    | (some err, w3) => (w3, .err err)
    | (none, w3) => (w3.write successMessage, .nil)
  else (w2.write failMessage, .nil)

/-- The flags of pool-add. -/
structure addPoolToSchedulerCmd where
  (public : Bool)
  (defaultPool : Bool)
  (forceDefault : Bool)

/-- The form values pool-add builds. -/
def addPoolToSchedulerCmd.values (c : addPoolToSchedulerCmd) (arg0 : GoString) : Values :=
  let v : Values := []
  let v := Values.Set v (lit "name") arg0
  let v := Values.Set v (lit "public") (FormatBool c.public)
  let v := Values.Set v (lit "default") (FormatBool c.defaultPool)
  Values.Set v (lit "force") (FormatBool c.forceDefault)

/-- The method `addPoolToSchedulerCmd.Run`. -/
def addPoolToSchedulerCmd.Run (c : addPoolToSchedulerCmd) (env : Env) (ctx : Context) : Outcome :=
  match ctx.Args with
  | [] => (ctx.start, .panic)
  | arg0 :: _ =>
    let v := c.values arg0
    let u := (env.GetURL (lit "/pools")).1
    match doRequest env ctx.start u (lit "POST") (Values.Encode v) with
    | (some err, w) =>
      match err with
      | .HTTP code _ =>
        if code = StatusPreconditionFailed then
          let v := Values.Set v (lit "force") (lit "true")
          let url := (env.GetURL (lit "/pools")).1
          confirmAction env w arg0 url (lit "POST") (Values.Encode v)
            (lit "WARNING: Default pool already exist. Do you want change to ")
            (lit " pool? (y/n) ") (lit "Pool add aborted.\n")
            (lit "Pool successfully registered.\n")
        else (w, .err err)
      | _ => (w, .err err)
    | (none, w) => (w.write (lit "Pool successfully registered.\n"), .nil)

/-- The type `pointerBoolFlag`: a `*bool`, nil until the flag is set. -/
structure pointerBoolFlag where
  value : Option Bool
  deriving DecidableEq, Repr

/-- The method `pointerBoolFlag.String`. -/
def pointerBoolFlag.String (p : pointerBoolFlag) : GoString :=
  match p.value with
  | none => lit "not set"
  | some b => FormatBool b

/-- The method `pointerBoolFlag.Set`: the error returned, if any, and the flag after. -/
def pointerBoolFlag.Set (p : pointerBoolFlag) (value : GoString) :
    Option GoError × pointerBoolFlag :=
  if value = [] then (none, p)
  else
    match ParseBool value with
    | .error err => (some err, p)
    | .ok v => (none, { value := some v })

/-- The flags of pool-update. -/
structure updatePoolToSchedulerCmd where
  (public : pointerBoolFlag)
  (defaultPool : pointerBoolFlag)
  (forceDefault : Bool)

/-- The form values pool-update builds. -/
def updatePoolToSchedulerCmd.values (c : updatePoolToSchedulerCmd) : Values :=
  let v : Values := []
  let v :=
    match c.public.value with
    | none => Values.Set v (lit "public") (lit "")
    | some b => Values.Set v (lit "public") (FormatBool b)
  let v :=
    match c.defaultPool.value with
    | none => Values.Set v (lit "default") (lit "")
    | some b => Values.Set v (lit "default") (FormatBool b)
  Values.Set v (lit "force") (FormatBool c.forceDefault)

/-- The method `updatePoolToSchedulerCmd.Run`. -/
def updatePoolToSchedulerCmd.Run (c : updatePoolToSchedulerCmd) (env : Env) (ctx : Context) :
    Outcome :=
  match ctx.Args with
  | [] => (ctx.start, .panic)
  | arg0 :: _ =>
    let v := c.values
    let u := (env.GetURL (lit "/pools/" ++ arg0)).1
    match doRequest env ctx.start u (lit "PUT") (Values.Encode v) with
    | (some err, w) =>
      match err with
      | .HTTP code _ =>
        if code = StatusPreconditionFailed then
          let v := Values.Set v (lit "force") (lit "true")
          let u := (env.GetURL (lit "/pools/" ++ arg0)).1
          confirmAction env w arg0 u (lit "PUT") (Values.Encode v)
            (lit "WARNING: Default pool already exist. Do you want change to ")
            (lit " pool? (y/n) ") (lit "Pool update aborted.\n")
            (lit "Pool successfully updated.\n")
        else (w, .err err)
      | _ => (w, .err err)
    | (none, w) => (w.write (lit "Pool successfully updated.\n"), .nil)

/-- Modelled from the spec: the type `cmd.ConfirmationCommand` of the tsuru `cmd`
package, which is not in the sources; the spec gives pool-remove the flag `-y`. -/
structure ConfirmationCommand where
  yes : Bool

/-- Modelled from the spec: the method `Confirm` of `cmd.ConfirmationCommand`, which is
not in the sources. The spec describes a confirmation as a yes/no question answered by
one blocking read of a whitespace-delimited token from standard input: with `-y` the
answer is yes and nothing is asked; otherwise the question followed by ` (y/n) ` is
written, one token is read, and any token but `y` aborts with the line `Abort.`. -/
def ConfirmationCommand.Confirm (c : ConfirmationCommand) (w : World) (question : GoString) :
    Bool × World :=
  if c.yes then (true, w)
  else
    let w1 := w.write (question ++ lit " (y/n) ")
    let (answer, w2) := w1.scan
    if answer ≠ lit "y" then (false, w2.write (lit "Abort.\n"))
    else (true, w2)

/-- The command pool-remove embeds a `cmd.ConfirmationCommand`. -/
structure removePoolFromSchedulerCmd where
  ConfirmationCommand : ConfirmationCommand

/-- The method `removePoolFromSchedulerCmd.Run`. -/
def removePoolFromSchedulerCmd.Run (c : removePoolFromSchedulerCmd) (env : Env) (ctx : Context) :
    Outcome :=
  match ctx.Args with
  | [] => (ctx.start, .panic)
  | arg0 :: _ =>
    match c.ConfirmationCommand.Confirm ctx.start
        (lit "Are you sure you want to remove \"" ++ arg0 ++ lit "\" pool?") with
    | (false, w) => (w, .nil)
    | (true, w) =>
      match env.GetURL (lit "/pools/" ++ arg0) with
      | (_, some err) => (w, .err err)
      | (url, none) =>
        match env.NewRequest (lit "DELETE") url with
        | some msg => (w, .err (.other msg))
        | none =>
          match clientDo env w
              { Method := lit "DELETE", URL := url, Body := none, ContentType := none } with
          | (.err err, w1) => (w1, .err err)
          | (.ok _, w1) => (w1.write (lit "Pool successfully removed.\n"), .nil)

/-- The form values pool-teams-add builds from `ctx.Args[1:]`. -/
def addTeamsToPoolCmd.values (teams : List GoString) : Values :=
  teams.foldl (fun v team => Values.Add v (lit "team") team) []

/-- The method `addTeamsToPoolCmd.Run`. -/
def addTeamsToPoolCmd.Run (env : Env) (ctx : Context) : Outcome :=
  match ctx.Args with
  | [] => (ctx.start, .panic)
  | arg0 :: teams =>
    let v := addTeamsToPoolCmd.values teams
    match env.GetURL (lit "/pools/" ++ arg0 ++ lit "/team") with
    | (_, some err) => (ctx.start, .err err)
    | (u, none) =>
      match env.NewRequest (lit "POST") u with
      | some msg => (ctx.start, .err (.other msg))
      | none =>
        match clientDo env ctx.start
            { Method := lit "POST", URL := u, Body := some (Values.Encode v),
              ContentType := some (lit "application/x-www-form-urlencoded") } with
        | (.err err, w1) => (w1, .err err)
        | (.ok _, w1) => (w1.write (lit "Teams successfully registered.\n"), .nil)

/-- The method `removeTeamsFromPoolCmd.Run`. -/
def removeTeamsFromPoolCmd.Run (env : Env) (ctx : Context) : Outcome :=
  match ctx.Args with
  | [] => (ctx.start, .panic)
  | arg0 :: teams =>
    match env.Marshal arg0 teams with
    | .error err => (ctx.start, .err err)
    | .ok body =>
      match env.GetURL (lit "/pool/" ++ arg0 ++ lit "/team") with
      | (_, some err) => (ctx.start, .err err)
      | (url, none) =>
        match env.NewRequest (lit "DELETE") url with
        | some msg => (ctx.start, .err (.other msg))
        | none =>
          match clientDo env ctx.start
              { Method := lit "DELETE", URL := url, Body := some body, ContentType := none } with
          | (.err err, w1) => (w1, .err err)
          | (.ok _, w1) => (w1.write (lit "Teams successfully removed.\n"), .nil)

/-! ## platform.go -/

namespace PlatformGo

/-- The flags of platform-add (platform.go). -/
structure platformAdd where
  name : GoString
  dockerfile : GoString

/-- The body `fmt.Sprintf("name=%s&dockerfile=%s", name, p.dockerfile)`. -/
def platformAdd.body (p : platformAdd) (name : GoString) : GoString :=
  lit "name=" ++ name ++ lit "&dockerfile=" ++ p.dockerfile

/-- The method `platformAdd.Run` of platform.go: the response body is streamed to
standard output and to a buffer, and the command succeeds when the buffer ends with the
line `OK!`. -/
def platformAdd.Run (p : platformAdd) (env : Env) (ctx : Context) : Outcome :=
  match ctx.Args with
  | [] => (ctx.start, .panic)
  | name :: _ =>
    let body := p.body name
    let url := (env.GetURL (lit "/platforms")).1
    match env.NewRequest (lit "POST") url with
    | some msg => (ctx.start, .err (.other msg))
    | none =>
      match clientDo env ctx.start
          { Method := lit "POST", URL := url, Body := some body,
            ContentType := some (lit "application/x-www-form-urlencoded") } with
      | (.err err, w1) => (w1, .err err)
      | (.ok response, w1) =>
        let copied := copyLoop response.Body 1 none
        let w2 : World := { w1 with Stdout := w1.Stdout ++ copied }
        let buf : GoString := copied.flatten
        if HasSuffix buf (lit "\nOK!\n") = true then
          (w2.write (lit "Platform successfully added!\n"), .nil)
        else (w2, .err (.other (lit "Failed to add new platform.\n")))

/-- The flags of platform-update. -/
structure platformUpdate where
  name : GoString
  dockerfile : GoString
  forceUpdate : Bool

/-- The body `fmt.Sprintf("a=1&dockerfile=%s", p.dockerfile)`. -/
def platformUpdate.body (p : platformUpdate) : GoString :=
  lit "a=1&dockerfile=" ++ p.dockerfile

/-- The method `platformUpdate.Run`. -/
def platformUpdate.Run (p : platformUpdate) (env : Env) (ctx : Context) : Outcome :=
  match ctx.Args with
  | [] => (ctx.start, .panic)
  | name :: _ =>
    let body := p.body
    let url := (env.GetURL (lit "/platforms/" ++ name)).1
    match env.NewRequest (lit "PUT") url with
    | some msg => (ctx.start, .err (.other msg))
    | none =>
      match clientDo env ctx.start
          { Method := lit "PUT", URL := url, Body := some body,
            ContentType := some (lit "application/x-www-form-urlencoded") } with
      | (.err err, w1) => (w1, .err err)
      | (.ok response, w1) =>
        let w2 : World := { w1 with Stdout := w1.Stdout ++ copyLoop response.Body 1 none }
        (w2.write (lit "Platform successfully updated!\n"), .nil)

/-- The method `platformRemove.Run`. -/
def platformRemove.Run (env : Env) (ctx : Context) : Outcome :=
  match ctx.Args with
  | [] => (ctx.start, .panic)
  | name :: _ =>
    match env.GetURL (lit "/platforms/" ++ name) with
    | (_, some err) => (ctx.start, .err err)
    | (url, none) =>
      match env.NewRequest (lit "DELETE") url with
      | some msg => (ctx.start, .err (.other msg))
      | none =>
        match clientDo env ctx.start
            { Method := lit "DELETE", URL := url, Body := none, ContentType := none } with
        | (.err err, w1) => (w1, .err err)
        | (.ok _, w1) => (w1.write (lit "Platform successfully removed!\n"), .nil)

end PlatformGo

/-! ## platform_add.go -/

namespace PlatformAddGo

/-- The flags of platform-add (platform_add.go). -/
structure platformAdd where
  name : GoString
  dockerfile : GoString

/-- The body `fmt.Sprintf("name=%s&dockerfile=%s", name, p.dockerfile)`. -/
def platformAdd.body (p : platformAdd) (name : GoString) : GoString :=
  lit "name=" ++ name ++ lit "&dockerfile=" ++ p.dockerfile

/-- The method `platformAdd.Run` of platform_add.go. -/
def platformAdd.Run (p : platformAdd) (env : Env) (ctx : Context) : Outcome :=
  match ctx.Args with
  | [] => (ctx.start, .panic)
  | name :: _ =>
    let body := p.body name
    let url := (env.GetURL (lit "/platforms/add")).1
    match env.NewRequest (lit "PUT") url with
    | some msg => (ctx.start, .err (.other msg))
    | none =>
      match clientDo env ctx.start
          { Method := lit "PUT", URL := url, Body := some body,
            ContentType := some (lit "application/x-www-form-urlencoded") } with
      | (.err err, w1) => (w1, .err err)
      | (.ok _, w1) => (w1.write (lit "Platform successfully added!\n"), .nil)

end PlatformAddGo

/-! ## quota.go -/

/-- The flags of quota-update. -/
structure changeQuota where
  quota : Int
  owner : GoString

/-- The body `fmt.Sprintf("quota=%d", c.quota)`. -/
def changeQuota.body (c : changeQuota) : GoString := lit "quota=" ++ lit (toString c.quota)

/-- The method `changeQuota.Run`. -/
def changeQuota.Run (c : changeQuota) (env : Env) (ctx : Context) : Outcome :=
  let uri := lit "/quota/" ++ c.owner
  match env.GetURL uri with
  | (_, some err) => (ctx.start, .err err)
  | (url, none) =>
    let body := c.body
    match env.NewRequest (lit "PUT") url with
    | some msg => (ctx.start, .err (.other msg))
    | none =>
      match clientDo env ctx.start
          { Method := lit "PUT", URL := url, Body := some body,
            ContentType := some (lit "application/x-www-form-urlencoded") } with
      | (.err err, w1) => (w1, .err err)
      | (.ok _, w1) => (w1.write (lit "Quotas successfully changed!\n"), .nil)

/-! ## The commands of the sources -/

/-- The commands whose `Run` is in the sources, each with its flags. -/
inductive Command where
  | poolAdd (c : addPoolToSchedulerCmd)
  | poolUpdate (c : updatePoolToSchedulerCmd)
  | poolRemove (c : removePoolFromSchedulerCmd)
  | poolTeamsAdd
  | poolTeamsRemove
  | platformAdd (p : PlatformGo.platformAdd)
  | platformAddPut (p : PlatformAddGo.platformAdd)
  | platformUpdate (p : PlatformGo.platformUpdate)
  | platformRemove
  | quotaUpdate (c : changeQuota)

/-- The method `Run` of a command. -/
def Command.Run : Command → Env → Context → Outcome
  | .poolAdd c => c.Run
  | .poolUpdate c => c.Run
  | .poolRemove c => c.Run
  | .poolTeamsAdd => addTeamsToPoolCmd.Run
  | .poolTeamsRemove => removeTeamsFromPoolCmd.Run
  | .platformAdd p => p.Run
  | .platformAddPut p => p.Run
  | .platformUpdate p => p.Run
  | .platformRemove => PlatformGo.platformRemove.Run
  | .quotaUpdate c => c.Run

/-- The fixed confirmation line a command writes on success. -/
def Command.successMessage : Command → GoString
  | .poolAdd _ => lit "Pool successfully registered.\n"
  | .poolUpdate _ => lit "Pool successfully updated.\n"
  | .poolRemove _ => lit "Pool successfully removed.\n"
  | .poolTeamsAdd => lit "Teams successfully registered.\n"
  | .poolTeamsRemove => lit "Teams successfully removed.\n"
  | .platformAdd _ => lit "Platform successfully added!\n"
  | .platformAddPut _ => lit "Platform successfully added!\n"
  | .platformUpdate _ => lit "Platform successfully updated!\n"
  | .platformRemove => lit "Platform successfully removed!\n"
  | .quotaUpdate _ => lit "Quotas successfully changed!\n"

/-! ## The shape shared by pool-add and pool-update

Both commands send a form through `doRequest` and retry through `confirmAction`; their
properties are proved once for this shape. -/

/-- The request `doRequest` builds. -/
def formRequest (url method body : GoString) : Request :=
  { Method := method, URL := url, Body := some body,
    ContentType := some (lit "application/x-www-form-urlencoded") }

/-- A command that sends a form through `doRequest` and, on status 412, asks for
confirmation and sends the form `forced` through `confirmAction`. -/
def sendConfirmed (env : Env) (w : World) (arg0 url method body forced : GoString)
    (failMessage successMessage : GoString) : Outcome :=
  match doRequest env w url method body with
  | (some err, w1) =>
    match err with
    | .HTTP code _ =>
      if code = StatusPreconditionFailed then
        confirmAction env w1 arg0 url method forced
          (lit "WARNING: Default pool already exist. Do you want change to ")
          (lit " pool? (y/n) ") failMessage successMessage
      else (w1, .err err)
    | _ => (w1, .err err)
  | (none, w1) => (w1.write successMessage, .nil)

/-- The prompt of `confirmAction` for the pool `pool`. -/
def retryPrompt (pool : GoString) : GoString :=
  lit "WARNING: Default pool already exist. Do you want change to " ++ pool ++ lit " pool? (y/n) "

/-- The errors the collaborators report before a request is sent: an error of
`cmd.GetURL`, of `http.NewRequest` or of `json.Marshal`. -/
def Env.reports (env : Env) (e : GoError) : Prop :=
  (∃ path, (env.GetURL path).2 = some e) ∨
    (∃ method url msg, env.NewRequest method url = some msg ∧ e = .other msg) ∨
    (∃ pool teams, env.Marshal pool teams = .error e)

/-- The form value pool-update sends for a flag: empty while the flag is not set. -/
def flagField (p : pointerBoolFlag) : GoString :=
  match p.value with
  | none => lit ""
  | some b => FormatBool b

/-- The bytes platform-add (platform.go) has in its buffer after streaming a response. -/
def streamed (response : Response) : GoString := (copyLoop response.Body 1 none).flatten

/-- The error platform-add (platform.go) returns when the streamed body lacks the `OK!`
trailer. -/
def errFailedToAdd : GoError := .other (lit "Failed to add new platform.\n")

/-- The ways a run of a command can end, by the round trips it made:
no request at all; one request that `client.Do` answered with an error, which is
returned; one request answered with success; for pool-add and pool-update a first request
answered with status 412, then either an abort or a second request. -/
def RunEnds (cmd : Command) (env : Env) (out : Outcome) : Prop :=
  (out.1.Sent = [] ∧ out.1.Reads ≤ 1 ∧ cmd.successMessage ∉ out.1.Stdout ∧
    ∀ e, out.2 = .err e → env.reports e) ∨
  (∃ req e, out.1.Sent = [⟨req, .err e⟩] ∧ out.1.Reads ≤ 1 ∧ out.2 = .err e ∧
    cmd.successMessage ∉ out.1.Stdout) ∨
  (∃ req resp, out.1.Sent = [⟨req, .ok resp⟩] ∧ out.1.Reads ≤ 1 ∧
    ((out.2 = .nil ∧ out.1.Stdout.getLast? = some cmd.successMessage ∧
        ∀ p, cmd = .platformAdd p → HasSuffix (streamed resp) (lit "\nOK!\n") = true) ∨
      (out.2 = .err errFailedToAdd ∧
        ∃ p, cmd = .platformAdd p ∧ HasSuffix (streamed resp) (lit "\nOK!\n") = false))) ∨
  (∃ req m, out.1.Sent = [⟨req, .err (.HTTP StatusPreconditionFailed m)⟩] ∧ out.1.Reads = 1 ∧
    out.2 = .nil ∧ cmd.successMessage ∉ out.1.Stdout ∧
    ((∃ c, cmd = .poolAdd c) ∨ (∃ c, cmd = .poolUpdate c))) ∨
  (∃ req1 req2 m res2,
    out.1.Sent = [⟨req1, .err (.HTTP StatusPreconditionFailed m)⟩, ⟨req2, res2⟩] ∧
    out.1.Reads = 1 ∧ ((∃ c, cmd = .poolAdd c) ∨ (∃ c, cmd = .poolUpdate c)) ∧
    ((∃ e, res2 = .err e ∧ out.2 = .err e ∧ cmd.successMessage ∉ out.1.Stdout) ∨
      (∃ resp, res2 = .ok resp ∧ out.2 = .nil ∧
        out.1.Stdout.getLast? = some cmd.successMessage)))

/-- An environment for examples: the target is `http://localhost`, every request can be
built, and `client.Do` answers every request with `answer`. -/
def envAnswer (answer : DoResult) : Env where
  GetURL := fun path => (lit "http://localhost" ++ path, none)
  NewRequest := fun _ _ => none
  Do := fun _ _ => answer
  Marshal := fun _ _ => .ok []

/-- An environment for examples: the target is `http://localhost`, every request can be
built, and the server answers the first request of a run with status 412 and every
later one with an empty success. -/
def envConflict : Env where
  GetURL := fun path => (lit "http://localhost" ++ path, none)
  NewRequest := fun _ _ => none
  Do := fun sent _ =>
    if sent = [] then .err (.HTTP StatusPreconditionFailed (lit "Default pool already exists."))
    else .ok { Body := [] }
  Marshal := fun _ _ => .ok []

/-- An environment for examples: the target is `http://localhost`, every request can be
built, and the server answers the first request of a run with status 412 and every
later one with status 500. -/
def envRetryFails : Env where
  GetURL := fun path => (lit "http://localhost" ++ path, none)
  NewRequest := fun _ _ => none
  Do := fun sent _ =>
    if sent = [] then .err (.HTTP StatusPreconditionFailed (lit "Default pool already exists."))
    else .err (.HTTP 500 (lit "Internal Server Error"))
  Marshal := fun _ _ => .ok []

/-! ## vendor/github.com/tsuru/tsuru/provision/pool_config.go -/

/-- The dynamic values an `interface{}` holds in a config entry: the nil interface,
strings, integers and booleans, and values of a type that is not comparable (slices,
maps), on which `==` panics; `id` only tells such values apart. Other comparable types
are not modelled. -/
inductive Value where
  | nil
  | string (s : GoString)
  | int (n : Int)
  | bool (b : Bool)
  | uncomparable (id : Nat)
  deriving DecidableEq, Repr

/-- The type `Entry`. -/
structure Entry where
  Name : GoString
  Value : Value
  Private : Bool
  deriving DecidableEq, Repr

/-- The type `PoolEntry`. -/
structure PoolEntry where
  Name : GoString
  Envs : List Entry
  deriving DecidableEq, Repr

/-- The type `EntryMap`, a `map[string]Entry`: a finite map with one entry per key. -/
abbrev EntryMap := AList (fun _ : GoString => Entry)

/-- The type `PoolEntryMap`, a `map[string]EntryMap`. -/
abbrev PoolEntryMap := AList (fun _ : GoString => EntryMap)

/-- The type `ScopedConfig`. A slice is a list (a nil slice is the empty list); a map
field is `none` while the Go map is nil. The field `Extra` is not used by the methods
embedded here and is left out. -/
structure ScopedConfig where
  Scope : GoString
  Envs : List Entry
  Pools : List PoolEntry
  entryMap : Option EntryMap
  poolEntryMap : Option PoolEntryMap

/-- The order in which `range` visits the entries of a map. Go leaves it unspecified:
`pick` is any rearrangement of the entries. -/
structure RangeOrder where
  pick : {α : Type} → List α → List α
  perm : ∀ {α : Type} (l : List α), (pick l).Perm l

/-- The range order that visits the entries in the order of the association list. -/
def RangeOrder.stored : RangeOrder where
  pick := fun l => l
  perm := fun l => List.Perm.refl l

/-- The first loop of `loadMap`: the map built from `c.Envs`. -/
def loadEntryMap (envs : List Entry) : EntryMap :=
  envs.foldl (fun m entry => m.insert entry.Name entry) ∅

/-- The assignment `pm[pool][name] = entry`, the map `pm[pool]` being non-nil. -/
def PoolEntryMap.set (pm : PoolEntryMap) (pool name : GoString) (entry : Entry) : PoolEntryMap :=
  pm.insert pool (((pm.lookup pool).getD ∅).insert name entry)

/-- The statement `if pm[pool] == nil { pm[pool] = make(EntryMap) }`. -/
def PoolEntryMap.ensure (pm : PoolEntryMap) (pool : GoString) : PoolEntryMap :=
  if pm.lookup pool = none then pm.insert pool ∅ else pm

/-- The second loop of `loadMap`: the map built from `c.Pools`. -/
def loadPoolEntryMap (pools : List PoolEntry) : PoolEntryMap :=
  pools.foldl
    (fun pm pe => pe.Envs.foldl (fun pm1 entry => pm1.set pe.Name entry.Name entry)
      (pm.ensure pe.Name))
    ∅

/-- The method `ScopedConfig.loadMap`. -/
def ScopedConfig.loadMap (c : ScopedConfig) : ScopedConfig :=
  { c with entryMap := some (loadEntryMap c.Envs),
           poolEntryMap := some (loadPoolEntryMap c.Pools) }

/-- The entries `range` visits in a map that may be nil. -/
def rangeOver {V : Type} (ord : RangeOrder) (m : Option (AList (fun _ : GoString => V))) :
    List (GoString × V) :=
  match m with
  | none => []
  | some m => (ord.pick m.entries).map (fun e => (e.1, e.2))

/-- The method `ScopedConfig.updateFromMap`. -/
def ScopedConfig.updateFromMap (ord : RangeOrder) (c : ScopedConfig) : ScopedConfig :=
  { c with
    Envs := (rangeOver ord c.entryMap).map Prod.snd,
    Pools := (rangeOver ord c.poolEntryMap).map fun kv =>
      { Name := kv.1, Envs := (rangeOver ord (some kv.2)).map Prod.snd } }

/-- The test `value == nil || value == reflect.Zero(reflect.ValueOf(value).Type()).Interface()`
of `add`; `none` is the panic of `==` on a type that is not comparable. -/
def isUnset : Value → Option Bool
  | .nil => some true
  | .string s => some (decide (s = []))
  | .int n => some (decide (n = 0))
  | .bool b => some (!b)
  | .uncomparable _ => none

/-- The method `ScopedConfig.add`; `none` is a run-time panic (a write to a nil map, or
the comparison of a value that is not comparable). -/
def ScopedConfig.add (ord : RangeOrder) (c : ScopedConfig) (pool name : GoString)
    (value : Value) (isPrivate : Bool) : Option ScopedConfig :=
  if pool = [] then
    match isUnset value with
    | none => none
    | some true => some { c with entryMap := c.entryMap.map (fun m => m.erase name) }
    | some false =>
      match c.entryMap with
      | none => none
      | some m =>
        let entry : Entry := { Name := name, Value := value, Private := isPrivate }
        some (ScopedConfig.updateFromMap ord { c with entryMap := some (m.insert name entry) })
  else
    match c.poolEntryMap with
    | none => none
    | some pm0 =>
      let pm := pm0.ensure pool
      match isUnset value with
      | none => none
      | some true =>
        let m : EntryMap := (pm.lookup pool).getD ∅
        some { c with poolEntryMap := some (pm.insert pool (m.erase name)) }
      | some false =>
        let entry : Entry := { Name := name, Value := value, Private := isPrivate }
        some (ScopedConfig.updateFromMap ord { c with poolEntryMap := some (pm.set pool name entry) })

/-- The method `ScopedConfig.Add`. -/
def ScopedConfig.Add (ord : RangeOrder) (c : ScopedConfig) (name : GoString) (value : Value) :
    Option ScopedConfig :=
  c.add ord [] name value false

/-- The method `ScopedConfig.AddPool`. -/
def ScopedConfig.AddPool (ord : RangeOrder) (c : ScopedConfig) (pool name : GoString)
    (value : Value) : Option ScopedConfig :=
  c.add ord pool name value false

/-- The method `ScopedConfig.entries`: the map returned (a nil map reads as the empty
map) and the config after the call; `none` is the panic of a write to a nil map. -/
def ScopedConfig.entries (c : ScopedConfig) (pool : GoString) : Option (EntryMap × ScopedConfig) :=
  if pool = [] then some (c.entryMap.getD ∅, c)
  else
    match c.poolEntryMap with
    | none => none
    | some pm =>
      match pm.lookup pool with
      | none => some (∅, { c with poolEntryMap := some (pm.insert pool ∅) })
      | some m => some (m, c)

/-- The method `ScopedConfig.PoolEntries`: the map returned and the config after. -/
def ScopedConfig.PoolEntries (ord : RangeOrder) (c : ScopedConfig) (pool : GoString) :
    Option (EntryMap × ScopedConfig) :=
  match c.entries [] with
  | none => none
  | some (globals, c1) =>
    let m : EntryMap := (ord.pick globals.entries).foldl (fun m e => m.insert e.2.Name e.2) ∅
    match c1.entries pool with
    | none => none
    | some (own, c2) =>
      some ((ord.pick own.entries).foldl (fun m e => m.insert e.2.Name e.2) m, c2)

/-- The method `ScopedConfig.PoolEntry`: the string returned and the config after. -/
def ScopedConfig.PoolEntry (c : ScopedConfig) (pool name : GoString) :
    Option (GoString × ScopedConfig) :=
  match c.entries pool with
  | none => none
  | some (own, c1) =>
    match c1.entries [] with
    | none => none
    | some (globals, c2) =>
      let fallback : Value :=
        match globals.lookup name with
        | some entry => if entry.Value ≠ Value.nil then entry.Value else Value.nil
        | none => Value.nil
      let value : Value :=
        match own.lookup name with
        | some entry => if entry.Value ≠ Value.nil then entry.Value else fallback
        | none => fallback
      match value with
      | .string ret => some (ret, c2)
      | _ => some ([], c2)

/-- The method `ScopedConfig.ResetEnvs`. -/
def ScopedConfig.ResetEnvs (c : ScopedConfig) : ScopedConfig :=
  { c with entryMap := some ∅, poolEntryMap := some ∅, Envs := [], Pools := [] }

/-- The method `ScopedConfig.ResetBaseEnvs`. -/
def ScopedConfig.ResetBaseEnvs (c : ScopedConfig) : ScopedConfig :=
  { c with entryMap := some ∅, Envs := [] }

/-- The method `ScopedConfig.ResetPoolEnvs`. -/
def ScopedConfig.ResetPoolEnvs (ord : RangeOrder) (c : ScopedConfig) (pool : GoString) :
    ScopedConfig :=
  ScopedConfig.updateFromMap ord
    { c with poolEntryMap := c.poolEntryMap.map (fun pm => pm.erase pool) }

/-- The inner loop of `FilterPools` for one `pool`: the first entry of the list with that
name is appended to `poolEntries`, and the loop breaks. -/
def appendFirstNamed (pool : GoString) (poolEntries : List PoolEntry) :
    List PoolEntry → List PoolEntry
  | [] => poolEntries
  | poolEntry :: rest =>
    if poolEntry.Name = pool then poolEntries ++ [poolEntry]
    else appendFirstNamed pool poolEntries rest

/-- The method `ScopedConfig.FilterPools`; the argument is `none` for a nil slice. -/
def ScopedConfig.FilterPools (c : ScopedConfig) (pools : Option (List GoString)) : ScopedConfig :=
  match pools with
  | none => c
  | some pools =>
    let poolEntries :=
      pools.foldl (fun poolEntries pool => appendFirstNamed pool poolEntries c.Pools) []
    { c with Pools := poolEntries }

/-- The type assertion `value.(string)` at the end of `PoolEntry`: the string, or the
empty string when the value is not a string. -/
def Value.asString : Value → GoString
  | .string ret => ret
  | _ => []

/-- Two entry maps hold the same entries: every key reads the same in both. -/
def EntryMap.Same (m1 m2 : EntryMap) : Prop :=
  ∀ name : GoString, m1.lookup name = m2.lookup name

/-- Two pool maps hold the same pools with the same entries. -/
def PoolEntryMap.Same (p1 p2 : PoolEntryMap) : Prop :=
  ∀ pool : GoString,
    match p1.lookup pool, p2.lookup pool with
    | none, none => True
    | some m1, some m2 => EntryMap.Same m1 m2
    | _, _ => False

/-- The lists and the derived maps of a config agree: the maps are not nil and hold
exactly what `loadMap` builds from `Envs` and `Pools`. -/
def ScopedConfig.InSync (c : ScopedConfig) : Prop :=
  match c.entryMap, c.poolEntryMap with
  | some m, some pm =>
    EntryMap.Same m (loadEntryMap c.Envs) ∧ PoolEntryMap.Same pm (loadPoolEntryMap c.Pools)
  | _, _ => False

/-- Every entry of the map is stored under its own `Name`, as `loadMap` and `add` store
them. -/
def EntryMap.Keyed (m : EntryMap) : Prop :=
  ∀ (name : GoString) (entry : Entry), m.lookup name = some entry → entry.Name = name

/-- Every map inside a pool map stores its entries under their own names. -/
def InnerKeyed (pm : PoolEntryMap) : Prop :=
  ∀ pool mp, pm.lookup pool = some mp → EntryMap.Keyed mp

/-- A loaded config: both maps are non-nil, as after `loadMap`, and every entry is
stored under its own `Name`. -/
def ScopedConfig.Loaded (c : ScopedConfig) : Prop :=
  ∃ m pm, c.entryMap = some m ∧ c.poolEntryMap = some pm ∧ EntryMap.Keyed m ∧ InnerKeyed pm

/-- The entry stored for `name` in the global map (`pool` empty) or in the map of
`pool`: a read of the maps without the side effect of `entries`. -/
def ScopedConfig.stored (c : ScopedConfig) (pool name : GoString) : Option Entry :=
  if pool = [] then (c.entryMap.getD ∅).lookup name
  else (((c.poolEntryMap.getD ∅).lookup pool).getD ∅).lookup name

/-- A config for examples: the global entry `region`, which `pool1` overrides with a
number and `pool2` with a nil value. -/
def overrideConfig : ScopedConfig :=
  ScopedConfig.loadMap
    { Scope := lit "docker",
      Envs := [{ Name := lit "region", Value := .string (lit "global"), Private := false }],
      Pools := [{ Name := lit "pool1",
                  Envs := [{ Name := lit "region", Value := .int 5, Private := false }] },
                { Name := lit "pool2",
                  Envs := [{ Name := lit "region", Value := .nil, Private := false }] }],
      entryMap := none, poolEntryMap := none }

/-- A config for examples: one global entry, and the pool `pool1` with one entry. -/
def sampleConfig : ScopedConfig :=
  ScopedConfig.loadMap
    { Scope := lit "docker",
      Envs := [{ Name := lit "image", Value := .string (lit "tsuru/bs"), Private := false }],
      Pools := [{ Name := lit "pool1",
                  Envs := [{ Name := lit "token", Value := .string (lit "abc"), Private := true }] }],
      entryMap := none, poolEntryMap := none }

/-! ## vendor/github.com/tsuru/tsuru/api/router.go -/

/-- The method `URL.Query` of net/url, which the handlers call: `ParseQuery` of the raw
query, the error dropped. -/
def Query (RawQuery : GoString) : Values := (ParseQuery RawQuery).1

/-- The values `registerVars` builds from the route variables, a `map[string]string`
visited in the order `ord`: `values[":"+key] = []string{value}`. -/
def routeValues (ord : RangeOrder) (vars : AList (fun _ : GoString => GoString)) : Values :=
  (ord.pick vars.entries).foldl
    (fun values kv => Values.assign values (lit ":" ++ kv.1) [kv.2]) []

/-- The method `delayedRouter.registerVars`: the `req.URL.RawQuery` it leaves, given the
one it finds. -/
def registerVars (ord : RangeOrder) (RawQuery : GoString)
    (vars : AList (fun _ : GoString => GoString)) : GoString :=
  Values.Encode (routeValues ord vars) ++ lit "&" ++ RawQuery

/-- Route variables for examples: `planname` is `small`. -/
def sampleVars : AList (fun _ : GoString => GoString) :=
  (∅ : AList (fun _ : GoString => GoString)).insert (lit "planname") (lit "small")

/-! ## iaas.go: machine-list

The test of `machineList.Run` is among the sources (`TestMachineListRun`); the command
and the table of `tsuru/cmd` are not. -/

/-- Modelled from the spec: the type `iaas.Machine` (its declaration is missing from the
sources), with the fields `TestMachineListRun` sets: identifier, provider name, address
and the map of creation parameters. -/
structure Machine where
  Id : GoString
  Iaas : GoString
  Address : GoString
  CreationParams : AList (fun _ : GoString => GoString)

/-- The call `strings.Split(s, "\n")`: the lines of a cell. -/
def splitLines : GoString → List GoString
  | [] => [[]]
  | c :: rest =>
    if c = 10 then [] :: splitLines rest
    else
      match splitLines rest with
      | [] => [[c]]
      | line :: lines => (c :: line) :: lines

/-- The call `strings.Join(lines, "\n")`. -/
def joinLines (lines : List GoString) : GoString := ([10] : GoString).intercalate lines

/-- Modelled from the spec: the creation parameters of a machine as `machineList.Run`
(missing from the sources) lists them, one `key=value` line for each key of the map, the
lines sorted by key. -/
def paramLines (m : Machine) : List GoString :=
  (sortStrings m.CreationParams.keys).map fun k =>
    k ++ lit "=" ++ (m.CreationParams.lookup k).getD []

/-- A row of a table: one cell for each column; a cell can hold several lines. -/
abbrev Row := List GoString

/-- Modelled from the spec: the table of `tsuru/cmd` (missing from the sources), its
headers and its rows. -/
structure Table where
  Headers : Row
  rows : List Row

/-- The largest number of a list, zero for the empty list. -/
def maxOf (l : List Nat) : Nat := l.foldr max 0

/-- Modelled from the spec: the width of column `i` of a table (`tsuru/cmd`, missing
from the sources), the maximum over the header and every line of every cell of the
column. Widths are counted in bytes. -/
def Table.columnWidth (t : Table) (i : Nat) : Nat :=
  maxOf ((t.Headers.getD i []).length ::
    t.rows.flatMap fun row => (splitLines (row.getD i [])).map List.length)

/-- Modelled from the spec: the widths of all columns of a table (`tsuru/cmd`, missing
from the sources), one for each header. -/
def Table.columnWidths (t : Table) : List Nat :=
  (List.range t.Headers.length).map t.columnWidth

/-- Modelled from the spec: a cell line padded on the right with spaces to the width of
its column (`tsuru/cmd`, missing from the sources). -/
def padRight (s : GoString) (width : Nat) : GoString :=
  s ++ List.replicate (width - s.length) 32

/-- Modelled from the spec: the border line of a table whose columns have these widths
(`tsuru/cmd`, missing from the sources); its shape is that of the border lines in the
expected output of `TestMachineListRun`. -/
def borderLine (widths : List Nat) : GoString :=
  lit "+" ++ widths.flatMap fun w => List.replicate (w + 2) 45 ++ lit "+"

/-- Modelled from the spec: one line of text of a table, the cells padded to the widths
of their columns (`tsuru/cmd`, missing from the sources); its shape is that of the text
lines in the expected output of `TestMachineListRun`. -/
def textLine (widths : List Nat) (cells : List GoString) : GoString :=
  lit "|" ++ (List.zipWith (fun w cell => lit " " ++ padRight cell w ++ lit " |")
    widths cells).flatten

/-- Modelled from the spec: the text lines of a row (`tsuru/cmd`, missing from the
sources), as many as the cell with the most lines has; a cell with fewer lines is blank
in the others. -/
def rowLines (widths : List Nat) (row : Row) : List GoString :=
  let cells := row.map splitLines
  (List.range (maxOf (cells.map List.length))).map fun i =>
    textLine widths (cells.map fun lines => lines.getD i [])

/-- Modelled from the spec: the lines of a rendered table (`tsuru/cmd`, missing from the
sources): a border line above the header, one below it, and one after every row, as in
the expected output of `TestMachineListRun`. -/
def Table.lines (t : Table) : List GoString :=
  let widths := t.columnWidths
  borderLine widths :: textLine widths t.Headers :: borderLine widths ::
    t.rows.flatMap fun row => rowLines widths row ++ [borderLine widths]

/-- Modelled from the spec: the bytes of a rendered table (`tsuru/cmd`, missing from the
sources): every line ends in a newline, as in the expected output of
`TestMachineListRun`. -/
def Table.Bytes (t : Table) : GoString := t.lines.flatMap fun line => line ++ [10]

/-- Modelled from the spec: the table `machineList.Run` (missing from the sources) builds
from the machines of the response, one row for each machine. -/
def machineTable (machines : List Machine) : Table where
  Headers := [lit "Id", lit "IaaS", lit "Address", lit "Creation Params"]
  rows := machines.map fun m => [m.Id, m.Iaas, m.Address, joinLines (paramLines m)]

/-- Modelled from the spec: what `machineList.Run` (missing from the sources) writes to
the standard output for the machines that `GET /iaas/machines` returned. -/
def machineList (machines : List Machine) : GoString := (machineTable machines).Bytes

/-- The machines of `TestMachineListRun`. -/
def testMachines : List Machine :=
  [{ Id := lit "id1", Iaas := lit "iaas1", Address := lit "addr1",
     CreationParams :=
      (∅ : AList (fun _ : GoString => GoString)).insert (lit "param1") (lit "value1") },
   { Id := lit "id2", Iaas := lit "iaas2", Address := lit "addr2",
     CreationParams :=
      ((∅ : AList (fun _ : GoString => GoString)).insert (lit "param2") (lit "value2")).insert
        (lit "param1") (lit "value1") }]

/-- The string `expected` of `TestMachineListRun`. -/
def testMachineListExpected : GoString :=
  lit "+-----+-------+---------+-----------------+" ++ [10] ++
  lit "| Id  | IaaS  | Address | Creation Params |" ++ [10] ++
  lit "+-----+-------+---------+-----------------+" ++ [10] ++
  lit "| id1 | iaas1 | addr1   | param1=value1   |" ++ [10] ++
  lit "+-----+-------+---------+-----------------+" ++ [10] ++
  lit "| id2 | iaas2 | addr2   | param1=value1   |" ++ [10] ++
  lit "|     |       |         | param2=value2   |" ++ [10] ++
  lit "+-----+-------+---------+-----------------+" ++ [10]

/-! ## Lemmas on query escaping -/

theorem upperhex_spec :
    ∀ n < 16, ishex (upperhex n) = true ∧ unhex (upperhex n) = n ∧
      upperhex n ≠ 38 ∧ upperhex n ≠ 59 ∧ upperhex n ≠ 61 := by
  decide

theorem shouldEscape_false_val {c : Fin 256} (h : shouldEscape c = false) :
    (97 ≤ c.val ∧ c.val ≤ 122) ∨ (65 ≤ c.val ∧ c.val ≤ 90) ∨ (48 ≤ c.val ∧ c.val ≤ 57) ∨
      c.val = 45 ∨ c.val = 95 ∨ c.val = 46 ∨ c.val = 126 := by
  have hl : lit "-_.~" = [45, 95, 46, 126] := by decide
  unfold shouldEscape at h
  rw [hl] at h
  by_cases ha : isAlnum c = true
  · simp only [isAlnum, Bool.or_eq_true, Bool.and_eq_true, decide_eq_true_eq] at ha
    omega
  · simp only [ha, Bool.false_eq_true, if_false] at h
    by_cases hm : c ∈ ([45, 95, 46, 126] : List (Fin 256))
    · simp only [List.mem_cons, List.mem_singleton, List.not_mem_nil, or_false] at hm
      rcases hm with h1 | h1 | h1 | h1 <;> subst h1 <;> decide
    · simp [hm] at h

theorem byte_ne_of_val_ne {c d : Fin 256} (h : c.val ≠ d.val) : c ≠ d :=
  fun e => h (congrArg Fin.val e)

/-- The three shapes of what `escape` emits for a byte, with what `unescape` needs to
read it back. -/
theorem escapeByte_cases (c : Fin 256) :
    (escapeByte c = [c] ∧ c ≠ 37 ∧ c ≠ 43 ∧ c ≠ 38 ∧ c ≠ 59 ∧ c ≠ 61) ∨
    (escapeByte c = [43] ∧ c = 32) ∨
    (∃ h1 h2, escapeByte c = [37, h1, h2] ∧ (ishex h1 && ishex h2) = true ∧
      (Fin.ofNat (unhex h1 * 16 + unhex h2) : Fin 256) = c ∧
      h1 ≠ 38 ∧ h1 ≠ 59 ∧ h1 ≠ 61 ∧ h2 ≠ 38 ∧ h2 ≠ 59 ∧ h2 ≠ 61) := by
  by_cases hs : shouldEscape c = true
  · by_cases h32 : c = 32
    · right; left
      refine ⟨?_, h32⟩
      subst h32; decide
    · right; right
      have hdiv : c.val / 16 < 16 := by have := c.isLt; omega
      have hmod : c.val % 16 < 16 := by omega
      obtain ⟨a1, a2, a3, a4, a5⟩ := upperhex_spec _ hdiv
      obtain ⟨b1, b2, b3, b4, b5⟩ := upperhex_spec _ hmod
      refine ⟨upperhex (c.val / 16), upperhex (c.val % 16), ?_, ?_, ?_, a3, a4, a5, b3, b4, b5⟩
      · simp [escapeByte, hs, h32]
      · simp [a1, b1]
      · rw [a2, b2]
        apply Fin.ext
        show (c.val / 16 * 16 + c.val % 16) % 256 = c.val
        have := c.isLt
        omega
  · left
    have hs2 : shouldEscape c = false := by simpa using hs
    have hv := shouldEscape_false_val hs2
    refine ⟨by simp [escapeByte, hs2], ?_, ?_, ?_, ?_, ?_⟩ <;>
      · apply byte_ne_of_val_ne
        show c.val ≠ _
        omega

theorem QueryEscape_cons (c : Fin 256) (s : GoString) :
    QueryEscape (c :: s) = escapeByte c ++ QueryEscape s := by
  simp [QueryEscape]

/-- The function `QueryUnescape` reads back what `QueryEscape` wrote. -/
theorem QueryUnescape_QueryEscape (s : GoString) : QueryUnescape (QueryEscape s) = .ok s := by
  induction s with
  | nil => rfl
  | cons c s ih =>
    rw [QueryEscape_cons]
    rcases escapeByte_cases c with ⟨h, h37, h43, -⟩ | ⟨h, h32⟩ | ⟨h1, h2, h, hx, hv, -⟩
    · rw [h, List.singleton_append, QueryUnescape.eq_def]
      simp [h37, h43, ih]
    · rw [h, h32, List.singleton_append, QueryUnescape.eq_def]
      simp [ih]
    · rw [h]
      simp only [List.cons_append, List.nil_append, QueryUnescape]
      simp [hx, ih, hv]

/-- No byte that `QueryEscape` writes is one of `&`, `;`, `=`. -/
theorem QueryEscape_no_separator (s : GoString) :
    ∀ x ∈ QueryEscape s, x ≠ 38 ∧ x ≠ 59 ∧ x ≠ 61 := by
  induction s with
  | nil => intro x hx; simp [QueryEscape] at hx
  | cons c s ih =>
    intro x hx
    rw [QueryEscape_cons, List.mem_append] at hx
    rcases hx with hx | hx
    · rcases escapeByte_cases c with ⟨h, -, -, a, b, d⟩ | ⟨h, -⟩ | ⟨h1, h2, h, -, -, a1, a2, a3, b1, b2, b3⟩
      · rw [h] at hx; simp at hx; subst hx; exact ⟨a, b, d⟩
      · rw [h] at hx; simp at hx; subst hx; decide
      · rw [h] at hx; simp at hx
        rcases hx with hx | hx | hx <;> subst hx
        · decide
        · exact ⟨a1, a2, a3⟩
        · exact ⟨b1, b2, b3⟩
    · exact ih x hx

theorem querySegments_ne_nil (s : GoString) : querySegments s ≠ [] := by
  cases s with
  | nil => simp [querySegments]
  | cons c rest =>
    simp only [querySegments]
    split
    · simp
    · split <;> simp

/-- A stretch without `&` and `;` stays in the first piece. -/
theorem querySegments_append (a b : GoString) (h : ∀ x ∈ a, x ≠ 38 ∧ x ≠ 59) :
    querySegments (a ++ b) = (a ++ (querySegments b).headD []) :: (querySegments b).tail := by
  induction a with
  | nil =>
    cases hq : querySegments b with
    | nil => exact absurd hq (querySegments_ne_nil b)
    | cons seg segs => simp [hq]
  | cons c a ih =>
    have hc := h c (List.mem_cons_self _ _)
    have ih2 := ih (fun x hx => h x (List.mem_cons_of_mem _ hx))
    rw [List.cons_append, querySegments]
    simp only [hc.1, hc.2, or_self, if_false]
    rw [ih2]
    simp

theorem querySegments_sep (b : GoString) : querySegments (38 :: b) = [] :: querySegments b := by
  simp [querySegments]

/-- Pieces without `&` and `;`, joined by `&`, are found again by `querySegments`. -/
theorem querySegments_intercalate (p : GoString) (ps : List GoString)
    (h : ∀ q ∈ p :: ps, ∀ x ∈ q, x ≠ 38 ∧ x ≠ 59) :
    querySegments ((lit "&").intercalate (p :: ps)) = p :: ps := by
  have hamp : lit "&" = [38] := by decide
  rw [hamp]
  induction ps generalizing p with
  | nil =>
    have := querySegments_append p [] (h p (List.mem_cons_self _ _))
    simpa [List.intercalate, querySegments] using this
  | cons q qs ih =>
    have hq := ih q (fun r hr => h r (List.mem_cons_of_mem _ hr))
    have e : List.intercalate [38] (p :: q :: qs) = p ++ 38 :: List.intercalate [38] (q :: qs) := by
      simp [List.intercalate, List.intersperse]
    rw [e, querySegments_append p _ (h p (List.mem_cons_self _ _)), querySegments_sep, hq]
    simp

/-- A key without `=` is split from its value at the first `=`. -/
theorem splitKeyValue_append (k v : GoString) (h : ∀ x ∈ k, x ≠ 61) :
    splitKeyValue (k ++ 61 :: v) = (k, v) := by
  induction k with
  | nil => simp [splitKeyValue]
  | cons c k ih =>
    have hc := h c (List.mem_cons_self _ _)
    have ih2 := ih (fun x hx => h x (List.mem_cons_of_mem _ hx))
    simp [splitKeyValue, hc, ih2]

/-- One turn of the loop of `parseQuery` on an encoded pair adds the pair. -/
theorem parseQueryStep_piece (acc : Values × Option GoError) (k x : GoString) :
    parseQueryStep acc (QueryEscape k ++ lit "=" ++ QueryEscape x) = (Values.Add acc.1 k x, acc.2) := by
  have heq : lit "=" = [61] := by decide
  have hne : QueryEscape k ++ lit "=" ++ QueryEscape x ≠ [] := by
    rw [heq]; simp
  have hsplit : splitKeyValue (QueryEscape k ++ lit "=" ++ QueryEscape x) = (QueryEscape k, QueryEscape x) := by
    rw [heq, List.append_assoc, List.singleton_append]
    exact splitKeyValue_append _ _ (fun y hy => (QueryEscape_no_separator k y hy).2.2)
  simp only [parseQueryStep, hne, if_false, hsplit, QueryUnescape_QueryEscape]

theorem foldl_parseQueryStep_pieces (pairs : List (GoString × GoString))
    (acc : Values × Option GoError) :
    (pairs.map fun kv => QueryEscape kv.1 ++ lit "=" ++ QueryEscape kv.2).foldl parseQueryStep acc
      = (pairs.foldl (fun m kv => Values.Add m kv.1 kv.2) acc.1, acc.2) := by
  induction pairs generalizing acc with
  | nil => rfl
  | cons kv rest ih =>
    simp only [List.map_cons, List.foldl_cons, parseQueryStep_piece, ih]

/-- Decoding what `Values.Encode` wrote gives back the pairs it visited, without error. -/
theorem ParseQuery_Encode (v : Values) :
    ParseQuery (Values.Encode v) = (v.pairs.foldl (fun m kv => Values.Add m kv.1 kv.2) [], none) := by
  unfold ParseQuery Values.Encode
  cases hp : v.pairs with
  | nil => simp [List.intercalate, querySegments, parseQueryStep]
  | cons kv rest =>
    rw [List.map_cons, querySegments_intercalate]
    · exact foldl_parseQueryStep_pieces (kv :: rest) ([], none)
    intro q hq x hx
    have heq : lit "=" = [61] := by decide
    have hq2 : ∃ kv2 : GoString × GoString,
        q = QueryEscape kv2.1 ++ lit "=" ++ QueryEscape kv2.2 := by
      rcases List.mem_cons.1 hq with h1 | h1
      · exact ⟨kv, h1⟩
      · obtain ⟨kv2, -, h2⟩ := List.mem_map.1 h1
        exact ⟨kv2, h2.symm⟩
    obtain ⟨kv2, rfl⟩ := hq2
    rw [heq] at hx
    simp only [List.append_assoc, List.singleton_append, List.mem_append, List.mem_cons] at hx
    rcases hx with hx | hx | hx
    · exact ⟨(QueryEscape_no_separator _ x hx).1, (QueryEscape_no_separator _ x hx).2.1⟩
    · subst hx; decide
    · exact ⟨(QueryEscape_no_separator _ x hx).1, (QueryEscape_no_separator _ x hx).2.1⟩
/-! ## The pool commands -/

theorem addPool_pairs (c : addPoolToSchedulerCmd) (arg0 : GoString) :
    (c.values arg0).pairs =
      [(lit "default", FormatBool c.defaultPool), (lit "force", FormatBool c.forceDefault),
        (lit "name", arg0), (lit "public", FormatBool c.public)] := by
  rfl

theorem addPool_pairs_force (c : addPoolToSchedulerCmd) (arg0 : GoString) :
    (Values.Set (c.values arg0) (lit "force") (lit "true")).pairs =
      [(lit "default", FormatBool c.defaultPool), (lit "force", lit "true"),
        (lit "name", arg0), (lit "public", FormatBool c.public)] := by
  rfl

/-- The fields the server decodes from the two bodies of pool-add. -/
theorem addPool_bodies (c : addPoolToSchedulerCmd) (arg0 : GoString) :
    ParseQuery (Values.Encode (c.values arg0)) =
      ([(lit "default", [FormatBool c.defaultPool]), (lit "force", [FormatBool c.forceDefault]),
        (lit "name", [arg0]), (lit "public", [FormatBool c.public])], none) ∧
    ParseQuery (Values.Encode (Values.Set (c.values arg0) (lit "force") (lit "true"))) =
      ([(lit "default", [FormatBool c.defaultPool]), (lit "force", [lit "true"]),
        (lit "name", [arg0]), (lit "public", [FormatBool c.public])], none) := by
  constructor
  · rw [ParseQuery_Encode, addPool_pairs]; rfl
  · rw [ParseQuery_Encode, addPool_pairs_force]; rfl

/-- The fields the server decodes from the two bodies of pool-update. -/
theorem updatePool_bodies (c : updatePoolToSchedulerCmd) :
    ParseQuery (Values.Encode c.values) =
      ([(lit "default", [flagField c.defaultPool]), (lit "force", [FormatBool c.forceDefault]),
        (lit "public", [flagField c.public])], none) ∧
    ParseQuery (Values.Encode (Values.Set c.values (lit "force") (lit "true"))) =
      ([(lit "default", [flagField c.defaultPool]), (lit "force", [lit "true"]),
        (lit "public", [flagField c.public])], none) := by
  obtain ⟨⟨p⟩, ⟨d⟩, f⟩ := c
  constructor
  · rw [ParseQuery_Encode]
    cases p <;> cases d <;> rfl
  · rw [ParseQuery_Encode]
    cases p <;> cases d <;> rfl




theorem addPool_run_eq (c : addPoolToSchedulerCmd) (env : Env) (arg0 : GoString)
    (args stdin : List GoString) :
    c.Run env { Args := arg0 :: args, Stdin := stdin } =
      sendConfirmed env { Stdout := [], Sent := [], Stdin := stdin, Reads := 0 } arg0
        (env.GetURL (lit "/pools")).1 (lit "POST") (Values.Encode (c.values arg0))
        (Values.Encode (Values.Set (c.values arg0) (lit "force") (lit "true")))
        (lit "Pool add aborted.\n") (lit "Pool successfully registered.\n") := by
  rfl

theorem updatePool_run_eq (c : updatePoolToSchedulerCmd) (env : Env) (arg0 : GoString)
    (args stdin : List GoString) :
    c.Run env { Args := arg0 :: args, Stdin := stdin } =
      sendConfirmed env { Stdout := [], Sent := [], Stdin := stdin, Reads := 0 } arg0
        (env.GetURL (lit "/pools/" ++ arg0)).1 (lit "PUT") (Values.Encode c.values)
        (Values.Encode (Values.Set c.values (lit "force") (lit "true")))
        (lit "Pool update aborted.\n") (lit "Pool successfully updated.\n") := by
  rfl

/-- The six ways a run of `sendConfirmed` from a fresh state can end. -/
theorem sendConfirmed_cases (env : Env) (stdin : List GoString)
    (arg0 url method body forced failMessage successMessage : GoString) :
    let w : World := { Stdout := [], Sent := [], Stdin := stdin, Reads := 0 }
    let out := sendConfirmed env w arg0 url method body forced failMessage successMessage
    let req1 := formRequest url method body
    let req2 := formRequest url method forced
    (∃ msg, env.NewRequest method url = some msg ∧ out = (w, .err (.other msg))) ∨
    (∃ resp, env.Do [] req1 = .ok resp ∧
      out = ({ Stdout := [successMessage], Sent := [⟨req1, .ok resp⟩], Stdin := stdin,
               Reads := 0 }, .nil)) ∨
    (∃ e, env.Do [] req1 = .err e ∧ (∀ m, e ≠ .HTTP StatusPreconditionFailed m) ∧
      out = ({ Stdout := [], Sent := [⟨req1, .err e⟩], Stdin := stdin, Reads := 0 }, .err e)) ∨
    (∃ m, env.Do [] req1 = .err (.HTTP StatusPreconditionFailed m) ∧
      stdin.headD [] ≠ lit "y" ∧ stdin.headD [] ≠ lit "yes" ∧
      out = ({ Stdout := [retryPrompt arg0, failMessage],
               Sent := [⟨req1, .err (.HTTP StatusPreconditionFailed m)⟩],
               Stdin := stdin.tail, Reads := 1 }, .nil)) ∨
    (∃ m e, env.Do [] req1 = .err (.HTTP StatusPreconditionFailed m) ∧
      (stdin.headD [] = lit "y" ∨ stdin.headD [] = lit "yes") ∧
      env.Do [req1] req2 = .err e ∧
      out = ({ Stdout := [retryPrompt arg0],
               Sent := [⟨req1, .err (.HTTP StatusPreconditionFailed m)⟩, ⟨req2, .err e⟩],
               Stdin := stdin.tail, Reads := 1 }, .err e)) ∨
    (∃ m resp, env.Do [] req1 = .err (.HTTP StatusPreconditionFailed m) ∧
      (stdin.headD [] = lit "y" ∨ stdin.headD [] = lit "yes") ∧
      env.Do [req1] req2 = .ok resp ∧
      out = ({ Stdout := [retryPrompt arg0, successMessage],
               Sent := [⟨req1, .err (.HTTP StatusPreconditionFailed m)⟩, ⟨req2, .ok resp⟩],
               Stdin := stdin.tail, Reads := 1 }, .nil)) := by
  intro w out req1 req2
  cases hN : env.NewRequest method url with
  | some e =>
    left
    exact ⟨e, rfl, by simp [out, sendConfirmed, doRequest, hN]⟩
  | none =>
    right
    cases hD : env.Do [] req1 with
    | ok resp =>
      left
      refine ⟨resp, rfl, ?_⟩
      simp only [req1, formRequest] at hD
      simp [out, w, sendConfirmed, doRequest, clientDo, hN, hD, World.write, formRequest, req1]
    | err e =>
      right
      simp only [req1, formRequest] at hD
      by_cases h412 : ∃ m, e = .HTTP StatusPreconditionFailed m
      · right
        obtain ⟨m, rfl⟩ := h412
        by_cases hy : stdin.headD [] = lit "y" ∨ stdin.headD [] = lit "yes"
        · have hy1 := hy
          simp only [List.headD_eq_head?_getD] at hy1
          right
          cases hD2 : env.Do [req1] req2 with
          | err e2 =>
            left
            refine ⟨m, e2, rfl, hy, rfl, ?_⟩
            simp only [req1, req2, formRequest] at hD2
            simp [out, w, sendConfirmed, doRequest, clientDo, hN, hD, hD2, World.write, World.scan,
              formRequest, req1, req2, confirmAction, hy1, retryPrompt]
          | ok resp =>
            right
            refine ⟨m, resp, rfl, hy, rfl, ?_⟩
            simp only [req1, req2, formRequest] at hD2
            simp [out, w, sendConfirmed, doRequest, clientDo, hN, hD, hD2, World.write, World.scan,
              formRequest, req1, req2, confirmAction, hy1, retryPrompt]
        · left
          have hy1 := hy
          simp only [List.headD_eq_head?_getD] at hy1
          have hy2 := not_or.1 hy
          refine ⟨m, rfl, hy2.1, hy2.2, ?_⟩
          simp [out, w, sendConfirmed, doRequest, clientDo, hN, hD, World.write, World.scan,
            formRequest, req1, confirmAction, hy1, retryPrompt]
      · left
        refine ⟨e, rfl, fun m hm => h412 ⟨m, hm⟩, ?_⟩
        cases e with
        | HTTP code m =>
          have hc : code ≠ StatusPreconditionFailed := fun h => h412 ⟨m, by rw [h]⟩
          simp [out, w, sendConfirmed, doRequest, clientDo, hN, hD, formRequest, req1, hc]
        | EscapeError f =>
          simp [out, w, sendConfirmed, doRequest, clientDo, hN, hD, formRequest, req1]
        | other msg =>
          simp [out, w, sendConfirmed, doRequest, clientDo, hN, hD, formRequest, req1]

/-- C1: for pool-add and pool-update, when the first request fails with status 412 and
the token read from standard input is `y`, the prompt naming `Args[0]` is written first,
exactly one second request is sent, with the method, URL and content type of the first
and a body that decodes to the form fields of the first with `force` set to `true`; and
when the second request succeeds the output is the prompt followed by the success line of
the command, and `Run` returns nil. -/
theorem confirm_yes_resends_with_force (cmd : Command) (env : Env) (pool msg : GoString)
    (args stdin : List GoString)
    (hcmd : (∃ c, cmd = .poolAdd c) ∨ (∃ c, cmd = .poolUpdate c))
    (h412 : ((cmd.Run env { Args := pool :: args, Stdin := lit "y" :: stdin }).1.Sent.head?).map
      Exchange.res = some (.err (.HTTP StatusPreconditionFailed msg))) :
    let out := cmd.Run env { Args := pool :: args, Stdin := lit "y" :: stdin }
    out.1.Stdout.head? = some (lit "WARNING: Default pool already exist. Do you want change to "
      ++ pool ++ lit " pool? (y/n) ") ∧
    out.1.Reads = 1 ∧
    ∃ first second res2 b1 b2,
      out.1.Sent = [⟨first, .err (.HTTP StatusPreconditionFailed msg)⟩, ⟨second, res2⟩] ∧
      second.Method = first.Method ∧ second.URL = first.URL ∧
      second.ContentType = first.ContentType ∧
      first.Body = some b1 ∧ second.Body = some b2 ∧
      (ParseQuery b1).2 = none ∧
      ParseQuery b2 = (Values.Set (ParseQuery b1).1 (lit "force") (lit "true"), none) ∧
      (∀ resp, res2 = .ok resp →
        out.1.Stdout = [lit "WARNING: Default pool already exist. Do you want change to "
          ++ pool ++ lit " pool? (y/n) ", cmd.successMessage] ∧ out.2 = .nil) := by
  intro out
  have key : ∀ (url method body forced failMessage : GoString),
      out = sendConfirmed env { Stdout := [], Sent := [], Stdin := lit "y" :: stdin, Reads := 0 }
        pool url method body forced failMessage cmd.successMessage →
      (ParseQuery body).2 = none →
      ParseQuery forced = (Values.Set (ParseQuery body).1 (lit "force") (lit "true"), none) →
      out.1.Stdout.head? = some (retryPrompt pool) ∧ out.1.Reads = 1 ∧
      ∃ first second res2 b1 b2,
        out.1.Sent = [⟨first, .err (.HTTP StatusPreconditionFailed msg)⟩, ⟨second, res2⟩] ∧
        second.Method = first.Method ∧ second.URL = first.URL ∧
        second.ContentType = first.ContentType ∧
        first.Body = some b1 ∧ second.Body = some b2 ∧
        (ParseQuery b1).2 = none ∧
        ParseQuery b2 = (Values.Set (ParseQuery b1).1 (lit "force") (lit "true"), none) ∧
        (∀ resp, res2 = .ok resp →
          out.1.Stdout = [retryPrompt pool, cmd.successMessage] ∧ out.2 = .nil) := by
    intro url method body forced failMessage hout hb1 hb2
    have h412b : (out.1.Sent.head?).map Exchange.res =
        some (.err (.HTTP StatusPreconditionFailed msg)) := h412
    have hne : (lit "y" : GoString) ≠ lit "yes" := by decide
    rcases sendConfirmed_cases env (lit "y" :: stdin) pool url method body forced failMessage
        cmd.successMessage with
      ⟨m, -, h⟩ | ⟨resp, -, h⟩ | ⟨e, -, hn, h⟩ | ⟨m, -, hy, -, h⟩ | ⟨m, e, -, -, -, h⟩ |
      ⟨m, resp, -, -, -, h⟩
    all_goals rw [← hout] at h
    all_goals rw [h] at h412b ⊢
    · simp at h412b
    · simp at h412b
    · simp at h412b
      exact absurd h412b (hn msg)
    · simp at hy
    · simp only [List.head?_cons, Option.map_some', Option.some.injEq, DoResult.err.injEq,
        GoError.HTTP.injEq, true_and] at h412b
      subst h412b
      refine ⟨rfl, rfl, _, _, _, body, forced, rfl, rfl, rfl, rfl, rfl, rfl, hb1, hb2, ?_⟩
      intro resp hresp
      simp at hresp
    · simp only [List.head?_cons, Option.map_some', Option.some.injEq, DoResult.err.injEq,
        GoError.HTTP.injEq, true_and] at h412b
      subst h412b
      exact ⟨rfl, rfl, _, _, _, body, forced, rfl, rfl, rfl, rfl, rfl, rfl, hb1, hb2,
        fun _ _ => ⟨rfl, rfl⟩⟩
  rcases hcmd with ⟨c, rfl⟩ | ⟨c, rfl⟩
  · have hb := addPool_bodies c pool
    exact key _ _ _ _ _ (addPool_run_eq c env pool args _) (by rw [hb.1])
      (by rw [hb.2, hb.1]; rfl)
  · have hb := updatePool_bodies c
    exact key _ _ _ _ _ (updatePool_run_eq c env pool args _) (by rw [hb.1])
      (by rw [hb.2, hb.1]; rfl)

theorem confirm_yes_resends_with_force_witness :
    (((Command.poolAdd ⟨false, true, false⟩).Run envConflict
        { Args := [lit "pool1"], Stdin := [lit "y"] }).1.Sent.head?).map Exchange.res =
      some (.err (.HTTP StatusPreconditionFailed (lit "Default pool already exists."))) ∧
    ((Command.poolAdd ⟨false, true, false⟩).Run envConflict
        { Args := [lit "pool1"], Stdin := [lit "y"] }).1.Reads = 1 :=
  ⟨by decide,
   (confirm_yes_resends_with_force (.poolAdd ⟨false, true, false⟩) envConflict (lit "pool1")
      (lit "Default pool already exists.") [] [] (Or.inl ⟨_, rfl⟩) (by decide)).2.1⟩

/-- C2, as stated, fails: the token `yes` is not `y`, yet pool-add sends a second request
and does not write the abort line. -/
theorem addPool_answer_yes_is_not_abort :
    lit "yes" ≠ lit "y" ∧
    (((addPoolToSchedulerCmd.mk false true false).Run envConflict
        { Args := [lit "pool1"], Stdin := [lit "yes"] }).1.Sent.head?).map Exchange.res =
      some (.err (.HTTP StatusPreconditionFailed (lit "Default pool already exists."))) ∧
    ((addPoolToSchedulerCmd.mk false true false).Run envConflict
        { Args := [lit "pool1"], Stdin := [lit "yes"] }).1.Sent.length = 2 ∧
    lit "Pool add aborted.\n" ∉
      ((addPoolToSchedulerCmd.mk false true false).Run envConflict
        { Args := [lit "pool1"], Stdin := [lit "yes"] }).1.Stdout := by
  decide

/-- C2, amended: for pool-add, when the first request fails with status 412 and the
token read from standard input is neither `y` nor `yes` (the empty string when nothing
can be read), the output is the prompt followed by `Pool add aborted.`, no second request
is sent, and `Run` returns nil. -/
theorem addPool_other_answer_aborts (c : addPoolToSchedulerCmd) (env : Env) (pool msg : GoString)
    (args stdin : List GoString)
    (h412 : ((c.Run env { Args := pool :: args, Stdin := stdin }).1.Sent.head?).map
      Exchange.res = some (.err (.HTTP StatusPreconditionFailed msg)))
    (hy : stdin.headD [] ≠ lit "y") (hyes : stdin.headD [] ≠ lit "yes") :
    let out := c.Run env { Args := pool :: args, Stdin := stdin }
    out.1.Stdout = [lit "WARNING: Default pool already exist. Do you want change to "
      ++ pool ++ lit " pool? (y/n) ", lit "Pool add aborted.\n"] ∧
    out.1.Sent.length = 1 ∧ out.1.Reads = 1 ∧ out.2 = .nil := by
  intro out
  have hout : out = _ := addPool_run_eq c env pool args stdin
  have h412b : (out.1.Sent.head?).map Exchange.res =
      some (.err (.HTTP StatusPreconditionFailed msg)) := h412
  rcases sendConfirmed_cases env stdin pool (env.GetURL (lit "/pools")).1 (lit "POST")
      (Values.Encode (c.values pool))
      (Values.Encode (Values.Set (c.values pool) (lit "force") (lit "true")))
      (lit "Pool add aborted.\n") (lit "Pool successfully registered.\n") with
    ⟨m, -, h⟩ | ⟨resp, -, h⟩ | ⟨e, -, hn, h⟩ | ⟨m, -, -, -, h⟩ | ⟨m, e, -, hyy, -, h⟩ |
    ⟨m, resp, -, hyy, -, h⟩
  all_goals rw [← hout] at h
  all_goals rw [h] at h412b ⊢
  · simp at h412b
  · simp at h412b
  · simp at h412b
    exact absurd h412b (hn msg)
  · exact ⟨rfl, rfl, rfl, rfl⟩
  · rcases hyy with h1 | h1
    · exact absurd h1 hy
    · exact absurd h1 hyes
  · rcases hyy with h1 | h1
    · exact absurd h1 hy
    · exact absurd h1 hyes

theorem addPool_other_answer_aborts_witness :
    ((addPoolToSchedulerCmd.mk false true false).Run envConflict
        { Args := [lit "pool1"], Stdin := [lit "n"] }).1.Stdout =
      [lit "WARNING: Default pool already exist. Do you want change to "
        ++ lit "pool1" ++ lit " pool? (y/n) ", lit "Pool add aborted.\n"] :=
  (addPool_other_answer_aborts ⟨false, true, false⟩ envConflict (lit "pool1")
    (lit "Default pool already exists.") [] [lit "n"] (by decide) (by decide) (by decide)).1

/-! ## Every command: how a run ends -/

theorem reports_getURL {env : Env} {path url : GoString} {e : GoError}
    (h : env.GetURL path = (url, some e)) : env.reports e :=
  Or.inl ⟨path, by rw [h]⟩

theorem reports_newRequest {env : Env} {method url msg : GoString}
    (h : env.NewRequest method url = some msg) : env.reports (.other msg) :=
  Or.inr (Or.inl ⟨method, url, msg, h, rfl⟩)

theorem reports_marshal {env : Env} {pool : GoString} {teams : List GoString} {e : GoError}
    (h : env.Marshal pool teams = .error e) : env.reports e :=
  Or.inr (Or.inr ⟨pool, teams, h⟩)


theorem clientDo_eq_iff (env : Env) (w w1 : World) (req : Request) (r : DoResult) :
    clientDo env w req = (r, w1) ↔
      env.Do (w.Sent.map Exchange.req) req = r ∧
        w1 = { w with Sent := w.Sent ++ [{ req := req, res := r }] } := by
  unfold clientDo
  constructor
  · intro h
    simp only [Prod.mk.injEq] at h
    obtain ⟨h1, h2⟩ := h
    subst h1
    exact ⟨rfl, h2.symm⟩
  · rintro ⟨h1, h2⟩
    subst h1
    rw [h2]


theorem ends_setup (cmd : Command) (env : Env) (w : World) (e : GoError)
    (hs : w.Sent = []) (hr : w.Reads ≤ 1) (hm : cmd.successMessage ∉ w.Stdout)
    (he : env.reports e) : RunEnds cmd env (w, .err e) := by
  left
  refine ⟨hs, hr, hm, ?_⟩
  intro e2 h2
  simp only [Result.err.injEq] at h2
  subst h2
  exact he

theorem ends_panic (cmd : Command) (env : Env) (ctx : Context) :
    RunEnds cmd env (ctx.start, .panic) := by
  left
  exact ⟨rfl, Nat.zero_le _, by simp [Context.start], by intro e h; simp at h⟩

theorem ends_doErr (cmd : Command) (env : Env) (w : World) (req : Request) (e : GoError)
    (hs : w.Sent = [{ req := req, res := .err e }]) (hr : w.Reads ≤ 1)
    (hm : cmd.successMessage ∉ w.Stdout) : RunEnds cmd env (w, .err e) := by
  right; left
  exact ⟨req, e, hs, hr, rfl, hm⟩

theorem ends_doOk (cmd : Command) (env : Env) (w : World) (req : Request) (resp : Response)
    (hs : w.Sent = [{ req := req, res := .ok resp }]) (hr : w.Reads ≤ 1)
    (hl : w.Stdout.getLast? = some cmd.successMessage)
    (hp : ∀ p, cmd = .platformAdd p → HasSuffix (streamed resp) (lit "\nOK!\n") = true) :
    RunEnds cmd env (w, .nil) := by
  right; right; left
  exact ⟨req, resp, hs, hr, Or.inl ⟨rfl, hl, hp⟩⟩

theorem Confirm_spec (c : ConfirmationCommand) (stdin : List GoString) (question : GoString) :
    (c.Confirm { Stdout := [], Sent := [], Stdin := stdin, Reads := 0 } question).2.Sent = [] ∧
    (c.Confirm { Stdout := [], Sent := [], Stdin := stdin, Reads := 0 } question).2.Reads ≤ 1 ∧
    ∀ s ∈ (c.Confirm { Stdout := [], Sent := [], Stdin := stdin, Reads := 0 } question).2.Stdout,
      s = question ++ lit " (y/n) " ∨ s = lit "Abort.\n" := by
  unfold ConfirmationCommand.Confirm
  by_cases hy : c.yes = true
  · simp [hy]
  · by_cases ha : stdin.head?.getD [] = lit "y"
    · simp [hy, World.write, World.scan, ha]
    · simp [hy, World.write, World.scan, ha]

theorem removePool_question_ne (arg0 : GoString) :
    lit "Pool successfully removed.\n" ≠
      lit "Are you sure you want to remove \"" ++ arg0 ++ lit "\" pool?" ++ lit " (y/n) " := by
  intro h
  have h2 : (some 80 : Option (Fin 256)) = some 65 := congrArg List.head? h
  exact absurd h2 (by decide)

theorem removePool_ends (c : removePoolFromSchedulerCmd) (env : Env) (ctx : Context) :
    RunEnds (.poolRemove c) env (c.Run env ctx) := by
  obtain ⟨args, stdin⟩ := ctx
  cases args with
  | nil => exact ends_panic _ _ _
  | cons arg0 args =>
    simp only [removePoolFromSchedulerCmd.Run, Context.start]
    obtain ⟨hs, hr, hout⟩ := Confirm_spec c.ConfirmationCommand stdin
      (lit "Are you sure you want to remove \"" ++ arg0 ++ lit "\" pool?")
    have hm : ∀ b w, c.ConfirmationCommand.Confirm
        { Stdout := [], Sent := [], Stdin := stdin, Reads := 0 }
        (lit "Are you sure you want to remove \"" ++ arg0 ++ lit "\" pool?") = (b, w) →
        w.Sent = [] ∧ w.Reads ≤ 1 ∧ (Command.poolRemove c).successMessage ∉ w.Stdout := by
      intro b w hw
      rw [hw] at hs hr hout
      refine ⟨hs, hr, ?_⟩
      intro hmem
      rcases hout _ hmem with h1 | h1
      · exact removePool_question_ne arg0 h1
      · simp only [Command.successMessage] at h1
        exact absurd h1 (by decide)
    split
    · next w hC =>
      obtain ⟨h1, h2, h3⟩ := hm _ _ hC
      left
      exact ⟨h1, h2, h3, by intro e h; simp at h⟩
    · next w hC =>
      obtain ⟨h1, h2, h3⟩ := hm _ _ hC
      split
      · next hG => exact ends_setup _ _ _ _ h1 h2 h3 (reports_getURL hG)
      · split
        · next hN => exact ends_setup _ _ _ _ h1 h2 h3 (reports_newRequest hN)
        · split
          · next hD =>
            rw [clientDo_eq_iff] at hD
            obtain ⟨-, rfl⟩ := hD
            exact ends_doErr _ _ _ _ _ (by simp only [h1]; rfl) h2 h3
          · next hD =>
            rw [clientDo_eq_iff] at hD
            obtain ⟨-, rfl⟩ := hD
            exact ends_doOk _ _ _ _ _ (by simp only [h1, World.write]; rfl) h2
              (by simp [World.write, Command.successMessage]) (by intro p hp; cases hp)

theorem platformRemove_ends (env : Env) (ctx : Context) :
    RunEnds .platformRemove env (PlatformGo.platformRemove.Run env ctx) := by
  obtain ⟨args, stdin⟩ := ctx
  cases args with
  | nil => exact ends_panic _ _ _
  | cons name args =>
    simp only [PlatformGo.platformRemove.Run, Context.start]
    split
    · next hG => exact ends_setup _ _ _ _ rfl (by simp) (by simp) (reports_getURL hG)
    · split
      · next hN => exact ends_setup _ _ _ _ rfl (by simp) (by simp) (reports_newRequest hN)
      · split
        · next hD =>
          rw [clientDo_eq_iff] at hD
          obtain ⟨-, rfl⟩ := hD
          exact ends_doErr _ _ _ _ _ rfl (by simp) (by simp)
        · next hD =>
          rw [clientDo_eq_iff] at hD
          obtain ⟨-, rfl⟩ := hD
          exact ends_doOk _ _ _ _ _ rfl (by simp [World.write])
            (by simp [World.write, Command.successMessage]) (by intro p hp; cases hp)

theorem platformAddPut_ends (p : PlatformAddGo.platformAdd) (env : Env) (ctx : Context) :
    RunEnds (.platformAddPut p) env (p.Run env ctx) := by
  obtain ⟨args, stdin⟩ := ctx
  cases args with
  | nil => exact ends_panic _ _ _
  | cons name args =>
    simp only [PlatformAddGo.platformAdd.Run, Context.start]
    split
    · next hN => exact ends_setup _ _ _ _ rfl (by simp) (by simp) (reports_newRequest hN)
    · split
      · next hD =>
        rw [clientDo_eq_iff] at hD
        obtain ⟨-, rfl⟩ := hD
        exact ends_doErr _ _ _ _ _ rfl (by simp) (by simp)
      · next hD =>
        rw [clientDo_eq_iff] at hD
        obtain ⟨-, rfl⟩ := hD
        exact ends_doOk _ _ _ _ _ rfl (by simp [World.write])
          (by simp [World.write, Command.successMessage]) (by intro p hp; cases hp)

theorem platformUpdate_ends (p : PlatformGo.platformUpdate) (env : Env) (ctx : Context) :
    RunEnds (.platformUpdate p) env (p.Run env ctx) := by
  obtain ⟨args, stdin⟩ := ctx
  cases args with
  | nil => exact ends_panic _ _ _
  | cons name args =>
    simp only [PlatformGo.platformUpdate.Run, Context.start]
    split
    · next hN => exact ends_setup _ _ _ _ rfl (by simp) (by simp) (reports_newRequest hN)
    · split
      · next hD =>
        rw [clientDo_eq_iff] at hD
        obtain ⟨-, rfl⟩ := hD
        exact ends_doErr _ _ _ _ _ rfl (by simp) (by simp)
      · next hD =>
        rw [clientDo_eq_iff] at hD
        obtain ⟨-, rfl⟩ := hD
        exact ends_doOk _ _ _ _ _ rfl (by simp [World.write])
          (by simp [World.write, Command.successMessage]) (by intro p hp; cases hp)

theorem platformAdd_ends (p : PlatformGo.platformAdd) (env : Env) (ctx : Context) :
    RunEnds (.platformAdd p) env (p.Run env ctx) := by
  obtain ⟨args, stdin⟩ := ctx
  cases args with
  | nil => exact ends_panic _ _ _
  | cons name args =>
    simp only [PlatformGo.platformAdd.Run, Context.start]
    split
    · next hN => exact ends_setup _ _ _ _ rfl (by simp) (by simp) (reports_newRequest hN)
    · split
      · next hD =>
        rw [clientDo_eq_iff] at hD
        obtain ⟨-, rfl⟩ := hD
        exact ends_doErr _ _ _ _ _ rfl (by simp) (by simp)
      · next resp w1 hD =>
        rw [clientDo_eq_iff] at hD
        obtain ⟨-, rfl⟩ := hD
        split
        · next hok =>
          exact ends_doOk _ _ _ _ _ rfl (by simp [World.write])
            (by simp [World.write, Command.successMessage]) (fun _ _ => hok)
        · next hok =>
          right; right; left
          exact ⟨_, resp, rfl, by simp, Or.inr ⟨rfl, p, rfl, by simpa [streamed] using hok⟩⟩

theorem changeQuota_ends (c : changeQuota) (env : Env) (ctx : Context) :
    RunEnds (.quotaUpdate c) env (c.Run env ctx) := by
  obtain ⟨args, stdin⟩ := ctx
  simp only [changeQuota.Run, Context.start]
  split
  · next hG => exact ends_setup _ _ _ _ rfl (by simp) (by simp) (reports_getURL hG)
  · split
    · next hN => exact ends_setup _ _ _ _ rfl (by simp) (by simp) (reports_newRequest hN)
    · split
      · next hD =>
        rw [clientDo_eq_iff] at hD
        obtain ⟨-, rfl⟩ := hD
        exact ends_doErr _ _ _ _ _ rfl (by simp) (by simp)
      · next hD =>
        rw [clientDo_eq_iff] at hD
        obtain ⟨-, rfl⟩ := hD
        exact ends_doOk _ _ _ _ _ rfl (by simp [World.write])
          (by simp [World.write, Command.successMessage]) (by intro p hp; cases hp)

theorem addTeams_ends (env : Env) (ctx : Context) :
    RunEnds .poolTeamsAdd env (addTeamsToPoolCmd.Run env ctx) := by
  obtain ⟨args, stdin⟩ := ctx
  cases args with
  | nil => exact ends_panic _ _ _
  | cons name args =>
    simp only [addTeamsToPoolCmd.Run, Context.start]
    split
    · next hG => exact ends_setup _ _ _ _ rfl (by simp) (by simp) (reports_getURL hG)
    · split
      · next hN => exact ends_setup _ _ _ _ rfl (by simp) (by simp) (reports_newRequest hN)
      · split
        · next hD =>
          rw [clientDo_eq_iff] at hD
          obtain ⟨-, rfl⟩ := hD
          exact ends_doErr _ _ _ _ _ rfl (by simp) (by simp)
        · next hD =>
          rw [clientDo_eq_iff] at hD
          obtain ⟨-, rfl⟩ := hD
          exact ends_doOk _ _ _ _ _ rfl (by simp [World.write])
            (by simp [World.write, Command.successMessage]) (by intro p hp; cases hp)

theorem removeTeams_ends (env : Env) (ctx : Context) :
    RunEnds .poolTeamsRemove env (removeTeamsFromPoolCmd.Run env ctx) := by
  obtain ⟨args, stdin⟩ := ctx
  cases args with
  | nil => exact ends_panic _ _ _
  | cons name args =>
    simp only [removeTeamsFromPoolCmd.Run, Context.start]
    split
    · next hM => exact ends_setup _ _ _ _ rfl (by simp) (by simp) (reports_marshal hM)
    · split
      · next hG => exact ends_setup _ _ _ _ rfl (by simp) (by simp) (reports_getURL hG)
      · split
        · next hN => exact ends_setup _ _ _ _ rfl (by simp) (by simp) (reports_newRequest hN)
        · split
          · next hD =>
            rw [clientDo_eq_iff] at hD
            obtain ⟨-, rfl⟩ := hD
            exact ends_doErr _ _ _ _ _ rfl (by simp) (by simp)
          · next hD =>
            rw [clientDo_eq_iff] at hD
            obtain ⟨-, rfl⟩ := hD
            exact ends_doOk _ _ _ _ _ rfl (by simp [World.write])
              (by simp [World.write, Command.successMessage]) (by intro p hp; cases hp)

theorem sendConfirmed_ends (cmd : Command) (env : Env) (stdin : List GoString)
    (arg0 url method body forced failMessage : GoString)
    (hcmd : (∃ c, cmd = .poolAdd c) ∨ (∃ c, cmd = .poolUpdate c))
    (hfail : cmd.successMessage ≠ failMessage) :
    RunEnds cmd env
      (sendConfirmed env { Stdout := [], Sent := [], Stdin := stdin, Reads := 0 } arg0 url method
        body forced failMessage cmd.successMessage) := by
  have hprompt : cmd.successMessage ≠ retryPrompt arg0 := by
    intro h
    have h2 := congrArg List.head? h
    rcases hcmd with ⟨c, rfl⟩ | ⟨c, rfl⟩
    · have h3 : (some 80 : Option (Fin 256)) = some 87 := h2
      exact absurd h3 (by decide)
    · have h3 : (some 80 : Option (Fin 256)) = some 87 := h2
      exact absurd h3 (by decide)
  rcases sendConfirmed_cases env stdin arg0 url method body forced failMessage
      cmd.successMessage with
    ⟨m, hN, h⟩ | ⟨resp, -, h⟩ | ⟨e, -, hn, h⟩ | ⟨m, -, -, -, h⟩ | ⟨m, e, -, -, -, h⟩ |
    ⟨m, resp, -, -, -, h⟩
  all_goals rw [h]
  · exact ends_setup _ _ _ _ rfl (by simp) (by simp) (reports_newRequest hN)
  · refine ends_doOk _ _ _ _ _ rfl (by simp) (by simp) ?_
    intro p hp
    rcases hcmd with ⟨c, rfl⟩ | ⟨c, rfl⟩ <;> cases hp
  · exact ends_doErr _ _ _ _ _ rfl (by simp) (by simp)
  · right; right; right; left
    exact ⟨_, m, rfl, rfl, rfl, by simp [hprompt, hfail], hcmd⟩
  · right; right; right; right
    exact ⟨_, _, m, _, rfl, rfl, hcmd, Or.inl ⟨e, rfl, rfl, by simp [hprompt]⟩⟩
  · right; right; right; right
    exact ⟨_, _, m, _, rfl, rfl, hcmd, Or.inr ⟨resp, rfl, rfl, by simp⟩⟩

/-- Every run of every command ends in one of the ways of `RunEnds`. -/
theorem Command.run_ends (cmd : Command) (env : Env) (ctx : Context) :
    RunEnds cmd env (cmd.Run env ctx) := by
  cases cmd with
  | poolAdd c =>
    obtain ⟨args, stdin⟩ := ctx
    cases args with
    | nil => exact ends_panic _ _ _
    | cons arg0 args =>
      show RunEnds _ _ (c.Run env _)
      rw [addPool_run_eq]
      exact sendConfirmed_ends (.poolAdd c) env stdin arg0 _ _ _ _ _ (Or.inl ⟨c, rfl⟩)
        (by show lit "Pool successfully registered.\n" ≠ _; decide)
  | poolUpdate c =>
    obtain ⟨args, stdin⟩ := ctx
    cases args with
    | nil => exact ends_panic _ _ _
    | cons arg0 args =>
      show RunEnds _ _ (c.Run env _)
      rw [updatePool_run_eq]
      exact sendConfirmed_ends (.poolUpdate c) env stdin arg0 _ _ _ _ _ (Or.inr ⟨c, rfl⟩)
        (by show lit "Pool successfully updated.\n" ≠ _; decide)
  | poolRemove c => exact removePool_ends c env ctx
  | poolTeamsAdd => exact addTeams_ends env ctx
  | poolTeamsRemove => exact removeTeams_ends env ctx
  | platformAdd p => exact platformAdd_ends p env ctx
  | platformAddPut p => exact platformAddPut_ends p env ctx
  | platformUpdate p => exact platformUpdate_ends p env ctx
  | platformRemove => exact platformRemove_ends env ctx
  | quotaUpdate c => exact changeQuota_ends c env ctx

/-! ## Errors, confirmations and round trips of every command -/

/-- C3: for every command and every input, if `client.Do` answers a request of the run,
the first one or the one sent again after the confirmation, with an error that is not an
HTTP error of status 412, `Run` returns that same error and the success line of the
command is not written to standard output. -/
theorem error_returned_without_success_line (cmd : Command) (env : Env) (ctx : Context)
    (x : Exchange) (e : GoError)
    (hsent : x ∈ (cmd.Run env ctx).1.Sent) (hres : x.res = .err e)
    (hnot412 : ∀ m, e ≠ .HTTP StatusPreconditionFailed m) :
    (cmd.Run env ctx).2 = .err e ∧ cmd.successMessage ∉ (cmd.Run env ctx).1.Stdout := by
  rcases Command.run_ends cmd env ctx with
    ⟨h, -⟩ | ⟨req, e2, h, -, hret, hout⟩ | ⟨req, resp, h, -⟩ | ⟨req, m, h, -⟩ |
    ⟨req1, req2, m, res2, h, -, -, hsecond⟩
  all_goals rw [h] at hsent
  · simp at hsent
  · rw [List.mem_singleton] at hsent
    subst hsent
    simp only [DoResult.err.injEq] at hres
    subst hres
    exact ⟨hret, hout⟩
  · rw [List.mem_singleton] at hsent
    subst hsent
    simp at hres
  · rw [List.mem_singleton] at hsent
    subst hsent
    simp only [DoResult.err.injEq] at hres
    exact absurd hres.symm (hnot412 m)
  · simp only [List.mem_cons, List.mem_singleton, List.not_mem_nil, or_false] at hsent
    rcases hsent with hx | hx
    · subst hx
      simp only [DoResult.err.injEq] at hres
      exact absurd hres.symm (hnot412 m)
    · subst hx
      rcases hsecond with ⟨e2, hres2, hret, hout⟩ | ⟨resp, hres2, -⟩
      · simp only at hres
        rw [hres2] at hres
        simp only [DoResult.err.injEq] at hres
        subst hres
        exact ⟨hret, hout⟩
      · simp only at hres
        rw [hres2] at hres
        simp at hres

theorem error_returned_without_success_line_witness :
    (⟨formRequest (lit "http://localhost/pools") (lit "POST")
        (lit "default=false&force=true&name=pool1&public=true"),
      .err (.HTTP 500 (lit "Internal Server Error"))⟩ : Exchange) ∈
      ((Command.poolAdd ⟨true, false, false⟩).Run envRetryFails
        { Args := [lit "pool1"], Stdin := [lit "y"] }).1.Sent ∧
    ((Command.poolAdd ⟨true, false, false⟩).Run envRetryFails
        { Args := [lit "pool1"], Stdin := [lit "y"] }).1.Sent.length = 2 ∧
    ((Command.poolAdd ⟨true, false, false⟩).Run envRetryFails
        { Args := [lit "pool1"], Stdin := [lit "y"] }).2 =
      .err (.HTTP 500 (lit "Internal Server Error")) ∧
    lit "Pool successfully registered.\n" ∉
      ((Command.poolAdd ⟨true, false, false⟩).Run envRetryFails
        { Args := [lit "pool1"], Stdin := [lit "y"] }).1.Stdout :=
  have h := error_returned_without_success_line (.poolAdd ⟨true, false, false⟩)
    envRetryFails { Args := [lit "pool1"], Stdin := [lit "y"] }
    ⟨formRequest (lit "http://localhost/pools") (lit "POST")
        (lit "default=false&force=true&name=pool1&public=true"),
      .err (.HTTP 500 (lit "Internal Server Error"))⟩
    (.HTTP 500 (lit "Internal Server Error")) (by decide) rfl
    (by intro m h; injection h with h1 _; exact absurd h1 (by decide))
  ⟨by decide, by decide, h.1, h.2⟩

/-- C6, as stated, fails: platform-add of platform.go, answered with success and an
empty body, returns an error and writes no confirmation line. -/
theorem platformAdd_success_without_trailer :
    (((Command.platformAdd ⟨[], []⟩).Run (envAnswer (.ok { Body := [] }))
        { Args := [lit "python"], Stdin := [] }).1.Sent.head?).map Exchange.res =
      some (.ok { Body := [] }) ∧
    ((Command.platformAdd ⟨[], []⟩).Run (envAnswer (.ok { Body := [] }))
        { Args := [lit "python"], Stdin := [] }).2 =
      .err (.other (lit "Failed to add new platform.\n")) ∧
    ((Command.platformAdd ⟨[], []⟩).Run (envAnswer (.ok { Body := [] }))
        { Args := [lit "python"], Stdin := [] }).1.Stdout = [] := by
  decide

/-- What platform-add of platform.go leaves on standard output when its request is
answered with success: the body, as the calls of `io.Copy` delivered it, followed by the
confirmation line when the body ends with the line `OK!`. -/
theorem platformAdd_streams (p : PlatformGo.platformAdd) (env : Env) (ctx : Context)
    (resp : Response)
    (hfirst : ((p.Run env ctx).1.Sent.head?).map Exchange.res = some (.ok resp)) :
    (p.Run env ctx).1.Stdout =
      copyLoop resp.Body 1 none ++
        if HasSuffix (streamed resp) (lit "\nOK!\n") = true
        then [lit "Platform successfully added!\n"] else [] := by
  obtain ⟨args, stdin⟩ := ctx
  cases args with
  | nil => simp [PlatformGo.platformAdd.Run, Context.start] at hfirst
  | cons name args =>
    simp only [PlatformGo.platformAdd.Run, Context.start, clientDo, List.map_nil,
      List.nil_append] at hfirst ⊢
    cases hN : env.NewRequest (lit "POST") (env.GetURL (lit "/platforms")).1 with
    | some msg => simp [hN] at hfirst
    | none =>
      simp only [hN] at hfirst ⊢
      cases hD : env.Do []
          { Method := lit "POST", URL := (env.GetURL (lit "/platforms")).1,
            Body := some (p.body name),
            ContentType := some (lit "application/x-www-form-urlencoded") } with
      | err e => simp [hD] at hfirst
      | ok resp2 =>
        simp only [hD] at hfirst ⊢
        have hresp : resp2 = resp := by
          split at hfirst <;> simpa [World.write] using hfirst
        subst hresp
        unfold streamed
        split <;> simp [World.write]

/-- C6, amended: if `client.Do` answers the first request with success, then every
command but platform-add of platform.go returns nil and its confirmation line is the
last write to standard output; platform-add of platform.go streams the response body to
standard output, and then does the same when the body it streamed ends with the line
`OK!`, and otherwise writes nothing more and returns the error
`Failed to add new platform.`. In every run, whatever the answers, an error is returned
only when it is this error of platform-add after a successful answer without the line
`OK!`, or the error `client.Do` returned for the last request, or, no request having
been sent, an error that `cmd.GetURL`, `http.NewRequest` or `json.Marshal` returned. -/
theorem success_writes_confirmation (cmd : Command) (env : Env) (ctx : Context) :
    (∀ resp, ((cmd.Run env ctx).1.Sent.head?).map Exchange.res = some (.ok resp) →
      (((∀ p, cmd ≠ .platformAdd p) ∨ HasSuffix (streamed resp) (lit "\nOK!\n") = true) →
        (cmd.Run env ctx).2 = .nil ∧
          (cmd.Run env ctx).1.Stdout.getLast? = some cmd.successMessage) ∧
      ((∃ p, cmd = .platformAdd p) →
        (cmd.Run env ctx).1.Stdout =
          copyLoop resp.Body 1 none ++
            if HasSuffix (streamed resp) (lit "\nOK!\n") = true
            then [cmd.successMessage] else []) ∧
      (((∃ p, cmd = .platformAdd p) ∧ HasSuffix (streamed resp) (lit "\nOK!\n") = false) →
        (cmd.Run env ctx).2 = .err (.other (lit "Failed to add new platform.\n")))) ∧
    (∀ e, (cmd.Run env ctx).2 = .err e →
      (∃ p resp, cmd = .platformAdd p ∧ e = .other (lit "Failed to add new platform.\n") ∧
        (cmd.Run env ctx).1.Sent.map Exchange.res = [.ok resp] ∧
        HasSuffix (streamed resp) (lit "\nOK!\n") = false) ∨
      (∃ x, (cmd.Run env ctx).1.Sent.getLast? = some x ∧ x.res = .err e) ∨
      ((cmd.Run env ctx).1.Sent = [] ∧ env.reports e)) := by
  constructor
  · intro resp hfirst
    have hstream : (∃ p, cmd = .platformAdd p) →
        (cmd.Run env ctx).1.Stdout =
          copyLoop resp.Body 1 none ++
            if HasSuffix (streamed resp) (lit "\nOK!\n") = true
            then [cmd.successMessage] else [] := by
      rintro ⟨p, rfl⟩
      exact platformAdd_streams p env ctx resp hfirst
    rcases Command.run_ends cmd env ctx with
      ⟨h, -⟩ | ⟨req, e2, h, -⟩ | ⟨req, resp2, h, -, hcase⟩ | ⟨req, m, h, -⟩ |
      ⟨req1, req2, m, res2, h, -⟩
    all_goals rw [h] at hfirst
    · simp at hfirst
    · simp at hfirst
    · simp only [List.head?_cons, Option.map_some', Option.some.injEq, DoResult.ok.injEq]
        at hfirst
      subst hfirst
      rcases hcase with ⟨hnil, hlast, hp⟩ | ⟨herr, p, hp, hsuf⟩
      · refine ⟨fun _ => ⟨hnil, hlast⟩, hstream, ?_⟩
        rintro ⟨⟨p, hp2⟩, hsuf⟩
        rw [hp p hp2] at hsuf
        exact absurd hsuf (by decide)
      · refine ⟨?_, hstream, fun _ => herr⟩
        rintro (hn | hs)
        · exact absurd hp (hn p)
        · rw [hsuf] at hs
          exact absurd hs (by decide)
    · simp at hfirst
    · simp at hfirst
  · intro e he
    rcases Command.run_ends cmd env ctx with
      ⟨h, -, -, hrep⟩ | ⟨req, e2, h, -, hret, -⟩ | ⟨req, resp2, h, -, hcase⟩ |
      ⟨req, m, h, -, hret, -⟩ | ⟨req1, req2, m, res2, h, -, -, hsecond⟩
    · exact Or.inr (Or.inr ⟨h, hrep e he⟩)
    · rw [hret] at he
      injection he with he
      subst he
      exact Or.inr (Or.inl ⟨_, by rw [h]; rfl, rfl⟩)
    · rcases hcase with ⟨hnil, -⟩ | ⟨herr, p, hp, hsuf⟩
      · rw [hnil] at he
        cases he
      · rw [herr] at he
        injection he with he
        exact Or.inl ⟨p, resp2, hp, he.symm, by rw [h]; rfl, hsuf⟩
    · rw [hret] at he
      cases he
    · rcases hsecond with ⟨e2, hres2, hret, -⟩ | ⟨resp, -, hnil, -⟩
      · rw [hret] at he
        injection he with he
        subst he
        exact Or.inr (Or.inl ⟨_, by rw [h]; rfl, hres2⟩)
      · rw [hnil] at he
        cases he

theorem success_writes_confirmation_witness :
    ((Command.platformAdd ⟨[], []⟩).Run
        (envAnswer (.ok { Body := [(lit "step 1\n", none), (lit "OK!\n", none)] }))
        { Args := [lit "python"], Stdin := [] }).2 = .nil ∧
    ((Command.platformAdd ⟨[], []⟩).Run
        (envAnswer (.ok { Body := [(lit "step 1\n", none), (lit "OK!\n", none)] }))
        { Args := [lit "python"], Stdin := [] }).1.Stdout =
      [lit "step 1\n", lit "OK!\n", lit "Platform successfully added!\n"] :=
  have h := (success_writes_confirmation (.platformAdd ⟨[], []⟩)
    (envAnswer (.ok { Body := [(lit "step 1\n", none), (lit "OK!\n", none)] }))
    { Args := [lit "python"], Stdin := [] }).1
    { Body := [(lit "step 1\n", none), (lit "OK!\n", none)] } (by decide)
  ⟨(h.1 (Or.inr (by decide))).1, (h.2.1 ⟨_, rfl⟩).trans (by decide)⟩

/-- C7: for every command, every input and every behaviour of the collaborators, one
run sends at most two requests and reads standard input at most once, and a second
request is sent only after the first one failed with status 412. -/
theorem at_most_two_requests_one_read (cmd : Command) (env : Env) (ctx : Context) :
    (cmd.Run env ctx).1.Sent.length ≤ 2 ∧ (cmd.Run env ctx).1.Reads ≤ 1 ∧
    (∀ second, (cmd.Run env ctx).1.Sent.get? 1 = some second →
      ∃ first msg, (cmd.Run env ctx).1.Sent.head? = some first ∧
        first.res = .err (.HTTP StatusPreconditionFailed msg)) := by
  rcases Command.run_ends cmd env ctx with
    ⟨h, hr, -⟩ | ⟨req, e2, h, hr, -⟩ | ⟨req, resp2, h, hr, -⟩ | ⟨req, m, h, hr, -⟩ |
    ⟨req1, req2, m, res2, h, hr, -⟩
  all_goals rw [h]
  · exact ⟨by simp, hr, by simp⟩
  · exact ⟨by simp, hr, by simp⟩
  · exact ⟨by simp, hr, by simp⟩
  · exact ⟨by simp, by omega, by simp⟩
  · exact ⟨by simp, by omega, fun _ _ => ⟨_, m, rfl, rfl⟩⟩

theorem at_most_two_requests_one_read_witness :
    ∃ first msg,
      ((Command.poolUpdate ⟨⟨none⟩, ⟨some true⟩, false⟩).Run envConflict
        { Args := [lit "pool1"], Stdin := [lit "yes"] }).1.Sent.head? = some first ∧
      first.res = .err (.HTTP StatusPreconditionFailed msg) :=
  (at_most_two_requests_one_read (.poolUpdate ⟨⟨none⟩, ⟨some true⟩, false⟩) envConflict
    { Args := [lit "pool1"], Stdin := [lit "yes"] }).2.2
    ⟨formRequest (lit "http://localhost/pools/pool1") (lit "PUT")
      (lit "default=true&force=true&public="), .ok { Body := [] }⟩
    (by decide)

/-! ## pool-update: the flags as they were given -/

theorem sendConfirmed_sent (env : Env) (stdin : List GoString)
    (arg0 url method body forced failMessage successMessage : GoString) :
    ∀ x ∈ (sendConfirmed env { Stdout := [], Sent := [], Stdin := stdin, Reads := 0 } arg0 url
        method body forced failMessage successMessage).1.Sent,
      x.req.Body = some body ∨ x.req.Body = some forced := by
  intro x hx
  rcases sendConfirmed_cases env stdin arg0 url method body forced failMessage
      successMessage with
    ⟨m, -, h⟩ | ⟨resp, -, h⟩ | ⟨e, -, -, h⟩ | ⟨m, -, -, -, h⟩ | ⟨m, e, -, -, -, h⟩ |
    ⟨m, resp, -, -, -, h⟩
  all_goals rw [h] at hx
  all_goals simp only [List.mem_cons, List.mem_singleton, List.not_mem_nil, or_false] at hx
  · rw [hx]; exact Or.inl rfl
  · rw [hx]; exact Or.inl rfl
  · rw [hx]; exact Or.inl rfl
  · rcases hx with hx | hx <;> rw [hx]
    · exact Or.inl rfl
    · exact Or.inr rfl
  · rcases hx with hx | hx <;> rw [hx]
    · exact Or.inl rfl
    · exact Or.inr rfl

theorem FormatBool_ne_nil (b : Bool) : FormatBool b ≠ [] := by
  cases b <;> decide

/-- C4: every request pool-update sends has a body that decodes, as a form, to
`public` equal to the empty string when the flag was not provided and to `true` or
`false`, the provided value, otherwise; and likewise `default`. The empty value is sent
exactly when the flag was not provided. -/
theorem updatePool_sends_flags_as_given (c : updatePoolToSchedulerCmd) (env : Env)
    (ctx : Context) :
    ∀ x ∈ (c.Run env ctx).1.Sent, ∃ body,
      x.req.Body = some body ∧ (ParseQuery body).2 = none ∧
      (Values.index (ParseQuery body).1 (lit "public") =
        [match c.public.value with
         | none => lit ""
         | some b => if b then lit "true" else lit "false"]) ∧
      (Values.index (ParseQuery body).1 (lit "default") =
        [match c.defaultPool.value with
         | none => lit ""
         | some b => if b then lit "true" else lit "false"]) ∧
      (Values.Get (ParseQuery body).1 (lit "public") = lit "" ↔ c.public.value = none) ∧
      (Values.Get (ParseQuery body).1 (lit "default") = lit "" ↔ c.defaultPool.value = none) := by
  intro x hx
  obtain ⟨args, stdin⟩ := ctx
  cases args with
  | nil => simp [updatePoolToSchedulerCmd.Run, Context.start] at hx
  | cons arg0 args =>
    rw [updatePool_run_eq] at hx
    have hb := updatePool_bodies c
    have hflag : ∀ p : pointerBoolFlag,
        ([flagField p] = [match p.value with
          | none => lit ""
          | some b => if b then lit "true" else lit "false"]) ∧
        (flagField p = lit "" ↔ p.value = none) := by
      rintro ⟨_ | b⟩
      · exact ⟨rfl, by simp [flagField]⟩
      · refine ⟨rfl, ?_⟩
        simp only [flagField]
        constructor
        · intro h; exact absurd h (FormatBool_ne_nil b)
        · intro h; cases h
    rcases sendConfirmed_sent env stdin arg0 _ _ _ _ _ _ x hx with h | h
    · refine ⟨_, h, by rw [hb.1], ?_, ?_, ?_, ?_⟩
      · rw [hb.1]; exact (hflag c.public).1
      · rw [hb.1]; exact (hflag c.defaultPool).1
      · rw [hb.1]; exact (hflag c.public).2
      · rw [hb.1]; exact (hflag c.defaultPool).2
    · refine ⟨_, h, by rw [hb.2], ?_, ?_, ?_, ?_⟩
      · rw [hb.2]; exact (hflag c.public).1
      · rw [hb.2]; exact (hflag c.defaultPool).1
      · rw [hb.2]; exact (hflag c.public).2
      · rw [hb.2]; exact (hflag c.defaultPool).2

theorem updatePool_sends_flags_as_given_witness :
    (⟨formRequest (lit "http://localhost/pools/pool1") (lit "PUT")
        (lit "default=&force=false&public=true"),
      .err (.HTTP StatusPreconditionFailed (lit "Default pool already exists."))⟩ : Exchange) ∈
      ((updatePoolToSchedulerCmd.mk ⟨some true⟩ ⟨none⟩ false).Run envConflict
        { Args := [lit "pool1"], Stdin := [lit "y"] }).1.Sent ∧
    ∃ body, some (lit "default=&force=false&public=true") = some body ∧
      (ParseQuery body).2 = none ∧
      Values.index (ParseQuery body).1 (lit "public") = [lit "true"] ∧
      Values.index (ParseQuery body).1 (lit "default") = [lit ""] ∧
      (Values.Get (ParseQuery body).1 (lit "public") = lit "" ↔ some true = none) ∧
      (Values.Get (ParseQuery body).1 (lit "default") = lit "" ↔ (none : Option Bool) = none) :=
  ⟨by decide,
   updatePool_sends_flags_as_given ⟨⟨some true⟩, ⟨none⟩, false⟩ envConflict
     { Args := [lit "pool1"], Stdin := [lit "y"] }
     ⟨formRequest (lit "http://localhost/pools/pool1") (lit "PUT")
        (lit "default=&force=false&public=true"),
      .err (.HTTP StatusPreconditionFailed (lit "Default pool already exists."))⟩
     (by decide)⟩

/-! ## pointerBoolFlag -/

/-- C5: a fresh `pointerBoolFlag` prints as `not set`; `Set` of a string that
`strconv.ParseBool` accepts with value `b` returns nil and the flag then prints as `true`
or `false`, according to `b`; `Set` of the empty string returns nil and changes nothing;
`Set` of a non-empty string that `ParseBool` rejects returns an error and changes
nothing. -/
theorem pointerBoolFlag_three_states (p : pointerBoolFlag) (s : GoString) :
    (pointerBoolFlag.mk none).String = lit "not set" ∧
    (∀ b, ParseBool s = .ok b →
      (p.Set s).1 = none ∧ (p.Set s).2.String = (if b then lit "true" else lit "false")) ∧
    p.Set (lit "") = (none, p) ∧
    (s ≠ lit "" → (∀ b, ParseBool s ≠ .ok b) → (∃ e, (p.Set s).1 = some e) ∧ (p.Set s).2 = p) := by
  refine ⟨rfl, ?_, rfl, ?_⟩
  · intro b hb
    have hs : s ≠ [] := by
      intro h
      rw [h] at hb
      cases hb
    have hset : p.Set s = (none, { value := some b }) := by
      simp [pointerBoolFlag.Set, hs, hb]
    rw [hset]
    exact ⟨rfl, rfl⟩
  · intro hs hrej
    have hs2 : s ≠ [] := hs
    cases hp : ParseBool s with
    | ok b => exact absurd hp (hrej b)
    | error e =>
      have hset : p.Set s = (some e, p) := by
        simp [pointerBoolFlag.Set, hs2, hp]
      rw [hset]
      exact ⟨⟨e, rfl⟩, rfl⟩

theorem pointerBoolFlag_three_states_witness :
    ((pointerBoolFlag.mk none).Set (lit "T")).2.String = lit "true" ∧
    ((pointerBoolFlag.mk (some false)).Set (lit "maybe")).2 = pointerBoolFlag.mk (some false) :=
  ⟨((pointerBoolFlag_three_states ⟨none⟩ (lit "T")).2.1 true rfl).2,
   ((pointerBoolFlag_three_states ⟨some false⟩ (lit "maybe")).2.2.2 (by decide)
      (by intro b h; cases h)).2⟩

/-! ## platform-add and platform-update: the form body -/

/-- C8 fails on the code: platform-add (both versions) and platform-update write the
name and the dockerfile URL into the body as they are. For the platform `python` and the
dockerfile URL `http://example.com/Dockerfile?rev=1&raw=1` the body sent decodes to a
`dockerfile` field cut at the `&` and to a field `raw` that was never given. -/
theorem platform_body_is_not_escaped :
    (((Command.platformAdd ⟨[], lit "http://example.com/Dockerfile?rev=1&raw=1"⟩).Run
        (envAnswer (.ok { Body := [] })) { Args := [lit "python"], Stdin := [] }).1.Sent.map
        (fun x => x.req.Body)) =
      [some (lit "name=python&dockerfile=http://example.com/Dockerfile?rev=1&raw=1")] ∧
    (((Command.platformAddPut ⟨[], lit "http://example.com/Dockerfile?rev=1&raw=1"⟩).Run
        (envAnswer (.ok { Body := [] })) { Args := [lit "python"], Stdin := [] }).1.Sent.map
        (fun x => x.req.Body)) =
      [some (lit "name=python&dockerfile=http://example.com/Dockerfile?rev=1&raw=1")] ∧
    (((Command.platformUpdate ⟨[], lit "http://example.com/Dockerfile?rev=1&raw=1", false⟩).Run
        (envAnswer (.ok { Body := [] })) { Args := [lit "python"], Stdin := [] }).1.Sent.map
        (fun x => x.req.Body)) =
      [some (lit "a=1&dockerfile=http://example.com/Dockerfile?rev=1&raw=1")] ∧
    ParseQuery (lit "name=python&dockerfile=http://example.com/Dockerfile?rev=1&raw=1") =
      ([(lit "name", [lit "python"]),
        (lit "dockerfile", [lit "http://example.com/Dockerfile?rev=1"]),
        (lit "raw", [lit "1"])], none) ∧
    ParseQuery (lit "a=1&dockerfile=http://example.com/Dockerfile?rev=1&raw=1") =
      ([(lit "a", [lit "1"]),
        (lit "dockerfile", [lit "http://example.com/Dockerfile?rev=1"]),
        (lit "raw", [lit "1"])], none) := by
  decide

/-! ## ScopedConfig: lemmas on the maps -/

theorem lookup_foldl_insert_not_mem {V : Type} (key : V → GoString) (es : List V)
    (acc : AList (fun _ : GoString => V)) (k : GoString) (h : ∀ e ∈ es, key e ≠ k) :
    (es.foldl (fun m e => m.insert (key e) e) acc).lookup k = acc.lookup k := by
  induction es generalizing acc with
  | nil => rfl
  | cons e es ih =>
    rw [List.foldl_cons, ih _ (fun x hx => h x (List.mem_cons_of_mem _ hx))]
    exact AList.lookup_insert_ne (fun hk => h e (List.mem_cons_self _ _) hk.symm)

theorem lookup_foldl_insert_mem {V : Type} (key : V → GoString) (es : List V)
    (acc : AList (fun _ : GoString => V)) (hnd : (es.map key).Nodup) (e : V) (he : e ∈ es) :
    (es.foldl (fun m e => m.insert (key e) e) acc).lookup (key e) = some e := by
  induction es generalizing acc with
  | nil => cases he
  | cons x es ih =>
    rw [List.map_cons, List.nodup_cons] at hnd
    rw [List.foldl_cons]
    rcases List.mem_cons.1 he with rfl | hmem
    · rw [lookup_foldl_insert_not_mem]
      · exact AList.lookup_insert _
      · intro y hy hxy
        exact hnd.1 (List.mem_map.2 ⟨y, hy, hxy⟩)
    · exact ih _ hnd.2 hmem

theorem keyed_empty : EntryMap.Keyed ∅ := by
  intro name entry h
  rw [AList.lookup_empty] at h
  cases h

theorem keyed_insert {m : EntryMap} (hm : m.Keyed) (entry : Entry) :
    EntryMap.Keyed (m.insert entry.Name entry) := by
  intro name e h
  by_cases hn : name = entry.Name
  · subst hn
    rw [AList.lookup_insert] at h
    injection h with h
    rw [← h]
  · rw [AList.lookup_insert_ne hn] at h
    exact hm name e h

theorem keyed_erase {m : EntryMap} (hm : m.Keyed) (name : GoString) :
    EntryMap.Keyed (m.erase name) := by
  intro k e h
  by_cases hn : k = name
  · subst hn
    rw [AList.lookup_erase] at h
    cases h
  · rw [AList.lookup_erase_ne hn] at h
    exact hm k e h

theorem keyed_foldl_insert (es : List Entry) (acc : EntryMap) (h : acc.Keyed) :
    EntryMap.Keyed (es.foldl (fun m e => m.insert e.Name e) acc) := by
  induction es generalizing acc with
  | nil => exact h
  | cons e es ih => exact ih _ (keyed_insert h e)

theorem loadEntryMap_keyed (envs : List Entry) : (loadEntryMap envs).Keyed :=
  keyed_foldl_insert envs ∅ keyed_empty

theorem keyed_of_same {m1 m2 : EntryMap} (h : m1.Same m2) (h2 : m2.Keyed) : m1.Keyed := by
  intro name e he
  rw [h name] at he
  exact h2 name e he

theorem same_refl (m : EntryMap) : m.Same m := fun _ => rfl

theorem same_symm {m1 m2 : EntryMap} (h : m1.Same m2) : m2.Same m1 := fun k => (h k).symm

/-- The values of a keyed map, visited in any order and loaded again, give the map
back. -/
theorem loadEntryMap_values (m : EntryMap) (hk : m.Keyed)
    (l : List (Sigma fun _ : GoString => Entry)) (hp : l.Perm m.entries) :
    EntryMap.Same (loadEntryMap (l.map fun x => x.2)) m := by
  have hname : ∀ x ∈ l, x.2.Name = x.1 := by
    intro x hx
    have hx2 : x ∈ m.entries := hp.mem_iff.1 hx
    exact hk x.1 x.2 (AList.mem_lookup_iff.2 (by cases x; exact hx2))
  have hmap : (l.map fun x => x.2).map Entry.Name = l.map Sigma.fst := by
    rw [List.map_map]
    exact List.map_congr_left (fun x hx => hname x hx)
  have hnd : ((l.map fun x => x.2).map Entry.Name).Nodup := by
    rw [hmap]
    exact (hp.map Sigma.fst).nodup_iff.2 m.keys_nodup
  intro k
  cases hl : m.lookup k with
  | none =>
    have hnot : k ∉ m.keys := AList.lookup_eq_none.1 hl
    unfold loadEntryMap
    rw [lookup_foldl_insert_not_mem Entry.Name, AList.lookup_empty]
    intro e he hek
    apply hnot
    have : k ∈ (l.map fun x => x.2).map Entry.Name := List.mem_map.2 ⟨e, he, hek⟩
    rw [hmap] at this
    exact (hp.map Sigma.fst).mem_iff.1 this
  | some e =>
    have hmem : (⟨k, e⟩ : Sigma fun _ : GoString => Entry) ∈ l :=
      hp.mem_iff.2 (AList.mem_lookup_iff.1 hl)
    have hek : e.Name = k := hk k e hl
    have he : e ∈ l.map fun x => x.2 := List.mem_map.2 ⟨⟨k, e⟩, hmem, rfl⟩
    have := lookup_foldl_insert_mem Entry.Name (l.map fun x => x.2) ∅ hnd e he
    rw [hek] at this
    exact this

theorem lookup_ensure (pm : PoolEntryMap) (p q : GoString) :
    (pm.ensure p).lookup q = if q = p then some ((pm.lookup p).getD ∅) else pm.lookup q := by
  unfold PoolEntryMap.ensure
  by_cases hq : q = p
  · subst hq
    cases h : pm.lookup q with
    | none => simp [AList.lookup_insert]
    | some m0 => simp [h]
  · cases h : pm.lookup p with
    | none => simp [hq, AList.lookup_insert_ne hq]
    | some m0 => simp [hq]

theorem lookup_set (pm : PoolEntryMap) (p n q : GoString) (e : Entry) :
    (pm.set p n e).lookup q =
      if q = p then some (((pm.lookup p).getD ∅).insert n e) else pm.lookup q := by
  unfold PoolEntryMap.set
  by_cases hq : q = p
  · subst hq
    simp [AList.lookup_insert]
  · simp [hq, AList.lookup_insert_ne hq]

theorem lookup_foldl_set (envs : List Entry) (acc : PoolEntryMap) (p q : GoString)
    (m0 : EntryMap) (h0 : acc.lookup p = some m0) :
    (envs.foldl (fun pm1 entry => pm1.set p entry.Name entry) acc).lookup q =
      if q = p then some (envs.foldl (fun m e => m.insert e.Name e) m0) else acc.lookup q := by
  induction envs generalizing acc m0 with
  | nil =>
    by_cases hq : q = p
    · subst hq; simp [h0]
    · simp [hq]
  | cons e envs ih =>
    rw [List.foldl_cons, List.foldl_cons]
    have h1 : (acc.set p e.Name e).lookup p = some (m0.insert e.Name e) := by
      rw [lookup_set, h0]; simp
    rw [ih _ _ h1]
    by_cases hq : q = p
    · simp [hq]
    · simp [hq, lookup_set]

/-- One turn of the second loop of `loadMap`, read at the pool `q`. -/
theorem lookup_loadStep (pm : PoolEntryMap) (pe : PoolEntry) (q : GoString) :
    (pe.Envs.foldl (fun pm1 entry => pm1.set pe.Name entry.Name entry)
        (pm.ensure pe.Name)).lookup q =
      if q = pe.Name then
        some (pe.Envs.foldl (fun m e => m.insert e.Name e) ((pm.lookup pe.Name).getD ∅))
      else pm.lookup q := by
  have h0 : (pm.ensure pe.Name).lookup pe.Name = some ((pm.lookup pe.Name).getD ∅) := by
    rw [lookup_ensure]; simp
  rw [lookup_foldl_set _ _ _ _ _ h0]
  by_cases hq : q = pe.Name
  · simp [hq]
  · simp [hq, lookup_ensure]

theorem loadPoolEntryMap_foldl_not_mem (pools : List PoolEntry) (acc : PoolEntryMap)
    (q : GoString) (h : ∀ pe ∈ pools, pe.Name ≠ q) :
    (pools.foldl
      (fun pm pe => pe.Envs.foldl (fun pm1 entry => pm1.set pe.Name entry.Name entry)
        (pm.ensure pe.Name)) acc).lookup q = acc.lookup q := by
  induction pools generalizing acc with
  | nil => rfl
  | cons pe pools ih =>
    rw [List.foldl_cons, ih _ (fun x hx => h x (List.mem_cons_of_mem _ hx)), lookup_loadStep]
    have hne : q ≠ pe.Name := fun hq => h pe (List.mem_cons_self _ _) hq.symm
    simp [hne]

theorem loadPoolEntryMap_foldl_mem (pools : List PoolEntry) (acc : PoolEntryMap)
    (hnd : (pools.map PoolEntry.Name).Nodup) (pe : PoolEntry) (hpe : pe ∈ pools) :
    (pools.foldl
      (fun pm pe => pe.Envs.foldl (fun pm1 entry => pm1.set pe.Name entry.Name entry)
        (pm.ensure pe.Name)) acc).lookup pe.Name =
      some (pe.Envs.foldl (fun m e => m.insert e.Name e) ((acc.lookup pe.Name).getD ∅)) := by
  induction pools generalizing acc with
  | nil => cases hpe
  | cons x pools ih =>
    rw [List.map_cons, List.nodup_cons] at hnd
    rw [List.foldl_cons]
    rcases List.mem_cons.1 hpe with rfl | hmem
    · rw [loadPoolEntryMap_foldl_not_mem, lookup_loadStep]
      · simp
      · intro y hy hxy
        exact hnd.1 (List.mem_map.2 ⟨y, hy, hxy⟩)
    · rw [ih _ hnd.2 hmem, lookup_loadStep]
      have hne : pe.Name ≠ x.Name := by
        intro hx
        exact hnd.1 (List.mem_map.2 ⟨pe, hmem, hx⟩)
      simp [hne]

theorem innerKeyed_empty : InnerKeyed ∅ := by
  intro pool mp h
  rw [AList.lookup_empty] at h
  cases h

theorem innerKeyed_loadStep (pm : PoolEntryMap) (pe : PoolEntry) (h : InnerKeyed pm) :
    InnerKeyed (pe.Envs.foldl (fun pm1 entry => pm1.set pe.Name entry.Name entry)
      (pm.ensure pe.Name)) := by
  intro q mp hq
  rw [lookup_loadStep] at hq
  by_cases hqp : q = pe.Name
  · simp only [hqp, if_true, Option.some.injEq] at hq
    rw [← hq]
    apply keyed_foldl_insert
    cases hl : pm.lookup pe.Name with
    | none => exact keyed_empty
    | some m0 => exact h _ _ hl
  · simp only [hqp, if_false] at hq
    exact h _ _ hq

theorem loadPoolEntryMap_innerKeyed (pools : List PoolEntry) :
    InnerKeyed (loadPoolEntryMap pools) := by
  unfold loadPoolEntryMap
  have : ∀ acc : PoolEntryMap, InnerKeyed acc →
      InnerKeyed (pools.foldl
        (fun pm pe => pe.Envs.foldl (fun pm1 entry => pm1.set pe.Name entry.Name entry)
          (pm.ensure pe.Name)) acc) := by
    induction pools with
    | nil => intro acc h; exact h
    | cons pe pools ih => intro acc h; exact ih _ (innerKeyed_loadStep acc pe h)
  exact this ∅ innerKeyed_empty

theorem innerKeyed_of_same {p1 p2 : PoolEntryMap} (h : p1.Same p2) (h2 : InnerKeyed p2) :
    InnerKeyed p1 := by
  intro pool mp hl
  have hs := h pool
  rw [hl] at hs
  cases hl2 : p2.lookup pool with
  | none => rw [hl2] at hs; exact hs.elim
  | some m2 =>
    rw [hl2] at hs
    exact keyed_of_same hs (h2 _ _ hl2)

theorem poolSame_refl (pm : PoolEntryMap) : pm.Same pm := by
  intro pool
  cases h : pm.lookup pool with
  | none => trivial
  | some m => exact same_refl m

/-- The pools of a pool map with keyed inner maps, visited in any order and loaded
again, give the pool map back. -/
theorem loadPoolEntryMap_pools (ord : RangeOrder) (pm : PoolEntryMap) (hk : InnerKeyed pm) :
    PoolEntryMap.Same
      (loadPoolEntryMap ((rangeOver ord (some pm)).map fun kv =>
        { Name := kv.1, Envs := (rangeOver ord (some kv.2)).map Prod.snd }))
      pm := by
  have hp := ord.perm pm.entries
  have hmap : ((rangeOver ord (some pm)).map fun kv =>
        ({ Name := kv.1, Envs := (rangeOver ord (some kv.2)).map Prod.snd } : PoolEntry)).map
        PoolEntry.Name = (ord.pick pm.entries).map Sigma.fst := by
    simp [rangeOver, List.map_map, Function.comp_def]
  have hnd : (((rangeOver ord (some pm)).map fun kv =>
        ({ Name := kv.1, Envs := (rangeOver ord (some kv.2)).map Prod.snd } : PoolEntry)).map
        PoolEntry.Name).Nodup := by
    rw [hmap]
    exact (hp.map Sigma.fst).nodup_iff.2 pm.keys_nodup
  intro pool
  cases hl : pm.lookup pool with
  | none =>
    have hnot : pool ∉ pm.keys := AList.lookup_eq_none.1 hl
    unfold loadPoolEntryMap
    rw [loadPoolEntryMap_foldl_not_mem, AList.lookup_empty]
    · trivial
    · intro pe hpe hname
      apply hnot
      have : pool ∈ ((rangeOver ord (some pm)).map fun kv =>
          ({ Name := kv.1, Envs := (rangeOver ord (some kv.2)).map Prod.snd } : PoolEntry)).map
          PoolEntry.Name := List.mem_map.2 ⟨pe, hpe, hname⟩
      rw [hmap] at this
      exact (hp.map Sigma.fst).mem_iff.1 this
  | some mp =>
    have hmem : (⟨pool, mp⟩ : Sigma fun _ : GoString => EntryMap) ∈ ord.pick pm.entries :=
      hp.mem_iff.2 (AList.mem_lookup_iff.1 hl)
    have hpe : ({ Name := pool, Envs := (rangeOver ord (some mp)).map Prod.snd } : PoolEntry) ∈
        (rangeOver ord (some pm)).map fun kv =>
          ({ Name := kv.1, Envs := (rangeOver ord (some kv.2)).map Prod.snd } : PoolEntry) := by
      simp only [rangeOver, List.map_map, List.mem_map, Function.comp_apply]
      exact ⟨⟨pool, mp⟩, hmem, rfl⟩
    have h := loadPoolEntryMap_foldl_mem _ ∅ hnd _ hpe
    unfold loadPoolEntryMap
    simp only [AList.lookup_empty, Option.getD_none] at h
    rw [h]
    have hv : (rangeOver ord (some mp)).map Prod.snd = (ord.pick mp.entries).map fun x => x.2 := by
      simp [rangeOver, List.map_map, Function.comp_def]
    show EntryMap.Same (loadEntryMap _) mp
    rw [hv]
    exact loadEntryMap_values mp (hk _ _ hl) _ (ord.perm _)

/-- After `updateFromMap` on non-nil maps with keyed entries, the lists and the maps
agree. -/
theorem updateFromMap_inSync (ord : RangeOrder) (c : ScopedConfig) (m : EntryMap)
    (pm : PoolEntryMap) (hm : c.entryMap = some m) (hpm : c.poolEntryMap = some pm)
    (hk : m.Keyed) (hpk : InnerKeyed pm) : (c.updateFromMap ord).InSync := by
  unfold ScopedConfig.InSync ScopedConfig.updateFromMap
  simp only [hm, hpm]
  constructor
  · have hv : (rangeOver ord (some m)).map Prod.snd = (ord.pick m.entries).map fun x => x.2 := by
      simp [rangeOver, List.map_map, Function.comp_def]
    rw [hv]
    exact same_symm (loadEntryMap_values m hk _ (ord.perm _))
  · intro pool
    have h := loadPoolEntryMap_pools ord pm hpk pool
    revert h
    cases pm.lookup pool <;> cases (loadPoolEntryMap ((rangeOver ord (some pm)).map fun kv =>
        { Name := kv.1, Envs := (rangeOver ord (some kv.2)).map Prod.snd })).lookup pool
    · intro h; exact h
    · intro h; exact h
    · intro h; exact h
    · intro h; exact same_symm h

theorem loadMap_inSync (c : ScopedConfig) : c.loadMap.InSync := by
  unfold ScopedConfig.InSync ScopedConfig.loadMap
  exact ⟨same_refl _, poolSame_refl _⟩

theorem loadMap_loaded (c : ScopedConfig) : c.loadMap.Loaded :=
  ⟨_, _, rfl, rfl, loadEntryMap_keyed _, loadPoolEntryMap_innerKeyed _⟩

theorem inSync_maps {c : ScopedConfig} (h : c.InSync) :
    ∃ m pm, c.entryMap = some m ∧ c.poolEntryMap = some pm ∧
      EntryMap.Same m (loadEntryMap c.Envs) ∧ PoolEntryMap.Same pm (loadPoolEntryMap c.Pools) := by
  unfold ScopedConfig.InSync at h
  cases hm : c.entryMap with
  | none => rw [hm] at h; exact h.elim
  | some m =>
    cases hpm : c.poolEntryMap with
    | none => rw [hm, hpm] at h; exact h.elim
    | some pm =>
      rw [hm, hpm] at h
      exact ⟨m, pm, rfl, rfl, h.1, h.2⟩

theorem inSync_loaded {c : ScopedConfig} (h : c.InSync) : c.Loaded := by
  obtain ⟨m, pm, hm, hpm, h1, h2⟩ := inSync_maps h
  exact ⟨m, pm, hm, hpm, keyed_of_same h1 (loadEntryMap_keyed _),
    innerKeyed_of_same h2 (loadPoolEntryMap_innerKeyed _)⟩

theorem innerKeyed_ensure {pm : PoolEntryMap} (h : InnerKeyed pm) (pool : GoString) :
    InnerKeyed (pm.ensure pool) := by
  intro q mp hq
  rw [lookup_ensure] at hq
  by_cases hqp : q = pool
  · simp only [hqp, if_true, Option.some.injEq] at hq
    rw [← hq]
    cases hl : pm.lookup pool with
    | none => exact keyed_empty
    | some m0 => exact h _ _ hl
  · simp only [hqp, if_false] at hq
    exact h _ _ hq

theorem innerKeyed_set {pm : PoolEntryMap} (h : InnerKeyed pm) (pool : GoString) (e : Entry) :
    InnerKeyed (pm.set pool e.Name e) := by
  intro q mp hq
  rw [lookup_set] at hq
  by_cases hqp : q = pool
  · simp only [hqp, if_true, Option.some.injEq] at hq
    rw [← hq]
    apply keyed_insert
    cases hl : pm.lookup pool with
    | none => exact keyed_empty
    | some m0 => exact h _ _ hl
  · simp only [hqp, if_false] at hq
    exact h _ _ hq

theorem innerKeyed_erase {pm : PoolEntryMap} (h : InnerKeyed pm) (pool : GoString) :
    InnerKeyed (pm.erase pool) := by
  intro q mp hq
  by_cases hqp : q = pool
  · subst hqp
    rw [AList.lookup_erase] at hq
    cases hq
  · rw [AList.lookup_erase_ne hqp] at hq
    exact h _ _ hq

theorem isUnset_of_zero {v : Value}
    (hz : v = .nil ∨ v = .string (lit "") ∨ v = .int 0 ∨ v = .bool false) :
    isUnset v = some true := by
  rcases hz with h | h | h | h <;> subst h <;> rfl

theorem lookup_foldl_insert_val_not_mem {α V : Type} (key : α → GoString) (val : α → V)
    (es : List α) (acc : AList (fun _ : GoString => V)) (k : GoString)
    (h : ∀ e ∈ es, key e ≠ k) :
    (es.foldl (fun m e => m.insert (key e) (val e)) acc).lookup k = acc.lookup k := by
  induction es generalizing acc with
  | nil => rfl
  | cons e es ih =>
    rw [List.foldl_cons, ih _ (fun x hx => h x (List.mem_cons_of_mem _ hx))]
    exact AList.lookup_insert_ne (fun hk => h e (List.mem_cons_self _ _) hk.symm)

theorem lookup_erase_some {V : Type} {m : AList (fun _ : GoString => V)} {name k : GoString}
    {e : V} (h : (m.erase name).lookup k = some e) : m.lookup k = some e := by
  by_cases hk : k = name
  · subst hk
    rw [AList.lookup_erase] at h
    cases h
  · rwa [AList.lookup_erase_ne hk] at h

theorem lookup_insert_some {V : Type} {m : AList (fun _ : GoString => V)} {name k : GoString}
    {x e : V} (h : (m.insert name x).lookup k = some e) : m.lookup k = some e ∨ e = x := by
  by_cases hk : k = name
  · subst hk
    rw [AList.lookup_insert] at h
    injection h with h
    exact Or.inr h.symm
  · rw [AList.lookup_insert_ne hk] at h
    exact Or.inl h

/-- What `add` leaves in the maps: entries that were there, or the entry just added,
whose value is not a zero value. -/
theorem add_stored (ord : RangeOrder) (c : ScopedConfig) (pool name : GoString) (v2 : Value)
    (c3 : ScopedConfig) (hadd : c.add ord pool name v2 false = some c3) :
    ∀ p k e, c3.stored p k = some e →
      c.stored p k = some e ∨
        (e = { Name := name, Value := v2, Private := false } ∧ isUnset v2 = some false) := by
  intro p k e hst
  unfold ScopedConfig.add at hadd
  by_cases hpool : pool = []
  · simp only [hpool, if_true] at hadd
    cases hu : isUnset v2 with
    | none => simp [hu] at hadd
    | some b =>
      cases b with
      | true =>
        simp only [hu, Option.some.injEq] at hadd
        subst hadd
        by_cases hp : p = []
        · simp only [ScopedConfig.stored, hp, if_true] at hst ⊢
          cases hm : c.entryMap with
          | none => simp [hm] at hst
          | some m =>
            simp only [hm, Option.map_some', Option.getD_some] at hst ⊢
            exact Or.inl (lookup_erase_some hst)
        · simp only [ScopedConfig.stored, hp, if_false] at hst ⊢
          exact Or.inl hst
      | false =>
        cases hm : c.entryMap with
        | none => simp [hu, hm] at hadd
        | some m =>
          simp only [hu, hm, Option.some.injEq] at hadd
          subst hadd
          by_cases hp : p = []
          · simp only [ScopedConfig.stored, ScopedConfig.updateFromMap, hp, if_true,
              Option.getD_some, hm] at hst ⊢
            rcases lookup_insert_some hst with h | h
            · exact Or.inl h
            · exact Or.inr ⟨h, trivial⟩
          · simp only [ScopedConfig.stored, ScopedConfig.updateFromMap, hp, if_false] at hst ⊢
            exact Or.inl hst
  · simp only [hpool, if_false] at hadd
    cases hpm : c.poolEntryMap with
    | none => simp [hpm] at hadd
    | some pm0 =>
      have hold : ∀ q, q ≠ pool → (pm0.ensure pool).lookup q = pm0.lookup q := by
        intro q hq
        rw [lookup_ensure]
        simp [hq]
      have hself : ((pm0.ensure pool).lookup pool).getD ∅ = (pm0.lookup pool).getD ∅ := by
        rw [lookup_ensure]
        simp
      cases hu : isUnset v2 with
      | none => simp [hpm, hu] at hadd
      | some b =>
        cases b with
        | true =>
          simp only [hpm, hu, Option.some.injEq] at hadd
          subst hadd
          by_cases hp : p = []
          · simp only [ScopedConfig.stored, hp, if_true] at hst ⊢
            exact Or.inl hst
          · simp only [ScopedConfig.stored, hp, if_false, Option.getD_some, hpm] at hst ⊢
            by_cases hq : p = pool
            · subst hq
              rw [AList.lookup_insert, Option.getD_some, hself] at hst
              exact Or.inl (lookup_erase_some hst)
            · rw [AList.lookup_insert_ne hq, hold p hq] at hst
              exact Or.inl hst
        | false =>
          simp only [hpm, hu, Option.some.injEq] at hadd
          subst hadd
          by_cases hp : p = []
          · simp only [ScopedConfig.stored, ScopedConfig.updateFromMap, hp, if_true] at hst ⊢
            exact Or.inl hst
          · simp only [ScopedConfig.stored, ScopedConfig.updateFromMap, hp, if_false,
              Option.getD_some, hpm] at hst ⊢
            by_cases hq : p = pool
            · subst hq
              rw [lookup_set, if_pos rfl, Option.getD_some, hself] at hst
              rcases lookup_insert_some hst with h | h
              · exact Or.inl h
              · exact Or.inr ⟨h, trivial⟩
            · rw [lookup_set, if_neg hq, hold p hq] at hst
              exact Or.inl hst

/-! ## ScopedConfig: a zero value is unset -/

/-- C9: for every loaded config, every name and every value that is nil, `""`, `0` or
`false`: `Add` returns, and afterwards the global entries have no entry for the name,
`PoolEntry("", name)` is `""` and `PoolEntries("")` has no key `name`; `AddPool` returns,
and afterwards the entries of that pool have no entry for the name. With any value,
every entry found in the maps after `Add` or `AddPool` was there before or is the entry
just added, whose value is not a zero value. -/
theorem zero_value_is_unset (ord : RangeOrder) (c : ScopedConfig) (hl : c.Loaded)
    (pool name : GoString) (v : Value)
    (hz : v = .nil ∨ v = .string (lit "") ∨ v = .int 0 ∨ v = .bool false) :
    (∃ c1, c.Add ord name v = some c1 ∧ c1.stored (lit "") name = none ∧
      (c1.PoolEntry (lit "") name).map Prod.fst = some (lit "") ∧
      ∃ r, c1.PoolEntries ord (lit "") = some r ∧ r.1.lookup name = none) ∧
    (∃ c2, c.AddPool ord pool name v = some c2 ∧ c2.stored pool name = none) ∧
    (∀ (v2 : Value) (c3 : ScopedConfig),
      (c.Add ord name v2 = some c3 ∨ c.AddPool ord pool name v2 = some c3) →
      ∀ p k e, c3.stored p k = some e →
        c.stored p k = some e ∨
          (e = { Name := name, Value := v2, Private := false } ∧ isUnset v2 = some false)) := by
  obtain ⟨m, pm, hm, hpm, hk, hpk⟩ := hl
  have hu := isUnset_of_zero hz
  have hempty : (lit "" : GoString) = [] := rfl
  have hglobal : ∃ c1, c.Add ord name v = some c1 ∧ c1.stored (lit "") name = none ∧
      (c1.PoolEntry (lit "") name).map Prod.fst = some (lit "") ∧
      ∃ r, c1.PoolEntries ord (lit "") = some r ∧ r.1.lookup name = none := by
    refine ⟨{ c with entryMap := some (m.erase name) }, ?_, ?_, ?_, ?_⟩
    · simp [ScopedConfig.Add, ScopedConfig.add, hu, hm]
    · simp [ScopedConfig.stored, hempty, AList.lookup_erase]
    · simp [ScopedConfig.PoolEntry, ScopedConfig.entries, hempty, AList.lookup_erase]
    · simp only [ScopedConfig.PoolEntries, ScopedConfig.entries, hempty, if_true,
        Option.getD_some]
      refine ⟨_, rfl, ?_⟩
      have hne : ∀ e ∈ ord.pick (m.erase name).entries, e.2.Name ≠ name := by
        intro e he hname
        have he2 : e ∈ (m.erase name).entries := (ord.perm _).mem_iff.1 he
        have hlk : (m.erase name).lookup e.1 = some e.2 :=
          AList.mem_lookup_iff.2 (by cases e; exact he2)
        have hkey := keyed_erase hk name e.1 e.2 hlk
        rw [hname] at hkey
        rw [← hkey, AList.lookup_erase] at hlk
        cases hlk
      show AList.lookup name (List.foldl _ _ _) = none
      rw [lookup_foldl_insert_val_not_mem
          (fun e : Sigma fun _ : GoString => Entry => e.2.Name) (fun e => e.2) _ _ _ hne,
        lookup_foldl_insert_val_not_mem
          (fun e : Sigma fun _ : GoString => Entry => e.2.Name) (fun e => e.2) _ _ _ hne,
        AList.lookup_empty]
  refine ⟨hglobal, ?_, ?_⟩
  · by_cases hp : pool = []
    · obtain ⟨c1, h1, h2, -⟩ := hglobal
      subst hp
      exact ⟨c1, h1, h2⟩
    · refine ⟨{ c with poolEntryMap := some ((pm.ensure pool).insert pool
          ((((pm.ensure pool).lookup pool).getD ∅).erase name)) }, ?_, ?_⟩
      · simp only [ScopedConfig.AddPool, ScopedConfig.add, hp, if_false, hpm, hu]
      · simp [ScopedConfig.stored, hp, AList.lookup_insert, AList.lookup_erase]
  · intro v2 c3 hadd p k e hst
    rcases hadd with hadd | hadd
    · exact add_stored ord c [] name v2 c3 hadd p k e hst
    · exact add_stored ord c pool name v2 c3 hadd p k e hst

theorem zero_value_is_unset_witness :
    ∃ c2, sampleConfig.AddPool RangeOrder.stored (lit "pool1") (lit "token")
        (.string (lit "")) = some c2 ∧ c2.stored (lit "pool1") (lit "token") = none :=
  (zero_value_is_unset RangeOrder.stored sampleConfig (loadMap_loaded _) (lit "pool1")
    (lit "token") (.string (lit "")) (Or.inr (Or.inl rfl))).2.1

/-! ## ScopedConfig: the lists and the maps -/

/-- C10, as stated, fails. The sample config has its maps in agreement with its lists;
after `FilterPools` with the empty list the pool map still has `pool1`, which `Pools` no
longer lists; and after `Add("image", "")` the global map has lost `image`, which `Envs`
still lists. -/
theorem filterPools_and_zero_add_leave_maps_behind :
    sampleConfig.InSync ∧
    ¬ (sampleConfig.FilterPools (some [])).InSync ∧
    (∃ c1, sampleConfig.Add RangeOrder.stored (lit "image") (.string (lit "")) = some c1 ∧
      ¬ c1.InSync) := by
  refine ⟨loadMap_inSync _, ?_, _, rfl, ?_⟩
  · intro h
    obtain ⟨m, pm, hm, hpm, -, h2⟩ := inSync_maps h
    have hpm2 : pm = loadPoolEntryMap
        [{ Name := lit "pool1",
           Envs := [{ Name := lit "token", Value := .string (lit "abc"), Private := true }] }] := by
      have : (sampleConfig.FilterPools (some [])).poolEntryMap = some (loadPoolEntryMap
        [{ Name := lit "pool1",
           Envs := [{ Name := lit "token", Value := .string (lit "abc"), Private := true }] }]) :=
        rfl
      rw [hpm] at this
      injection this
    have h3 := h2 (lit "pool1")
    rw [hpm2] at h3
    have hsome : ((loadPoolEntryMap
        [{ Name := lit "pool1",
           Envs := [{ Name := lit "token", Value := .string (lit "abc"), Private := true }] }]).lookup
        (lit "pool1")).isSome = true := by decide
    have hnone : (loadPoolEntryMap (sampleConfig.FilterPools (some [])).Pools).lookup
        (lit "pool1") = none := rfl
    rw [hnone] at h3
    revert h3 hsome
    cases (loadPoolEntryMap
        [{ Name := lit "pool1",
           Envs := [{ Name := lit "token", Value := .string (lit "abc"), Private := true }] }]).lookup
        (lit "pool1") with
    | none => intro _ hs; cases hs
    | some x => intro h3 _; exact h3
  · intro h
    obtain ⟨m, pm, hm, hpm, h1, -⟩ := inSync_maps h
    have hm2 : m = (loadEntryMap
        [{ Name := lit "image", Value := .string (lit "tsuru/bs"), Private := false }]).erase
        (lit "image") := by
      have hm3 : some ((loadEntryMap
        [{ Name := lit "image", Value := .string (lit "tsuru/bs"), Private := false }]).erase
        (lit "image")) = some m := hm
      injection hm3 with hm3
      exact hm3.symm
    have h3 := h1 (lit "image")
    rw [hm2, AList.lookup_erase] at h3
    have hsome : ((loadEntryMap
        [{ Name := lit "image", Value := .string (lit "tsuru/bs"), Private := false }]).lookup
        (lit "image")).isSome = true := by decide
    have h4 : (loadEntryMap
        [{ Name := lit "image", Value := .string (lit "tsuru/bs"), Private := false }]).lookup
        (lit "image") = none := h3.symm
    rw [h4] at hsome
    cases hsome

/-- C10, amended: starting from a config whose maps agree with its lists, the maps agree
with the lists again after `Add` and `AddPool` of a value that is not nil and not a zero
value (both return), after `ResetEnvs`, `ResetBaseEnvs` and `ResetPoolEnvs`, and after
`FilterPools(nil)`. `FilterPools` of a non-nil list replaces `Pools` only: `Envs` and both
maps stay as they are, so the global map still holds the entries of `Envs` and the pool
map holds the entries of the `Pools` before the call. -/
theorem mutations_keep_maps_in_sync (ord : RangeOrder) (c : ScopedConfig) (h : c.InSync) :
    (∀ name v, isUnset v = some false → ∃ c1, c.Add ord name v = some c1 ∧ c1.InSync) ∧
    (∀ pool name v, isUnset v = some false →
      ∃ c1, c.AddPool ord pool name v = some c1 ∧ c1.InSync) ∧
    c.ResetEnvs.InSync ∧ c.ResetBaseEnvs.InSync ∧
    (∀ pool, (c.ResetPoolEnvs ord pool).InSync) ∧
    (c.FilterPools none).InSync ∧
    (∀ pools, (c.FilterPools (some pools)).Envs = c.Envs ∧
      ∃ m pm, (c.FilterPools (some pools)).entryMap = some m ∧
        (c.FilterPools (some pools)).poolEntryMap = some pm ∧
        EntryMap.Same m (loadEntryMap (c.FilterPools (some pools)).Envs) ∧
        PoolEntryMap.Same pm (loadPoolEntryMap c.Pools)) := by
  obtain ⟨m, pm, hm, hpm, hk, hpk⟩ := inSync_loaded h
  obtain ⟨m2, pm2, hm2, hpm2, hs1, hs2⟩ := inSync_maps h
  have hadd : ∀ name v, isUnset v = some false →
      ∃ c1, c.Add ord name v = some c1 ∧ c1.InSync := by
    intro name v hv
    refine ⟨_, ?_, updateFromMap_inSync ord
      { c with entryMap := some (m.insert name { Name := name, Value := v, Private := false }) }
      _ pm rfl hpm (keyed_insert hk { Name := name, Value := v, Private := false }) hpk⟩
    simp [ScopedConfig.Add, ScopedConfig.add, hv, hm]
  refine ⟨hadd, ?_, ?_, ?_, ?_, h, ?_⟩
  · intro pool name v hv
    by_cases hp : pool = []
    · subst hp
      exact hadd name v hv
    · refine ⟨_, ?_, updateFromMap_inSync ord
        { c with poolEntryMap := some ((pm.ensure pool).set pool name
            { Name := name, Value := v, Private := false }) }
        m _ hm rfl hk
        (innerKeyed_set (innerKeyed_ensure hpk pool) pool
          { Name := name, Value := v, Private := false })⟩
      simp [ScopedConfig.AddPool, ScopedConfig.add, hv, hpm, hp]
  · exact ⟨same_refl _, poolSame_refl _⟩
  · unfold ScopedConfig.InSync ScopedConfig.ResetBaseEnvs
    simp only [hpm2]
    rw [hpm2] at hpm
    exact ⟨same_refl _, hs2⟩
  · intro pool
    exact updateFromMap_inSync ord { c with poolEntryMap := c.poolEntryMap.map fun pm => pm.erase pool }
      m (pm.erase pool) hm (by simp [hpm]) hk (innerKeyed_erase hpk pool)
  · intro pools
    exact ⟨rfl, m2, pm2, hm2, hpm2, hs1, hs2⟩

theorem mutations_keep_maps_in_sync_witness :
    (sampleConfig.ResetPoolEnvs RangeOrder.stored (lit "pool1")).InSync ∧
    ∃ c1, sampleConfig.AddPool RangeOrder.stored (lit "pool2") (lit "token")
        (.string (lit "xyz")) = some c1 ∧ c1.InSync :=
  ⟨(mutations_keep_maps_in_sync RangeOrder.stored sampleConfig (loadMap_inSync _)).2.2.2.2.1
      (lit "pool1"),
   (mutations_keep_maps_in_sync RangeOrder.stored sampleConfig (loadMap_inSync _)).2.1
      (lit "pool2") (lit "token") (.string (lit "xyz")) rfl⟩

/-! ## ScopedConfig: the queries -/

/-- What `entries` returns on non-nil maps: a map that reads like `stored`, and a config
that differs at most by an empty map added for the pool. -/
theorem entries_spec (c : ScopedConfig) (m : EntryMap) (pm : PoolEntryMap)
    (hm : c.entryMap = some m) (hpm : c.poolEntryMap = some pm) (pool : GoString) :
    ∃ own c1, c.entries pool = some (own, c1) ∧
      (∀ name, own.lookup name = c.stored pool name) ∧
      c1.Scope = c.Scope ∧ c1.Envs = c.Envs ∧ c1.Pools = c.Pools ∧ c1.entryMap = some m ∧
      c1.poolEntryMap =
        some (if pool ≠ [] ∧ pm.lookup pool = none then pm.insert pool ∅ else pm) ∧
      (pool = [] → own = m) ∧
      (pool ≠ [] → own = (pm.lookup pool).getD ∅) := by
  by_cases hp : pool = []
  · refine ⟨m, c, ?_, ?_, rfl, rfl, rfl, hm, ?_, fun _ => rfl, fun h => absurd hp h⟩
    · simp [ScopedConfig.entries, hp, hm]
    · intro name; simp [ScopedConfig.stored, hp, hm]
    · simp [hp, hpm]
  · cases hl : pm.lookup pool with
    | none =>
      refine ⟨∅, { c with poolEntryMap := some (pm.insert pool ∅) }, ?_, ?_, rfl, rfl, rfl, hm,
        ?_, fun h => absurd h hp, fun _ => rfl⟩
      · simp [ScopedConfig.entries, hp, hpm, hl]
      · intro name; simp [ScopedConfig.stored, hp, hpm, hl]
      · simp [hp]
    | some mp =>
      refine ⟨mp, c, ?_, ?_, rfl, rfl, rfl, hm, ?_, fun h => absurd h hp, fun _ => rfl⟩
      · simp [ScopedConfig.entries, hp, hpm, hl]
      · intro name; simp [ScopedConfig.stored, hp, hpm, hl]
      · simp [hpm]

/-- What `PoolEntry` returns on non-nil maps: the string chosen from the entry of the
pool and the global entry, and the config `entries` leaves. -/
theorem poolEntry_spec (c : ScopedConfig) (m : EntryMap) (pm : PoolEntryMap)
    (hm : c.entryMap = some m) (hpm : c.poolEntryMap = some pm) (pool name : GoString) :
    ∃ own c1, c.entries pool = some (own, c1) ∧ c.PoolEntry pool name = some
      ((match c.stored pool name with
        | some entry =>
          if entry.Value ≠ Value.nil then entry.Value.asString
          else ((c.stored (lit "") name).map fun e => e.Value.asString).getD (lit "")
        | none => ((c.stored (lit "") name).map fun e => e.Value.asString).getD (lit "")), c1) := by
  obtain ⟨own, c1, he, hown, -, -, -, hm1, hpm1, -, -⟩ := entries_spec c m pm hm hpm pool
  have hg : c1.entries [] = some (m, c1) := by simp [ScopedConfig.entries, hm1]
  have hst : c.stored (lit "") name = m.lookup name := by
    simp [ScopedConfig.stored, hm, lit]
  refine ⟨own, c1, he, ?_⟩
  unfold ScopedConfig.PoolEntry
  simp only [he, hg, hown, hst]
  cases h1 : c.stored pool name with
  | none =>
    cases h2 : m.lookup name with
    | none => rfl
    | some g =>
      rcases g with ⟨gn, gv, gp⟩
      cases gv <;> rfl
  | some e =>
    rcases e with ⟨en, ev, ep⟩
    cases h2 : m.lookup name with
    | none => cases ev <;> rfl
    | some g =>
      rcases g with ⟨gn, gv, gp⟩
      cases ev <;> cases gv <;> rfl

/-- C12, as stated, fails: in the sample config `pool1` has the entry `region` with the
number 5, which is not a string, and the global entry `region` is the string `global`;
`PoolEntry("pool1", "region")` is the empty string, not the global value. -/
theorem poolEntry_number_hides_global :
    overrideConfig.stored (lit "pool1") (lit "region") =
      some { Name := lit "region", Value := .int 5, Private := false } ∧
    overrideConfig.stored (lit "") (lit "region") =
      some { Name := lit "region", Value := .string (lit "global"), Private := false } ∧
    (overrideConfig.PoolEntry (lit "pool1") (lit "region")).map Prod.fst = some (lit "") := by
  decide

/-- C12, amended: for every loaded config, pool and name, `PoolEntry(pool, name)`
returns: when the pool has an entry for the name whose value is not nil, that value if
it is a string and the empty string if it is not; otherwise the value of the global
entry for the name if there is one and it is a string; otherwise the empty string. So a
key set only globally is visible from every pool, and a key set for the pool with a
value that is not nil hides the global one. -/
theorem poolEntry_override (c : ScopedConfig) (hl : c.Loaded) (pool name : GoString) :
    (∃ c1, c.PoolEntry pool name = some
      ((match c.stored pool name with
        | some entry =>
          if entry.Value ≠ Value.nil then entry.Value.asString
          else ((c.stored (lit "") name).map fun e => e.Value.asString).getD (lit "")
        | none => ((c.stored (lit "") name).map fun e => e.Value.asString).getD (lit "")), c1)) ∧
    (c.stored pool name = none → ∀ g, c.stored (lit "") name = some g →
      (c.PoolEntry pool name).map Prod.fst = some g.Value.asString) ∧
    (∀ entry, c.stored pool name = some entry → entry.Value ≠ Value.nil →
      (c.PoolEntry pool name).map Prod.fst = some entry.Value.asString) := by
  obtain ⟨m, pm, hm, hpm, -, -⟩ := hl
  obtain ⟨own, c1, -, key⟩ := poolEntry_spec c m pm hm hpm pool name
  refine ⟨⟨c1, key⟩, ?_, ?_⟩
  · intro hnone g hgl
    rw [key, hnone, hgl]
    rfl
  · intro entry hsome hne
    rw [key, hsome]
    simp [hne]

theorem poolEntry_override_witness :
    (sampleConfig.PoolEntry (lit "pool1") (lit "image")).map Prod.fst = some (lit "tsuru/bs") :=
  (poolEntry_override sampleConfig (loadMap_loaded _) (lit "pool1") (lit "image")).2.1
    (by decide) { Name := lit "image", Value := .string (lit "tsuru/bs"), Private := false }
    (by decide)

theorem lookup_foldl_insert_val_mem {α V : Type} (key : α → GoString) (val : α → V)
    (es : List α) (acc : AList (fun _ : GoString => V)) (hnd : (es.map key).Nodup) (e : α)
    (he : e ∈ es) :
    (es.foldl (fun m e => m.insert (key e) (val e)) acc).lookup (key e) = some (val e) := by
  induction es generalizing acc with
  | nil => cases he
  | cons x es ih =>
    rw [List.map_cons, List.nodup_cons] at hnd
    rw [List.foldl_cons]
    rcases List.mem_cons.1 he with rfl | hmem
    · rw [lookup_foldl_insert_val_not_mem]
      · exact AList.lookup_insert _
      · intro y hy hxy
        exact hnd.1 (List.mem_map.2 ⟨y, hy, hxy⟩)
    · exact ih _ hnd.2 hmem

/-- One loop of `PoolEntries` over a keyed map `own`, visited in any order: the result
reads like `own` where `own` has an entry, and like the map before elsewhere. -/
theorem lookup_overlay (ord : RangeOrder) (own acc : EntryMap) (hk : own.Keyed)
    (name : GoString) :
    ((ord.pick own.entries).foldl (fun m e => m.insert e.2.Name e.2) acc).lookup name =
      match own.lookup name with
      | some entry => some entry
      | none => acc.lookup name := by
  have hp := ord.perm own.entries
  have hname : ∀ x ∈ ord.pick own.entries, x.2.Name = x.1 := by
    intro x hx
    have hx2 : x ∈ own.entries := hp.mem_iff.1 hx
    exact hk x.1 x.2 (AList.mem_lookup_iff.2 (by cases x; exact hx2))
  have hmap : (ord.pick own.entries).map
      (fun e : Sigma fun _ : GoString => Entry => e.2.Name) =
      (ord.pick own.entries).map Sigma.fst :=
    List.map_congr_left (fun x hx => hname x hx)
  cases hl : own.lookup name with
  | none =>
    have hnot : name ∉ own.keys := AList.lookup_eq_none.1 hl
    apply lookup_foldl_insert_val_not_mem
      (fun e : Sigma fun _ : GoString => Entry => e.2.Name) (fun e => e.2)
    intro e he hek
    apply hnot
    have : name ∈ (ord.pick own.entries).map Sigma.fst := by
      rw [← hmap]
      exact List.mem_map.2 ⟨e, he, hek⟩
    exact (hp.map Sigma.fst).mem_iff.1 this
  | some entry =>
    have hmem : (⟨name, entry⟩ : Sigma fun _ : GoString => Entry) ∈ ord.pick own.entries :=
      hp.mem_iff.2 (AList.mem_lookup_iff.1 hl)
    have hnd : ((ord.pick own.entries).map
        (fun e : Sigma fun _ : GoString => Entry => e.2.Name)).Nodup := by
      rw [hmap]
      exact (hp.map Sigma.fst).nodup_iff.2 own.keys_nodup
    have h := lookup_foldl_insert_val_mem
      (fun e : Sigma fun _ : GoString => Entry => e.2.Name) (fun e => e.2) _ acc hnd _ hmem
    have hek : entry.Name = name := hk name entry hl
    have h2 : AList.lookup entry.Name
        (List.foldl (fun m e => AList.insert e.snd.Name e.snd m) acc (ord.pick own.entries)) =
        some entry := h
    rw [hek] at h2
    exact h2

/-- What `PoolEntries` returns on a loaded config: the entry of the pool for a name if
the pool has one, the global entry otherwise. -/
theorem poolEntries_lookup (ord : RangeOrder) (c : ScopedConfig) (hl : c.Loaded)
    (pool name : GoString) :
    ∃ r, c.PoolEntries ord pool = some r ∧
      r.1.lookup name =
        match c.stored pool name with
        | some entry => some entry
        | none => c.stored (lit "") name := by
  obtain ⟨m, pm, hm, hpm, hk, hpk⟩ := hl
  obtain ⟨own, c1, he, hown, -, -, -, -, -, h0, h1⟩ := entries_spec c m pm hm hpm pool
  have hg : c.entries [] = some (m, c) := by simp [ScopedConfig.entries, hm]
  have he1 : c.entries pool = some (own, c1) := he
  have hst : c.stored (lit "") name = m.lookup name := by
    simp [ScopedConfig.stored, hm, lit]
  have hownk : own.Keyed := by
    by_cases hp : pool = []
    · rw [h0 hp]; exact hk
    · rw [h1 hp]
      cases hlp : pm.lookup pool with
      | none => exact keyed_empty
      | some mp => exact hpk _ _ hlp
  refine ⟨((ord.pick own.entries).foldl (fun m e => m.insert e.2.Name e.2)
      ((ord.pick m.entries).foldl (fun m e => m.insert e.2.Name e.2) ∅), c1), ?_, ?_⟩
  · unfold ScopedConfig.PoolEntries
    simp only [hg, he1]
  · show AList.lookup name (List.foldl _ _ _) = _
    rw [lookup_overlay ord own _ hownk, hown, hst]
    cases c.stored pool name with
    | some entry => rfl
    | none =>
      show AList.lookup name (List.foldl _ _ _) = _
      rw [lookup_overlay ord m ∅ hk, AList.lookup_empty]
      cases m.lookup name <;> rfl

/-- C13, as stated, fails: in the sample config `pool2` has the entry `region` with a
nil value and the global entry `region` is the string `global`. `PoolEntries("pool2")`
has the entry of the pool under `region`, whose value is not a string, yet
`PoolEntry("pool2", "region")` is `global`, not the empty string. -/
theorem poolEntry_skips_nil_poolEntries_keeps_it :
    ((overrideConfig.PoolEntries RangeOrder.stored (lit "pool2")).map
        fun r => r.1.lookup (lit "region")) =
      some (some { Name := lit "region", Value := .nil, Private := false }) ∧
    (overrideConfig.PoolEntry (lit "pool2") (lit "region")).map Prod.fst =
      some (lit "global") := by
  decide

/-- C13, amended: for every loaded config (as `loadMap` builds from any lists), pool and
name, if the entry of the pool itself for the name, when there is one, has a value that
is not nil, then `PoolEntry(pool, name)` is the value of `PoolEntries(pool)[name]` when
that entry exists and its value is a string, and the empty string when the entry is
absent or its value is not a string. If the entry of the pool has a nil value,
`PoolEntries(pool)[name]` is that entry while `PoolEntry` answers from the global entry. -/
theorem poolEntry_agrees_with_poolEntries (ord : RangeOrder) (c : ScopedConfig)
    (hl : c.Loaded) (pool name : GoString) :
    ∃ r s, c.PoolEntries ord pool = some r ∧ (c.PoolEntry pool name).map Prod.fst = some s ∧
      ((∀ entry, c.stored pool name = some entry → entry.Value ≠ Value.nil) →
        s = ((r.1.lookup name).map fun e => e.Value.asString).getD (lit "")) ∧
      (∀ entry, c.stored pool name = some entry → entry.Value = Value.nil →
        r.1.lookup name = some entry ∧
        s = ((c.stored (lit "") name).map fun e => e.Value.asString).getD (lit "")) := by
  obtain ⟨r, hr, hlook⟩ := poolEntries_lookup ord c hl pool name
  obtain ⟨m, pm, hm, hpm, -, -⟩ := hl
  obtain ⟨own, c1, -, hpe⟩ := poolEntry_spec c m pm hm hpm pool name
  refine ⟨r, _, hr, by rw [hpe]; rfl, ?_, ?_⟩
  · intro hnn
    rw [hlook]
    cases hs : c.stored pool name with
    | none => rfl
    | some entry => simp [hnn entry hs]
  · intro entry hs hnil
    rw [hlook, hs]
    simp [hnil]

theorem poolEntry_agrees_with_poolEntries_witness :
    ∃ r s, sampleConfig.PoolEntries RangeOrder.stored (lit "pool1") = some r ∧
      (sampleConfig.PoolEntry (lit "pool1") (lit "token")).map Prod.fst = some s ∧
      s = ((r.1.lookup (lit "token")).map fun e => e.Value.asString).getD (lit "") := by
  obtain ⟨r, s, h1, h2, h3, -⟩ := poolEntry_agrees_with_poolEntries RangeOrder.stored
    sampleConfig (loadMap_loaded _) (lit "pool1") (lit "token")
  refine ⟨r, s, h1, h2, h3 ?_⟩
  intro entry he
  have h : sampleConfig.stored (lit "pool1") (lit "token") =
      some { Name := lit "token", Value := .string (lit "abc"), Private := true } := by decide
  rw [h] at he
  injection he with he
  rw [← he]
  decide

/-! ## ScopedConfig: what a query leaves behind -/

/-- C14, as stated, fails: a query for `pool9`, which the sample config does not have,
changes the pool map, and the `updateFromMap` that follows lists `pool9` in `Pools`;
without the query it lists `pool1` alone. -/
theorem query_adds_the_pool :
    sampleConfig.poolEntryMap.map (fun pm => pm.keys) = some [lit "pool1"] ∧
    ((sampleConfig.PoolEntry (lit "pool9") (lit "token")).map fun r =>
        (r.2.poolEntryMap.map (fun pm => pm.keys),
          (r.2.updateFromMap RangeOrder.stored).Pools.map PoolEntry.Name)) =
      some (some [lit "pool9", lit "pool1"], [lit "pool9", lit "pool1"]) ∧
    ((sampleConfig.PoolEntries RangeOrder.stored (lit "pool9")).map fun r =>
        (r.2.updateFromMap RangeOrder.stored).Pools.map PoolEntry.Name) =
      some [lit "pool9", lit "pool1"] ∧
    (sampleConfig.updateFromMap RangeOrder.stored).Pools.map PoolEntry.Name = [lit "pool1"] := by
  decide

theorem poolEntries_config (ord : RangeOrder) (c : ScopedConfig) (m : EntryMap)
    (hm : c.entryMap = some m) (pool : GoString) (own : EntryMap) (c1 : ScopedConfig)
    (he : c.entries pool = some (own, c1)) :
    ∃ r, c.PoolEntries ord pool = some (r, c1) := by
  have hg : c.entries [] = some (m, c) := by simp [ScopedConfig.entries, hm]
  unfold ScopedConfig.PoolEntries
  simp only [hg, he]
  exact ⟨_, rfl⟩

/-- C14, amended: on a loaded config, `PoolEntry(pool, name)` and `PoolEntries(pool)`
return and leave `Envs`, `Pools` and `entryMap` unchanged, so the `Envs` a following
`updateFromMap` produces are the same. They leave `poolEntryMap` unchanged when `pool` is
empty or the pool has a map; for another pool they add an empty map for it to
`poolEntryMap`, and a following `updateFromMap` then lists that pool, with no entries, in
`Pools`, where it would not be listed without the query. -/
theorem queries_change_only_the_pool_map (ord : RangeOrder) (c : ScopedConfig) (hl : c.Loaded)
    (pool name : GoString) :
    ∃ s r c1, c.PoolEntry pool name = some (s, c1) ∧ c.PoolEntries ord pool = some (r, c1) ∧
      c1.Envs = c.Envs ∧ c1.Pools = c.Pools ∧ c1.entryMap = c.entryMap ∧
      (c1.updateFromMap ord).Envs = (c.updateFromMap ord).Envs ∧
      ((pool = lit "" ∨ ∃ mp, (c.poolEntryMap.getD ∅).lookup pool = some mp) →
        c1.poolEntryMap = c.poolEntryMap) ∧
      (pool ≠ lit "" → (c.poolEntryMap.getD ∅).lookup pool = none →
        c1.poolEntryMap = some ((c.poolEntryMap.getD ∅).insert pool ∅) ∧
        ({ Name := pool, Envs := [] } : PoolEntry) ∈ (c1.updateFromMap ord).Pools ∧
        ∀ pe ∈ (c.updateFromMap ord).Pools, pe.Name ≠ pool) := by
  obtain ⟨m, pm, hm, hpm, -, -⟩ := hl
  obtain ⟨own, c1, he, hpe⟩ := poolEntry_spec c m pm hm hpm pool name
  obtain ⟨own2, c2, he2, -, -, henvs, hpools, hm1, hpm1, -, -⟩ :=
    entries_spec c m pm hm hpm pool
  rw [he] at he2
  injection he2 with he2
  injection he2 with _ hc
  subst hc
  obtain ⟨r, hr⟩ := poolEntries_config ord c m hm pool own c1 he
  have hempty : (lit "" : GoString) = [] := rfl
  refine ⟨_, r, c1, hpe, hr, henvs, hpools, by rw [hm1, hm], ?_, ?_, ?_⟩
  · simp [ScopedConfig.updateFromMap, hm1, hm]
  · rintro (hp | ⟨mp, hmp⟩)
    · rw [hpm1, hpm]
      simp [hp, hempty]
    · rw [hpm, Option.getD_some] at hmp
      rw [hpm1, hpm]
      simp [hmp]
  · intro hp hnone
    rw [hpm, Option.getD_some] at hnone ⊢
    have hp2 : pool ≠ [] := hp
    have hpm2 : c1.poolEntryMap = some (pm.insert pool ∅) := by
      rw [hpm1]; simp [hp2, hnone]
    refine ⟨hpm2, ?_, ?_⟩
    · simp only [ScopedConfig.updateFromMap, hpm2, rangeOver, List.map_map, List.mem_map,
        Function.comp_apply]
      refine ⟨⟨pool, ∅⟩, ?_, ?_⟩
      · apply (ord.perm _).mem_iff.2
        exact AList.mem_lookup_iff.1 (AList.lookup_insert _)
      · have hnil : ord.pick ([] : List (Sigma fun _ : GoString => Entry)) = [] :=
          List.Perm.eq_nil (ord.perm _)
        simp [hnil]
    · intro pe hpe2 hname
      simp only [ScopedConfig.updateFromMap, hpm, rangeOver, List.map_map, List.mem_map,
        Function.comp_apply] at hpe2
      obtain ⟨x, hx, rfl⟩ := hpe2
      have hx2 : x ∈ pm.entries := (ord.perm _).mem_iff.1 hx
      have hlk : pm.lookup x.1 = some x.2 := AList.mem_lookup_iff.2 (by cases x; exact hx2)
      have hname2 : x.1 = pool := hname
      rw [hname2, hnone] at hlk
      cases hlk

theorem queries_change_only_the_pool_map_witness :
    ∃ s r c1, sampleConfig.PoolEntry (lit "pool1") (lit "token") = some (s, c1) ∧
      sampleConfig.PoolEntries RangeOrder.stored (lit "pool1") = some (r, c1) ∧
      c1.poolEntryMap = sampleConfig.poolEntryMap := by
  obtain ⟨s, r, c1, h1, h2, -, -, -, -, h3, -⟩ := queries_change_only_the_pool_map
    RangeOrder.stored sampleConfig (loadMap_loaded _) (lit "pool1") (lit "token")
  refine ⟨s, r, c1, h1, h2, h3 (Or.inr ?_)⟩
  have hk : ((sampleConfig.poolEntryMap.getD ∅).lookup (lit "pool1")).isSome = true := by decide
  cases hl : (sampleConfig.poolEntryMap.getD ∅).lookup (lit "pool1") with
  | none => rw [hl] at hk; cases hk
  | some mp => exact ⟨mp, rfl⟩

/-! ## ScopedConfig: updateFromMap, then loadMap -/

theorem values_names_nodup (ord : RangeOrder) (m : EntryMap) (hk : m.Keyed) :
    (((rangeOver ord (some m)).map Prod.snd).map Entry.Name).Nodup := by
  have hp := ord.perm m.entries
  have hname : ∀ x ∈ ord.pick m.entries, x.2.Name = x.1 := by
    intro x hx
    have hx2 : x ∈ m.entries := hp.mem_iff.1 hx
    exact hk x.1 x.2 (AList.mem_lookup_iff.2 (by cases x; exact hx2))
  have hmap : ((rangeOver ord (some m)).map Prod.snd).map Entry.Name =
      (ord.pick m.entries).map Sigma.fst := by
    simp only [rangeOver, List.map_map]
    exact List.map_congr_left (fun x hx => hname x hx)
  rw [hmap]
  exact (hp.map Sigma.fst).nodup_iff.2 m.keys_nodup

theorem pools_names_nodup (ord : RangeOrder) (c : ScopedConfig) (pm : PoolEntryMap)
    (hpm : c.poolEntryMap = some pm) :
    ((c.updateFromMap ord).Pools.map PoolEntry.Name).Nodup := by
  have hmap : (c.updateFromMap ord).Pools.map PoolEntry.Name =
      (ord.pick pm.entries).map Sigma.fst := by
    simp [ScopedConfig.updateFromMap, hpm, rangeOver, List.map_map, Function.comp_def]
  rw [hmap]
  exact ((ord.perm _).map Sigma.fst).nodup_iff.2 pm.keys_nodup

/-- C15: for non-nil maps in which every entry is stored under its own `Name`,
`updateFromMap` followed by `loadMap` gives back maps that hold the same entries: the
same global entries, the same pools (those with an empty map included) and the same
entries in every pool. In the lists `updateFromMap` produces every name occurs at most
once: in `Envs`, among the pools, and in the `Envs` of every pool. -/
theorem updateFromMap_then_loadMap (ord : RangeOrder) (c : ScopedConfig) (m : EntryMap)
    (pm : PoolEntryMap) (hm : c.entryMap = some m) (hpm : c.poolEntryMap = some pm)
    (hk : m.Keyed) (hpk : InnerKeyed pm) :
    (∃ m1 pm1, (c.updateFromMap ord).loadMap.entryMap = some m1 ∧
      (c.updateFromMap ord).loadMap.poolEntryMap = some pm1 ∧
      EntryMap.Same m1 m ∧ PoolEntryMap.Same pm1 pm ∧
      ∀ pool, (pm1.lookup pool).isSome = (pm.lookup pool).isSome) ∧
    ((c.updateFromMap ord).Envs.map Entry.Name).Nodup ∧
    ((c.updateFromMap ord).Pools.map PoolEntry.Name).Nodup ∧
    ∀ pe ∈ (c.updateFromMap ord).Pools, (pe.Envs.map Entry.Name).Nodup := by
  have hsync := updateFromMap_inSync ord c m pm hm hpm hk hpk
  obtain ⟨m2, pm2, hm2, hpm2, hs1, hs2⟩ := inSync_maps hsync
  have hm3 : m2 = m := by
    have : (c.updateFromMap ord).entryMap = some m := hm
    rw [hm2] at this
    injection this
  have hpm3 : pm2 = pm := by
    have : (c.updateFromMap ord).poolEntryMap = some pm := hpm
    rw [hpm2] at this
    injection this
  subst hm3 hpm3
  have hps : PoolEntryMap.Same (loadPoolEntryMap (c.updateFromMap ord).Pools) pm2 := by
    intro pool
    have h := hs2 pool
    revert h
    cases pm2.lookup pool <;> cases (loadPoolEntryMap (c.updateFromMap ord).Pools).lookup pool
    · intro h; exact h
    · intro h; exact h
    · intro h; exact h
    · intro h; exact same_symm h
  refine ⟨⟨_, _, rfl, rfl, same_symm hs1, hps, ?_⟩, ?_, pools_names_nodup ord c pm2 hpm, ?_⟩
  · intro pool
    have h := hps pool
    revert h
    cases pm2.lookup pool <;> cases (loadPoolEntryMap (c.updateFromMap ord).Pools).lookup pool
    · intro _; rfl
    · intro h; exact h.elim
    · intro h; exact h.elim
    · intro _; rfl
  · have := values_names_nodup ord m2 hk
    simpa [ScopedConfig.updateFromMap, hm] using this
  · intro pe hpe
    simp only [ScopedConfig.updateFromMap, hpm, List.mem_map] at hpe
    obtain ⟨kv, hkv, rfl⟩ := hpe
    apply values_names_nodup
    simp only [rangeOver, List.mem_map] at hkv
    obtain ⟨x, hx, rfl⟩ := hkv
    have hx2 : x ∈ pm2.entries := (ord.perm _).mem_iff.1 hx
    exact hpk x.1 x.2 (AList.mem_lookup_iff.2 (by cases x; exact hx2))

theorem updateFromMap_then_loadMap_witness :
    ((sampleConfig.updateFromMap RangeOrder.stored).Pools.map PoolEntry.Name).Nodup :=
  (updateFromMap_then_loadMap RangeOrder.stored sampleConfig _ _ rfl rfl
    (loadEntryMap_keyed _) (loadPoolEntryMap_innerKeyed _)).2.2.1

/-! ## ScopedConfig: FilterPools -/

theorem appendFirstNamed_eq (pool : GoString) (acc l : List PoolEntry) :
    appendFirstNamed pool acc l =
      acc ++ (l.find? fun poolEntry => decide (poolEntry.Name = pool)).toList := by
  induction l with
  | nil => simp [appendFirstNamed]
  | cons pe rest ih =>
    by_cases h : pe.Name = pool
    · simp [appendFirstNamed, h]
    · simp [appendFirstNamed, h, ih]

theorem foldl_appendFirstNamed (old : List PoolEntry) (pools : List GoString)
    (acc : List PoolEntry) :
    pools.foldl (fun poolEntries pool => appendFirstNamed pool poolEntries old) acc =
      acc ++ pools.filterMap fun pool => old.find? fun poolEntry =>
        decide (poolEntry.Name = pool) := by
  induction pools generalizing acc with
  | nil => simp
  | cons pool pools ih =>
    rw [List.foldl_cons, ih, appendFirstNamed_eq]
    cases h : old.find? fun poolEntry => decide (poolEntry.Name = pool) with
    | none => simp [List.filterMap_cons, h]
    | some pe => simp [List.filterMap_cons, h]

/-- C16: `FilterPools(nil)` changes nothing. For a non-nil list `pools`, afterwards
`Pools` holds, in the order of `pools`, the first entry of the old `Pools` with that name
for each element of `pools` that names a pool; every entry left has a name in `pools`
and is an entry of the old `Pools`, `Envs` included; and the global `Envs` are
unchanged. -/
theorem filterPools_keeps_first_named (c : ScopedConfig) :
    c.FilterPools none = c ∧
    ∀ pools : List GoString,
      (c.FilterPools (some pools)).Pools =
        (pools.filterMap fun pool => c.Pools.find? fun poolEntry =>
          decide (poolEntry.Name = pool)) ∧
      (∀ pe ∈ (c.FilterPools (some pools)).Pools, pe.Name ∈ pools ∧ pe ∈ c.Pools) ∧
      (c.FilterPools (some pools)).Envs = c.Envs := by
  refine ⟨rfl, fun pools => ?_⟩
  have h : (c.FilterPools (some pools)).Pools =
      (pools.filterMap fun pool => c.Pools.find? fun poolEntry =>
        decide (poolEntry.Name = pool)) := by
    simp only [ScopedConfig.FilterPools]
    rw [foldl_appendFirstNamed]
    rfl
  refine ⟨h, ?_, rfl⟩
  intro pe hpe
  rw [h, List.mem_filterMap] at hpe
  obtain ⟨pool, hpool, hfind⟩ := hpe
  have hname := List.find?_some hfind
  simp only [decide_eq_true_eq] at hname
  exact ⟨hname ▸ hpool, List.mem_of_find?_eq_some hfind⟩

theorem filterPools_keeps_first_named_witness :
    { Name := lit "pool1",
      Envs := [{ Name := lit "token", Value := .string (lit "abc"), Private := true }] } ∈
      sampleConfig.Pools :=
  (((filterPools_keeps_first_named sampleConfig).2 [lit "pool7", lit "pool1"]).2.1
    { Name := lit "pool1",
      Envs := [{ Name := lit "token", Value := .string (lit "abc"), Private := true }] }
    (by decide)).2

/-! ## registerVars: the route variables in the query -/

theorem index_assign (v : Values) (k name : GoString) (vs : List GoString) :
    Values.index (Values.assign v k vs) name = if name = k then vs else Values.index v name := by
  induction v with
  | nil =>
    by_cases h : name = k
    · simp [Values.assign, Values.index, h]
    · have h2 : ¬ k = name := fun e => h e.symm
      simp [Values.assign, Values.index, h, h2]
  | cons kv rest ih =>
    obtain ⟨k0, old⟩ := kv
    by_cases hk : k0 = k
    · by_cases h : name = k
      · simp [Values.assign, Values.index, hk, h]
      · have h2 : ¬ k = name := fun e => h e.symm
        simp [Values.assign, Values.index, hk, h, h2]
    · by_cases h : name = k
      · subst h
        have h3 : ¬ k0 = name := hk
        simpa [Values.assign, Values.index, hk, h3] using ih
      · by_cases h4 : k0 = name
        · subst h4
          simp [Values.assign, Values.index, hk]
        · simp [Values.assign, Values.index, hk, h4, ih, h]

theorem index_Add (v : Values) (k x name : GoString) :
    Values.index (Values.Add v k x) name =
      Values.index v name ++ (if name = k then [x] else []) := by
  unfold Values.Add
  rw [index_assign]
  by_cases h : name = k
  · simp [h]
  · simp [h]

theorem index_not_mem (v : Values) (name : GoString) (h : name ∉ v.map Prod.fst) :
    Values.index v name = [] := by
  induction v with
  | nil => rfl
  | cons kv rest ih =>
    obtain ⟨k0, old⟩ := kv
    simp only [List.map_cons, List.mem_cons, not_or] at h
    have h2 : ¬ k0 = name := fun e => h.1 e.symm
    simp [Values.index, h2, ih h.2]

theorem keys_assign (v : Values) (k : GoString) (vs : List GoString) :
    (Values.assign v k vs).map Prod.fst =
      if k ∈ v.map Prod.fst then v.map Prod.fst else v.map Prod.fst ++ [k] := by
  induction v with
  | nil => simp [Values.assign]
  | cons kv rest ih =>
    obtain ⟨k0, old⟩ := kv
    by_cases hk : k0 = k
    · simp [Values.assign, hk]
    · have hk2 : ¬ k = k0 := fun e => hk e.symm
      by_cases hm : k ∈ rest.map Prod.fst
      · simp only [Values.assign, hk, if_false, List.map_cons, ih, hm, if_true, List.mem_cons,
          hk2, false_or]
      · simp only [Values.assign, hk, if_false, List.map_cons, ih, hm, List.mem_cons,
          hk2, false_or, List.cons_append]

theorem keys_assign_nodup (v : Values) (k : GoString) (vs : List GoString)
    (h : (v.map Prod.fst).Nodup) : ((Values.assign v k vs).map Prod.fst).Nodup := by
  rw [keys_assign]
  by_cases hm : k ∈ v.map Prod.fst
  · simp only [hm, if_true]; exact h
  · simp only [hm, if_false]
    rw [List.nodup_append]
    refine ⟨h, List.nodup_singleton k, ?_⟩
    intro a ha hb
    rw [List.mem_singleton] at hb
    exact hm (hb ▸ ha)

/-- What `parseQuery` has for a name after a run of pairs is added. -/
theorem index_foldl_Add (ps : List (GoString × GoString)) (acc : Values) (name : GoString) :
    Values.index (ps.foldl (fun m kv => Values.Add m kv.1 kv.2) acc) name =
      Values.index acc name ++ (ps.filter fun kv => decide (kv.1 = name)).map Prod.snd := by
  induction ps generalizing acc with
  | nil => simp
  | cons kv rest ih =>
    rw [List.foldl_cons, ih, index_Add]
    by_cases h : kv.1 = name
    · simp [h, List.filter_cons]
    · have h2 : ¬ name = kv.1 := fun e => h e.symm
      simp [h, h2, List.filter_cons]

theorem pairs_filter (v : Values) (ks : List GoString) (hnd : ks.Nodup) (name : GoString) :
    ((ks.flatMap fun k => (Values.index v k).map fun x => (k, x)).filter
        fun kv => decide (kv.1 = name)).map Prod.snd =
      if name ∈ ks then Values.index v name else [] := by
  induction ks with
  | nil => simp
  | cons k ks ih =>
    rw [List.nodup_cons] at hnd
    rw [List.flatMap_cons, List.filter_append, List.map_append, ih hnd.2]
    by_cases h : k = name
    · subst h
      have h1 : ((Values.index v k).map fun x => (k, x)).filter (fun kv => decide (kv.1 = k)) =
          (Values.index v k).map fun x => (k, x) := by
        apply List.filter_eq_self.2
        intro a ha
        obtain ⟨x, -, rfl⟩ := List.mem_map.1 ha
        simp
      rw [h1]
      simp [hnd.1, List.map_map, Function.comp_def]
    · have h1 : ((Values.index v k).map fun x => (k, x)).filter
          (fun kv => decide (kv.1 = name)) = [] := by
        apply List.filter_eq_nil_iff.2
        intro a ha
        obtain ⟨x, -, rfl⟩ := List.mem_map.1 ha
        simp [h]
      have h2 : ¬ name = k := fun e => h e.symm
      rw [h1]
      simp [h2]

/-- Decoding what `Values.Encode` wrote gives every key its values back. -/
theorem index_ParseQuery_Encode (v : Values) (hnd : (v.map Prod.fst).Nodup)
    (name : GoString) :
    Values.index (ParseQuery (Values.Encode v)).1 name = Values.index v name := by
  rw [ParseQuery_Encode]
  show Values.index (List.foldl _ _ _) name = _
  rw [index_foldl_Add]
  have hperm : (sortStrings (v.map Prod.fst)).Perm (v.map Prod.fst) :=
    List.perm_insertionSort _ _
  have hnd2 : (sortStrings (v.map Prod.fst)).Nodup := hperm.nodup_iff.2 hnd
  unfold Values.pairs
  rw [pairs_filter v _ hnd2 name]
  by_cases hm : name ∈ v.map Prod.fst
  · simp [hperm.mem_iff.2 hm, Values.index]
  · have hm2 : name ∉ sortStrings (v.map Prod.fst) := fun h => hm (hperm.mem_iff.1 h)
    simp [hm2, index_not_mem v name hm, Values.index]

theorem querySegments_append_sep (a b : GoString) :
    querySegments (a ++ 38 :: b) = querySegments a ++ querySegments b := by
  induction a with
  | nil => simp [querySegments]
  | cons c a ih =>
    rw [List.cons_append, querySegments, querySegments, ih]
    by_cases hc : c = 38 ∨ c = 59
    · simp [hc]
    · simp only [hc, if_false]
      cases hq : querySegments a with
      | nil => exact absurd hq (querySegments_ne_nil a)
      | cons seg segs => simp

theorem index_parseQueryStep (acc : Values × Option GoError) (key name : GoString) :
    Values.index (parseQueryStep acc key).1 name =
      Values.index acc.1 name ++ Values.index (parseQueryStep ([], none) key).1 name := by
  unfold parseQueryStep
  by_cases hk : key = []
  · simp [hk, Values.index]
  · simp only [hk, if_false]
    cases QueryUnescape (splitKeyValue key).1 with
    | error e => simp [Values.index]
    | ok k1 =>
      cases QueryUnescape (splitKeyValue key).2 with
      | error e => simp [Values.index]
      | ok v1 =>
        simp only [index_Add]
        simp [Values.index]

theorem index_foldl_parseQueryStep (segs : List GoString) (acc : Values × Option GoError)
    (name : GoString) :
    Values.index (segs.foldl parseQueryStep acc).1 name =
      Values.index acc.1 name ++
        Values.index (segs.foldl parseQueryStep ([], none)).1 name := by
  induction segs generalizing acc with
  | nil => simp [Values.index]
  | cons s rest ih =>
    rw [List.foldl_cons, List.foldl_cons, ih, ih (parseQueryStep ([], none) s),
      index_parseQueryStep, List.append_assoc]

/-- The query after `registerVars`, read at a name: the route values first, then what
the client sent. -/
theorem index_Query_registerVars (ord : RangeOrder) (q : GoString)
    (vars : AList (fun _ : GoString => GoString))
    (hnd : ((routeValues ord vars).map Prod.fst).Nodup) (name : GoString) :
    Values.index (Query (registerVars ord q vars)) name =
      Values.index (routeValues ord vars) name ++ Values.index (Query q) name := by
  have hamp : lit "&" = [38] := by decide
  unfold Query registerVars ParseQuery
  rw [hamp, List.append_assoc, List.singleton_append, querySegments_append_sep,
    List.foldl_append, index_foldl_parseQueryStep]
  have h := index_ParseQuery_Encode (routeValues ord vars) hnd name
  unfold ParseQuery at h
  rw [h]

theorem routeValues_keys_nodup (l : List (Sigma fun _ : GoString => GoString)) (acc : Values)
    (h : (acc.map Prod.fst).Nodup) :
    ((l.foldl (fun values kv => Values.assign values (lit ":" ++ kv.1) [kv.2]) acc).map
      Prod.fst).Nodup := by
  induction l generalizing acc with
  | nil => exact h
  | cons kv rest ih =>
    rw [List.foldl_cons]
    exact ih _ (keys_assign_nodup acc _ _ h)

theorem routeValues_index_other (l : List (Sigma fun _ : GoString => GoString)) (acc : Values)
    (name : GoString) (h : ∀ kv ∈ l, name ≠ lit ":" ++ kv.1) :
    Values.index
        (l.foldl (fun values kv => Values.assign values (lit ":" ++ kv.1) [kv.2]) acc) name =
      Values.index acc name := by
  induction l generalizing acc with
  | nil => rfl
  | cons kv rest ih =>
    rw [List.foldl_cons, ih _ (fun kv1 h1 => h kv1 (List.mem_cons_of_mem _ h1)), index_assign,
      if_neg (h kv (List.mem_cons_self _ _))]

theorem routeValues_index_key (l : List (Sigma fun _ : GoString => GoString)) (acc : Values)
    (hnd : l.NodupKeys) (k v : GoString) (hm : (⟨k, v⟩ : Sigma fun _ : GoString => GoString) ∈ l) :
    Values.index
        (l.foldl (fun values kv => Values.assign values (lit ":" ++ kv.1) [kv.2]) acc)
        (lit ":" ++ k) = [v] := by
  induction l generalizing acc with
  | nil => simp at hm
  | cons kv rest ih =>
    rw [List.nodupKeys_cons] at hnd
    rw [List.foldl_cons]
    rcases List.mem_cons.1 hm with h | h
    · subst h
      rw [routeValues_index_other, index_assign, if_pos rfl]
      intro kv1 h1 e
      have e2 : k = kv1.1 := List.append_cancel_left e
      apply hnd.1
      show k ∈ rest.keys
      rw [e2]
      exact List.mem_keys_of_mem h1
    · exact ih _ hnd.2 h

/-- C17: for every query string `q` the client sent and every map `vars` of route
variables, in whatever order the map is ranged over, the query parsed after
`registerVars` has `vars[k]` as the first value of `":"+k` for every key `k` of `vars`,
ahead of the values `q` carried under that name, and every parameter whose name is not
`":"+k` for a key of `vars` has the values `q` gave it, in the same order. -/
theorem registerVars_route_vars_first (ord : RangeOrder) (q : GoString)
    (vars : AList (fun _ : GoString => GoString)) :
    (∀ k v, vars.lookup k = some v →
      Values.Get (Query (registerVars ord q vars)) (lit ":" ++ k) = v ∧
      Values.index (Query (registerVars ord q vars)) (lit ":" ++ k) =
        v :: Values.index (Query q) (lit ":" ++ k)) ∧
    (∀ name, (∀ k, k ∈ vars → name ≠ lit ":" ++ k) →
      Values.index (Query (registerVars ord q vars)) name = Values.index (Query q) name) := by
  have hnd : ((routeValues ord vars).map Prod.fst).Nodup :=
    routeValues_keys_nodup _ [] List.nodup_nil
  have hperm : (ord.pick vars.entries).Perm vars.entries := ord.perm _
  have hkeys : (ord.pick vars.entries).NodupKeys :=
    (List.perm_nodupKeys hperm).2 vars.nodupKeys
  constructor
  · intro k v hk
    have hm : (⟨k, v⟩ : Sigma fun _ : GoString => GoString) ∈ ord.pick vars.entries :=
      hperm.mem_iff.2 (AList.mem_lookup_iff.1 hk)
    have hidx : Values.index (Query (registerVars ord q vars)) (lit ":" ++ k) =
        v :: Values.index (Query q) (lit ":" ++ k) := by
      rw [index_Query_registerVars ord q vars hnd]
      unfold routeValues
      rw [routeValues_index_key _ [] hkeys k v hm]
      rfl
    refine ⟨?_, hidx⟩
    unfold Values.Get
    rw [hidx]
    rfl
  · intro name hname
    rw [index_Query_registerVars ord q vars hnd]
    unfold routeValues
    rw [routeValues_index_other _ [] name]
    · rfl
    · intro kv hkv
      apply hname
      rw [AList.mem_keys]
      exact List.mem_keys_of_mem (hperm.mem_iff.1 hkv)

theorem registerVars_route_vars_first_witness :
    Values.Get (Query (registerVars RangeOrder.stored (lit ":planname=big&x=1") sampleVars))
        (lit ":planname") = lit "small" ∧
      Values.index (Query (registerVars RangeOrder.stored (lit ":planname=big&x=1") sampleVars))
        (lit "x") = [lit "1"] := by
  have h := registerVars_route_vars_first RangeOrder.stored (lit ":planname=big&x=1") sampleVars
  refine ⟨(h.1 (lit "planname") (lit "small") (by decide)).1, ?_⟩
  rw [h.2 (lit "x")]
  · decide
  · intro k hk
    have hk2 : k = lit "planname" := by
      have h3 : k ∈ sampleVars.keys := hk
      have h4 : sampleVars.keys = [lit "planname"] := by decide
      rw [h4] at h3
      exact List.mem_singleton.1 h3
    rw [hk2]
    decide

/-! ## machine-list: the table -/

theorem strLess_irrefl (a : GoString) : strLess a a = false := by
  induction a with
  | nil => rfl
  | cons x xs ih => simp [strLess, ih]

/-- Two strings neither of which is less than the other are the same string. -/
theorem strLess_antisymm (a b : GoString) (h1 : strLess a b = false)
    (h2 : strLess b a = false) : a = b := by
  induction a generalizing b with
  | nil =>
    cases b with
    | nil => rfl
    | cons y ys => simp [strLess] at h1
  | cons x xs ih =>
    cases b with
    | nil => simp [strLess] at h2
    | cons y ys =>
      simp only [strLess, Bool.or_eq_false_iff, decide_eq_false_iff_not, Bool.and_eq_false_iff,
        not_lt] at h1 h2
      have hxy : x = y := le_antisymm h2.1 h1.1
      subst hxy
      have e1 : strLess xs ys = false := by simpa using h1.2
      have e2 : strLess ys xs = false := by simpa using h2.2
      rw [ih ys e1 e2]

theorem strLess_total (a b : GoString) : strLess b a = false ∨ strLess a b = false := by
  induction a generalizing b with
  | nil =>
    cases b with
    | nil => left; rfl
    | cons y ys => left; rfl
  | cons x xs ih =>
    cases b with
    | nil => right; rfl
    | cons y ys =>
      simp only [strLess, Bool.or_eq_false_iff, decide_eq_false_iff_not, Bool.and_eq_false_iff,
        not_lt]
      rcases lt_trichotomy x y with h | h | h
      · left
        exact ⟨le_of_lt h, Or.inl (ne_of_gt h)⟩
      · subst h
        rcases ih ys with h3 | h3
        · left; exact ⟨le_refl _, Or.inr h3⟩
        · right; exact ⟨le_refl _, Or.inr h3⟩
      · right
        exact ⟨le_of_lt h, Or.inl (ne_of_gt h)⟩

theorem strLess_le_trans (a b c : GoString) (h1 : strLess b a = false)
    (h2 : strLess c b = false) : strLess c a = false := by
  induction a generalizing b c with
  | nil => cases c <;> rfl
  | cons x xs ih =>
    cases b with
    | nil => simp [strLess] at h1
    | cons y ys =>
      cases c with
      | nil => simp [strLess] at h2
      | cons z zs =>
        simp only [strLess, Bool.or_eq_false_iff, decide_eq_false_iff_not,
          Bool.and_eq_false_iff, not_lt] at h1 h2 ⊢
        refine ⟨le_trans h1.1 h2.1, ?_⟩
        by_cases hzx : z = x
        · right
          subst hzx
          have hyz : y = z := le_antisymm h2.1 h1.1
          subst hyz
          have e1 : strLess ys xs = false := by simpa using h1.2
          have e2 : strLess zs ys = false := by simpa using h2.2
          exact ih ys zs e1 e2
        · left; exact hzx

/-- The strings `sortStrings` returns are the strings given, in ascending order; when no
string is given twice the order is strict. -/
theorem sortStrings_sorted (keys : List GoString) (hnd : keys.Nodup) :
    (sortStrings keys).Perm keys ∧
      (sortStrings keys).Pairwise (fun a b => strLess a b = true) := by
  have hperm : (sortStrings keys).Perm keys := List.perm_insertionSort _ _
  refine ⟨hperm, ?_⟩
  haveI : IsTotal GoString (fun a b => strLess b a = false) := ⟨strLess_total⟩
  haveI : IsTrans GoString (fun a b => strLess b a = false) := ⟨strLess_le_trans⟩
  have hs : (sortStrings keys).Pairwise (fun a b => strLess b a = false) :=
    List.sorted_insertionSort (fun a b => strLess b a = false) keys
  have hn : (sortStrings keys).Pairwise (fun a b => a ≠ b) := hperm.nodup_iff.2 hnd
  refine (hs.and hn).imp ?_
  intro a b hab
  cases h : strLess a b with
  | true => rfl
  | false => exact absurd (strLess_antisymm a b h hab.1) hab.2

theorem le_maxOf (l : List Nat) (x : Nat) (h : x ∈ l) : x ≤ maxOf l := by
  induction l with
  | nil => simp at h
  | cons y ys ih =>
    rcases List.mem_cons.1 h with h1 | h1
    · subst h1
      exact le_max_left _ _
    · exact le_trans (ih h1) (le_max_right _ _)

theorem maxOf_mem (y : Nat) (ys : List Nat) : maxOf (y :: ys) ∈ y :: ys := by
  induction ys generalizing y with
  | nil => simp [maxOf]
  | cons z zs ih =>
    have h := ih z
    show max y (maxOf (z :: zs)) ∈ y :: z :: zs
    rcases max_choice y (maxOf (z :: zs)) with e | e
    · rw [e]; exact List.mem_cons_self _ _
    · rw [e]; exact List.mem_cons_of_mem _ h

theorem getD_mem_or (l : List GoString) (i : Nat) : l.getD i [] ∈ l ∨ l.getD i [] = [] := by
  induction l generalizing i with
  | nil => right; rfl
  | cons x xs ih =>
    cases i with
    | zero => left; simp
    | succ n =>
      rcases ih n with h | h
      · left; simpa using List.mem_cons_of_mem _ h
      · right; simpa using h

/-- Every line of every cell of a column is at most as wide as the column. -/
theorem line_le_columnWidth (t : Table) (i : Nat) (row : Row) (hrow : row ∈ t.rows)
    (line : GoString) (hline : line ∈ splitLines (row.getD i [])) :
    line.length ≤ t.columnWidth i := by
  apply le_maxOf
  apply List.mem_cons_of_mem
  rw [List.mem_flatMap]
  exact ⟨row, hrow, List.mem_map_of_mem _ hline⟩

theorem header_le_columnWidth (t : Table) (i : Nat) :
    (t.Headers.getD i []).length ≤ t.columnWidth i :=
  le_maxOf _ _ (List.mem_cons_self _ _)

theorem length_padRight (s : GoString) (w : Nat) (h : s.length ≤ w) :
    (padRight s w).length = w := by
  simp [padRight]
  omega

theorem length_textLine (widths : List Nat) (cells : List GoString)
    (h : List.Forall₂ (fun w (cell : GoString) => cell.length ≤ w) widths cells) :
    (textLine widths cells).length = 1 + (widths.map fun w => w + 3).sum := by
  have hbar : lit "|" = [124] := by decide
  have hsp : lit " " = [32] := by decide
  have hend : lit " |" = [32, 124] := by decide
  unfold textLine
  rw [hbar, hsp, hend]
  induction h with
  | nil => simp
  | cons hw _ ih =>
    simp only [List.singleton_append, List.length_cons, List.zipWith_cons_cons,
      List.flatten_cons, List.length_append, List.map_cons, List.sum_cons, List.length_nil,
      List.cons_append, List.nil_append, length_padRight _ _ hw] at ih ⊢
    omega

theorem length_borderLine (widths : List Nat) :
    (borderLine widths).length = 1 + (widths.map fun w => w + 3).sum := by
  have hplus : lit "+" = [43] := by decide
  unfold borderLine
  rw [hplus]
  induction widths with
  | nil => simp
  | cons w ws ih =>
    simp only [List.singleton_append, List.length_cons, List.flatMap_cons, List.length_append,
      List.length_replicate, List.map_cons, List.sum_cons, List.length_nil] at ih ⊢
    omega

/-- The width of a column is the length of its header or of a line of one of its cells. -/
theorem columnWidth_attained (t : Table) (i : Nat) :
    t.columnWidth i = (t.Headers.getD i []).length ∨
      ∃ row ∈ t.rows, ∃ line ∈ splitLines (row.getD i []), t.columnWidth i = line.length := by
  have h := maxOf_mem (t.Headers.getD i []).length
    (t.rows.flatMap fun row => (splitLines (row.getD i [])).map List.length)
  rcases List.mem_cons.1 h with h1 | h1
  · left; exact h1
  · right
    obtain ⟨row, hrow, h2⟩ := List.mem_flatMap.1 h1
    obtain ⟨line, hline, h3⟩ := List.mem_map.1 h2
    exact ⟨row, hrow, line, hline, h3.symm⟩

theorem getD_line_le (t : Table) (i : Nat) (row : Row) (hrow : row ∈ t.rows) (n : Nat) :
    ((splitLines (row.getD i [])).getD n []).length ≤ t.columnWidth i := by
  rcases getD_mem_or (splitLines (row.getD i [])) n with h | h
  · exact line_le_columnWidth t i row hrow _ h
  · rw [h]; exact Nat.zero_le _

/-- Every line of the table of machines has the same length. -/
theorem machineTable_line_length (machines : List Machine) (line : GoString)
    (h : line ∈ (machineTable machines).lines) :
    line.length = 1 + ((machineTable machines).columnWidths.map fun w => w + 3).sum := by
  have hW : (machineTable machines).columnWidths =
      [(machineTable machines).columnWidth 0, (machineTable machines).columnWidth 1,
       (machineTable machines).columnWidth 2, (machineTable machines).columnWidth 3] := rfl
  unfold Table.lines at h
  simp only [List.mem_cons, List.mem_flatMap, List.mem_append, List.mem_singleton,
    List.not_mem_nil, or_false] at h
  rcases h with h | h | h | ⟨row, hrow, h | h⟩
  · rw [h]; exact length_borderLine _
  · rw [h]
    apply length_textLine
    rw [hW]
    exact List.Forall₂.cons (header_le_columnWidth (machineTable machines) 0)
      (List.Forall₂.cons (header_le_columnWidth (machineTable machines) 1)
        (List.Forall₂.cons (header_le_columnWidth (machineTable machines) 2)
          (List.Forall₂.cons (header_le_columnWidth (machineTable machines) 3)
            List.Forall₂.nil)))
  · rw [h]; exact length_borderLine _
  · have hrow2 := hrow
    obtain ⟨m, -, hm⟩ := List.mem_map.1 hrow2
    unfold rowLines at h
    obtain ⟨n, -, hn⟩ := List.mem_map.1 h
    rw [← hn]
    apply length_textLine
    rw [hW, ← hm]
    have e0 := getD_line_le (machineTable machines) 0 row hrow n
    have e1 := getD_line_le (machineTable machines) 1 row hrow n
    have e2 := getD_line_le (machineTable machines) 2 row hrow n
    have e3 := getD_line_le (machineTable machines) 3 row hrow n
    rw [← hm] at e0 e1 e2 e3
    exact List.Forall₂.cons e0 (List.Forall₂.cons e1 (List.Forall₂.cons e2
      (List.Forall₂.cons e3 List.Forall₂.nil)))
  · rw [h]; exact length_borderLine _

/-- C11: for every list of machines the response of `GET /iaas/machines` holds,
`machine-list` writes a table with the columns `Id | IaaS | Address | Creation Params`:
a border line, the header, a border line, and for every machine its text lines and a
border line. The creation parameters of a machine stand in one cell as `key=value`
lines, the keys being the keys of the map in strictly ascending order. The width of a
column is the maximum over its header and every line of its cells, every cell line is
padded on the right to that width, and so all lines of the table are equally long. For
the two machines of `TestMachineListRun` the output is the expected string of the
test. -/
theorem machineList_renders_table (machines : List Machine) :
    machineList machines =
      (borderLine (machineTable machines).columnWidths ::
        textLine (machineTable machines).columnWidths
          [lit "Id", lit "IaaS", lit "Address", lit "Creation Params"] ::
        borderLine (machineTable machines).columnWidths ::
        machines.flatMap fun m =>
          rowLines (machineTable machines).columnWidths
              [m.Id, m.Iaas, m.Address, joinLines (paramLines m)] ++
            [borderLine (machineTable machines).columnWidths]).flatMap
        (fun line => line ++ [10]) ∧
    (∀ m ∈ machines, ∃ keys : List GoString,
      keys.Perm m.CreationParams.keys ∧
      keys.Pairwise (fun a b => strLess a b = true) ∧
      paramLines m = keys.map fun k => k ++ lit "=" ++ (m.CreationParams.lookup k).getD []) ∧
    (∀ i, i < 4 →
      ((machineTable machines).Headers.getD i []).length ≤
          (machineTable machines).columnWidth i ∧
        (∀ row ∈ (machineTable machines).rows, ∀ line ∈ splitLines (row.getD i []),
          line.length ≤ (machineTable machines).columnWidth i) ∧
        ((machineTable machines).columnWidth i =
            ((machineTable machines).Headers.getD i []).length ∨
          ∃ row ∈ (machineTable machines).rows, ∃ line ∈ splitLines (row.getD i []),
            (machineTable machines).columnWidth i = line.length)) ∧
    (∀ line ∈ (machineTable machines).lines,
      line.length = 1 + ((machineTable machines).columnWidths.map fun w => w + 3).sum) ∧
    machineList testMachines = testMachineListExpected := by
  refine ⟨?_, ?_, ?_, ?_, ?_⟩
  · unfold machineList Table.Bytes Table.lines machineTable
    simp only [List.flatMap_map]
  · intro m _
    obtain ⟨hperm, hsorted⟩ := sortStrings_sorted m.CreationParams.keys m.CreationParams.keys_nodup
    exact ⟨sortStrings m.CreationParams.keys, hperm, hsorted, rfl⟩
  · intro i _
    exact ⟨header_le_columnWidth _ i,
      fun row hrow line hline => line_le_columnWidth _ i row hrow line hline,
      columnWidth_attained _ i⟩
  · exact machineTable_line_length machines
  · set_option maxRecDepth 100000 in decide

theorem machineList_renders_table_witness :
    (∀ line ∈ (machineTable testMachines).lines, line.length = 43) ∧
      machineList testMachines = testMachineListExpected := by
  have h := machineList_renders_table testMachines
  refine ⟨?_, h.2.2.2.2⟩
  intro line hline
  rw [h.2.2.2.1 line hline]
  set_option maxRecDepth 100000 in decide

end TsuruAdmin
